import Mathlib

/-!
Verification of demoware_tts: stereo reconstruction of a two-party call (`script.js`)

A shallow embedding of `script.js` and the properties of its turn parser,
turn ordering, segment loop, filter-graph assembly and failure handling.

Conventions of the embedding

* JavaScript strings are Lean `String`s. File names come from `readdirSync`,
  which decodes them to well-formed Unicode, so a sequence of scalar values
  is the same data as the sequence of UTF-16 code units.
* A JavaScript Number is `JSNumber`: not-a-number, the two infinities, or a
  finite value given by its exact rational value (every finite double is a
  dyadic rational). The script performs no floating-point arithmetic: it only
  converts text to a Number, tests it, and prints it with `toFixed(3)`, which
  ECMAScript defines on the exact mathematical value.
* Built-ins of the JavaScript host that the script calls but does not define
  (`Number(...)`, `String.prototype.trim`, `localeCompare`, `path.join`,
  `path.resolve`, Number-to-String for huge values) are fields of `Host`.
* The outside world (directory contents, child processes, the clock) is a
  state of an arbitrary type `σ` with transition functions in `Sys σ`.
-/

namespace DemowareTts

/-! ## JavaScript numbers and `Number.prototype.toFixed` -/

/-- A JavaScript Number value. -/
inductive JSNumber where
  | nan
  | posInf
  | negInf
  | finite (q : ℚ)
deriving DecidableEq

/-- The pure built-ins of the JavaScript host used by the script. -/
structure Host where
  /-- The constant `INPUT_DIR = path.resolve("./audio")`. -/
  inputDir : String
  /-- The constant `OUT_DIR = path.resolve("./out")`. -/
  outDir : String
  /-- The built-in `path.join` at two arguments. -/
  pathJoin : String → String → String
  /-- The built-in `path.resolve` at two arguments. -/
  pathResolve : String → String → String
  /-- The built-in `String.prototype.localeCompare`. -/
  localeCompare : String → String → Int
  /-- The conversion `Number(s)` of a string. -/
  toNumber : String → JSNumber
  /-- The built-in `String.prototype.trim`. -/
  trim : String → String
  /-- The conversion Number-to-String at a finite value of magnitude at least `10^21`
  (exponent notation with shortest round-trip digits). -/
  bigToString : ℚ → String

/-- `Number.isFinite(x)`. -/
def JSNumber.isFinite : JSNumber → Bool
  | .finite _ => true
  | _ => false

/-- The comparison `x <= 0` of JavaScript: false whenever `x` is not-a-number. -/
def JSNumber.leZero : JSNumber → Bool
  | .nan => false
  | .posInf => false
  | .negInf => true
  | .finite q => decide (q ≤ 0)

/-- Step 11.a of `toFixed`: the integer `n` for which `n / 10^f - x` is as close to
zero as possible, the larger one when there are two, for `x ≥ 0`. -/
def nearestScaled (x : ℚ) (f : Nat) : Nat :=
  (Int.floor (x * (10 : ℚ) ^ f + 1 / 2)).toNat

/-- Steps 11.b and 11.c of `toFixed`: the decimal digits of `n`, left-padded with zeros
to `f + 1` digits, with a point before the last `f` digits. -/
def fixedDigits (n f : Nat) : String :=
  let m := (toString n).data
  let m := if m.length ≤ f then List.replicate (f + 1 - m.length) '0' ++ m else m
  if f = 0 then String.mk m
  else String.mk (m.take (m.length - f) ++ '.' :: m.drop (m.length - f))

/-- `Number.prototype.toFixed(f)` for `0 ≤ f ≤ 100`, following the ECMAScript steps. -/
def toFixed (H : Host) (x : JSNumber) (f : Nat) : String :=
  match x with
  | .nan => "NaN"
  | .posInf => "Infinity"
  | .negInf => "-Infinity"
  | .finite q =>
    let s := if q < 0 then "-" else ""
    let a := if q < 0 then -q else q
    if (10 : ℚ) ^ 21 ≤ a then s ++ H.bigToString a
    else s ++ fixedDigits (nearestScaled a f) f

/-- The value in seconds that the text printed by `toFixed(3)` denotes, for a finite
non-negative `q` below `10^21`: the nearest multiple of one millisecond. -/
def roundedSeconds (q : ℚ) : ℚ := (nearestScaled q 3 : ℚ) / 1000

/-! ## `parseFile` -/

/-- A parsed turn: the object `{ sortKey, role, fileName }`. -/
structure Turn where
  sortKey : String
  role : String
  fileName : String
deriving DecidableEq, Repr

/-- Line terminators of ECMAScript: the characters that `.` does not match in a regular
expression without the `s` flag. -/
def isLineTerminator (c : Char) : Bool :=
  c = '\n' || c = '\r' || c = Char.ofNat 0x2028 || c = Char.ofNat 0x2029

/-- Case-insensitive match of an input character against a pattern character under the
`i` flag without the `u` flag. Both are canonicalised by upper-casing, and a
non-ASCII character is never canonicalised to an ASCII one, so against an ASCII
pattern character only the ASCII letter cases match. -/
def ciChar (c p : Char) : Bool := c.toUpper = p.toUpper

/-- Case-insensitive match of the whole input `cs` against the literal `pat`. -/
def ciLit : List Char → List Char → Bool
  | [], [] => true
  | c :: cs, p :: ps => ciChar c p && ciLit cs ps
  | _, _ => false

/-- The part `_(agent|customer)\.mp3$` of the pattern, matched against the rest of the
input; the result is capture group 2. -/
def matchTail (rest : List Char) : Option (List Char) :=
  match rest with
  | c :: r =>
    if c = '_' then
      if ciLit r "agent.mp3".data then some (r.take 5)
      else if ciLit r "customer.mp3".data then some (r.take 8)
      else none
    else none
  | [] => none

/-- The match of `/^(.*)_(agent|customer)\.mp3$/i` with the greedy group 1 taking the
first `k` characters, tried for `k`, then `k - 1`, down to `0`. Group 1 matches only
characters that are not line terminators. The result is groups 1 and 2. -/
def matchFrom (cs : List Char) : Nat → Option (List Char × List Char)
  | 0 =>
    (matchTail cs).map (fun g => ([], g))
  | k + 1 =>
    if (cs.take (k + 1)).all (fun c => !isLineTerminator c) then
      match matchTail (cs.drop (k + 1)) with
      | some g => some (cs.take (k + 1), g)
      | none => matchFrom cs k
    else matchFrom cs k

/-- The call `fileName.match(/^(.*)_(agent|customer)\.mp3$/i)`: groups 1 and 2. -/
def regexMatch (fileName : String) : Option (List Char × List Char) :=
  matchFrom fileName.data fileName.data.length

/-- The function `parseFile`. -/
def parseFile (fileName : String) : Option Turn :=
  match regexMatch fileName with
  | none => none
  | some (g1, g2) =>
    some { sortKey := String.mk g1, role := String.mk (g2.map Char.toLower), fileName := fileName }

/-! ## Turn order -/

/-- The comparator `(a, b) => a.sortKey.localeCompare(b.sortKey)` does not ask for `a`
after `b`: its value is not positive. -/
def turnLe (H : Host) (a b : Turn) : Prop :=
  H.localeCompare a.sortKey b.sortKey ≤ 0

instance turnLeDecidable (H : Host) : DecidableRel (turnLe H) :=
  fun a b => inferInstanceAs (Decidable (H.localeCompare a.sortKey b.sortKey ≤ 0))

/-- The call `.sort((a, b) => a.sortKey.localeCompare(b.sortKey))`. The built-in
`Array.prototype.sort` is a stable sort; it is embedded as a stable insertion sort,
which puts an element before the first later element the comparator does not order
before it. -/
def sortTurns (H : Host) (ts : List Turn) : List Turn :=
  ts.insertionSort (turnLe H)

/-- The value of `parsed` for a directory listing:
`listing.map(parseFile).filter(Boolean).sort(...)`. -/
def parsedTurns (H : Host) (listing : List String) : List Turn :=
  sortTurns H ((listing.map parseFile).filterMap id)

/-! ## The segment loop and the filter graph -/

/-- The constant `sampleRate`. -/
def sampleRate : Nat := 48000

/-- The three arrays the segment loop appends to. -/
structure LoopState where
  filterParts : List String
  agentSegLabels : List String
  customerSegLabels : List String
deriving DecidableEq, Repr

/-- The normalisation filter of input `i`. -/
def normalizeFilter (i : Nat) : String :=
  "[" ++ toString i ++ ":a]aresample=" ++ toString sampleRate ++
    ",aformat=sample_fmts=s16:channel_layouts=mono[in" ++ toString i ++ "]"

/-- The speech filter of input `i` with output label `ch` followed by `i`. -/
def speechFilter (ch : String) (i : Nat) : String :=
  "[in" ++ toString i ++ "]asetpts=N/SR[" ++ ch ++ toString i ++ "]"

/-- The silence filter with duration parameter `d` and output label `ch` followed by `i`. -/
def silenceFilter (d : String) (ch : String) (i : Nat) : String :=
  "anullsrc=r=" ++ toString sampleRate ++ ":cl=mono:d=" ++ d ++ "[" ++ ch ++ toString i ++ "]"

/-- The label of segment `i` on channel `ch`. -/
def segLabel (ch : String) (i : Nat) : String :=
  "[" ++ ch ++ toString i ++ "]"

/-- One iteration of the segment loop, at index `i` with `parsed[i].role = role` and
`durations[i] = dur`. -/
def loopBody (H : Host) (i : Nat) (role : String) (dur : JSNumber) (st : LoopState) :
    LoopState :=
  let d := toFixed H dur 3
  let fp := st.filterParts ++ [normalizeFilter i]
  let fp :=
    if role = "agent" then fp ++ [speechFilter "a" i, silenceFilter d "c" i]
    else fp ++ [silenceFilter d "a" i, speechFilter "c" i]
  { filterParts := fp
    agentSegLabels := st.agentSegLabels ++ [segLabel "a" i]
    customerSegLabels := st.customerSegLabels ++ [segLabel "c" i] }

/-- The loop `for (let i = 0; i < filesAbs.length; i++)`, started with three empty
arrays. The arrays `filesAbs` and `durations` are maps of `parsed`, so both lookups
succeed at every index the loop visits. -/
def segmentLoop (H : Host) (filesAbs : List String) (parsed : List Turn)
    (durations : List JSNumber) : LoopState :=
  (List.range filesAbs.length).foldl
    (fun st i =>
      match parsed[i]?, durations[i]? with
      | some p, some x => loopBody H i p.role x st
      | _, _ => st)
    { filterParts := [], agentSegLabels := [], customerSegLabels := [] }

/-- The concat filter of a channel: its segment labels joined, the segment count, and
the output label. -/
def concatFilter (labels : List String) (out : String) : String :=
  String.join labels ++ "concat=n=" ++ toString labels.length ++ ":v=0:a=1[" ++ out ++ "]"

/-- The stereo merge filter. -/
def mergeFilter : String :=
  "[agent][customer]amerge=inputs=2,pan=stereo|c0=c0|c1=c1[st]"

/-- The array `filterParts` when it is joined: the parts of the segment loop, the two
concat filters and the merge filter. -/
def filterParts (H : Host) (filesAbs : List String) (parsed : List Turn)
    (durations : List JSNumber) : List String :=
  let st := segmentLoop H filesAbs parsed durations
  st.filterParts ++
    [concatFilter st.agentSegLabels "agent", concatFilter st.customerSegLabels "customer",
      mergeFilter]

/-- The argument of `-filter_complex`: `filterParts.join(";")`. -/
def filterComplex (H : Host) (filesAbs : List String) (parsed : List Turn)
    (durations : List JSNumber) : String :=
  ";".intercalate (filterParts H filesAbs parsed durations)

/-- The array `ffmpegArgs` when ffmpeg is run. -/
def ffmpegArgs (H : Host) (filesAbs : List String) (parsed : List Turn)
    (durations : List JSNumber) (outFile : String) : List String :=
  ("-y" :: filesAbs.flatMap (fun f => ["-i", f])) ++
    ["-filter_complex", filterComplex H filesAbs parsed durations, "-map", "[st]",
      "-c:a", "libmp3lame", "-q:a", "2", outFile]

/-! ## The outside world, `run` and `ffprobeDurationSeconds` -/

/-- The fields of the result of `spawnSync` that `run` reads. The status is `none` for
the JavaScript `null` of a process that did not exit by itself. -/
structure SpawnResult where
  status : Option Int
  stdout : String
  stderr : String

/-- The transitions of the outside world the script causes, over a world state `σ`. -/
structure Sys (σ : Type) where
  /-- The call `fs.readdirSync(dir)`: the listing, or the message of the error thrown. -/
  readdirSync : String → σ → Except String (List String) × σ
  /-- The call `spawnSync(cmd, args, { encoding: "utf8" })`. -/
  spawnSync : String → List String → σ → SpawnResult × σ
  /-- The call `timestampForFilename()`, which reads the clock. -/
  timestampForFilename : σ → String × σ

/-- What the script does to the outside world, in order. -/
inductive Event where
  /-- Entry into `processConversationDir(dir)`. -/
  | enter (dir : String)
  | readdir (dir : String)
  | spawn (cmd : String) (args : List String)
  | log (msg : String)
  | logError (msg : String)
deriving DecidableEq, Repr

/-- The state of a run: the outside world and the events so far. -/
structure World (σ : Type) where
  state : σ
  trace : List Event

/-- Append an event to the trace. -/
def World.emit {σ : Type} (w : World σ) (e : Event) : World σ :=
  { w with trace := w.trace ++ [e] }

/-- The function `run`: the standard output, or the message of the error thrown. -/
def run {σ : Type} (S : Sys σ) (cmd : String) (args : List String) (w : World σ) :
    Except String String × World σ :=
  let r := S.spawnSync cmd args w.state
  let w1 : World σ := { state := r.2, trace := w.trace ++ [Event.spawn cmd args] }
  if r.1.status ≠ some 0 then
    (.error ("Command failed: " ++ cmd ++ " " ++ " ".intercalate args),
      w1.emit (Event.logError r.1.stderr))
  else (.ok r.1.stdout, w1)

/-- The arguments `ffprobeDurationSeconds` passes to ffprobe. -/
def ffprobeArgs (filePath : String) : List String :=
  ["-v", "error", "-show_entries", "format=duration", "-of",
    "default=noprint_wrappers=1:nokey=1", filePath]

/-- The function `ffprobeDurationSeconds`. -/
def ffprobeDurationSeconds {σ : Type} (H : Host) (S : Sys σ) (filePath : String)
    (w : World σ) : Except String JSNumber × World σ :=
  match run S "ffprobe" (ffprobeArgs filePath) w with
  | (.error e, w1) => (.error e, w1)
  | (.ok stdout, w1) =>
    let out := H.trim stdout
    let sec := H.toNumber out
    if !sec.isFinite || sec.leZero then
      (.error ("Could not read duration for " ++ filePath ++ ". ffprobe output: \"" ++ out ++
        "\""), w1)
    else (.ok sec, w1)

/-- The call `filesAbs.map(ffprobeDurationSeconds)`: the files are probed in order and
the first error thrown ends the map. -/
def probeAll {σ : Type} (H : Host) (S : Sys σ) : List String → World σ →
    Except String (List JSNumber) × World σ
  | [], w => (.ok [], w)
  | f :: fs, w =>
    match ffprobeDurationSeconds H S f w with
    | (.error e, w1) => (.error e, w1)
    | (.ok d, w1) =>
      match probeAll H S fs w1 with
      | (.error e, w2) => (.error e, w2)
      | (.ok ds, w2) => (.ok (d :: ds), w2)

/-! ## `processConversationDir` and the main loop -/

/-- The function `processConversationDir`: it returns, or throws an error message. -/
def processConversationDir {σ : Type} (H : Host) (S : Sys σ) (convoDirName : String)
    (w : World σ) : Except String Unit × World σ :=
  let w := w.emit (Event.enter convoDirName)
  let convoDir := H.pathJoin H.inputDir convoDirName
  let r := S.readdirSync convoDir w.state
  let w : World σ := { state := r.2, trace := w.trace ++ [Event.readdir convoDir] }
  match r.1 with
  | .error e => (.error e, w)
  | .ok listing =>
    let parsed := parsedTurns H listing
    if parsed.length = 0 then
      (.ok (), w.emit (Event.log ("Skipping \"" ++ convoDirName ++
        "\", no _agent/_customer mp3 files found")))
    else
      let hasAgent := parsed.any (fun p => p.role = "agent")
      let hasCustomer := parsed.any (fun p => p.role = "customer")
      if !hasAgent || !hasCustomer then
        (.ok (), w.emit (Event.log ("Skipping \"" ++ convoDirName ++
          "\", missing agent or customer audio")))
      else
        let filesAbs := parsed.map (fun p => H.pathResolve convoDir p.fileName)
        match probeAll H S filesAbs w with
        | (.error e, w) => (.error e, w)
        | (.ok durations, w) =>
          let t := S.timestampForFilename w.state
          let w : World σ := { w with state := t.2 }
          let outFile := H.pathResolve H.outDir (t.1 ++ "_" ++ convoDirName ++ "_stereo.mp3")
          match run S "ffmpeg" (ffmpegArgs H filesAbs parsed durations outFile) w with
          | (.error e, w) => (.error e, w)
          | (.ok _, w) => (.ok (), w.emit (Event.log ("Created: " ++ outFile)))

/-- The loop `for (const dir of convoDirs) { try { ... } catch (err) { ... } }`: an error
thrown by `processConversationDir` is caught and logged, and the loop goes on. -/
def mainLoop {σ : Type} (H : Host) (S : Sys σ) : List String → World σ →
    Except String Unit × World σ
  | [], w => (.ok (), w)
  | dir :: rest, w =>
    match processConversationDir H S dir w with
    | (.ok _, w1) => mainLoop H S rest w1
    | (.error msg, w1) =>
      mainLoop H S rest
        (w1.emit (Event.logError ("Failed processing \"" ++ dir ++ "\": " ++ msg)))

/-! ## Auxiliary definitions for the statements -/

/-- The filters pushed by iteration `i` of the segment loop, in order. -/
def turnFilters (H : Host) (i : Nat) (role : String) (dur : JSNumber) : List String :=
  if role = "agent" then
    [normalizeFilter i, speechFilter "a" i, silenceFilter (toFixed H dur 3) "c" i]
  else [normalizeFilter i, silenceFilter (toFixed H dur 3) "a" i, speechFilter "c" i]

/-- The filters pushed at index `i` for given arrays `parsed` and `durations`. -/
def filtersAt (H : Host) (parsed : List Turn) (durations : List JSNumber) (i : Nat) :
    List String :=
  match parsed[i]?, durations[i]? with
  | some p, some x => turnFilters H i p.role x
  | _, _ => []

/-- The duration parameter of the silence of a turn of duration `dur`: the text
`durations[i].toFixed(3)`. -/
def silenceParam (H : Host) (dur : JSNumber) : String := toFixed H dur 3

/-! ## A concrete host, for evaluating the definitions on examples -/

/-- Comparison of two strings by code points, with the sign convention of
`localeCompare`. -/
def lexCompare : List Char → List Char → Int
  | [], [] => 0
  | [], _ :: _ => -1
  | _ :: _, [] => 1
  | a :: as, b :: bs =>
    if a.toNat < b.toNat then -1 else if b.toNat < a.toNat then 1 else lexCompare as bs

/-- White space removed by the example `trim`. -/
def exampleSpace (c : Char) : Bool := c = ' ' || c = '\n' || c = '\r' || c = '\t'

/-- An example host: POSIX-like paths, code-point string order, a `Number(...)` that
knows a few decimal texts, and a `trim` for ASCII white space. Its `bigToString` is the
text `1e+21` that JavaScript prints for `10^21`, the one large value the examples use. -/
def exampleHost : Host where
  inputDir := "/work/audio"
  outDir := "/work/out"
  pathJoin a b := a ++ "/" ++ b
  pathResolve a b := a ++ "/" ++ b
  localeCompare a b := lexCompare a.data b.data
  toNumber s :=
    if s = "2.000000" then .finite 2
    else if s = "1.500000" then .finite (3 / 2)
    else if s = "3.000000" then .finite 3
    else if s = "0.062500" then .finite (1 / 16)
    else if s = "0" then .finite 0
    else .nan
  trim s := String.mk ((s.data.dropWhile exampleSpace).reverse.dropWhile exampleSpace).reverse
  bigToString _ := "1e+21"

/-- The three turns agent, customer, agent of the worked example. -/
def exampleTurns : List Turn :=
  [ { sortKey := "001", role := "agent", fileName := "001_agent.mp3" },
    { sortKey := "002", role := "customer", fileName := "002_customer.mp3" },
    { sortKey := "003", role := "agent", fileName := "003_agent.mp3" } ]

/-- The resolved paths of `exampleTurns` in the conversation directory `call1`. -/
def exampleFiles : List String :=
  ["/work/audio/call1/001_agent.mp3", "/work/audio/call1/002_customer.mp3",
    "/work/audio/call1/003_agent.mp3"]

/-- The durations 2.0 s, 1.5 s and 3.0 s of the worked example. -/
def exampleDurations : List JSNumber := [.finite 2, .finite (3 / 2), .finite 3]

/-- A directory listing with sort keys `b`, `a`, `c` and one file that is not a turn. -/
def exampleListing : List String :=
  ["b_agent.mp3", "notes.txt", "a_customer.mp3", "c_agent.mp3"]

/-- The event is the start of a child process. -/
def Event.isSpawn : Event → Bool
  | .spawn _ _ => true
  | _ => false

/-- The event is the start of ffmpeg. -/
def Event.isFfmpeg : Event → Bool
  | .spawn cmd _ => cmd = "ffmpeg"
  | _ => false

/-- The event is an entry into `processConversationDir`. -/
def Event.isEnter : Event → Bool
  | .enter _ => true
  | _ => false

/-- The conversation directories `processConversationDir` was entered with, in order. -/
def enters (tr : List Event) : List String :=
  tr.filterMap (fun e => match e with
    | .enter d => some d
    | _ => none)

/-- The probe of `filePath` fails in the world state `s`: ffprobe does not exit with
status 0, or its trimmed output does not convert to a finite number greater than 0. -/
def probeFailsAt {σ : Type} (H : Host) (S : Sys σ) (filePath : String) (s : σ) : Prop :=
  (S.spawnSync "ffprobe" (ffprobeArgs filePath) s).1.status ≠ some 0 ∨
    (H.toNumber (H.trim (S.spawnSync "ffprobe" (ffprobeArgs filePath) s).1.stdout)).isFinite
      = false ∨
    (H.toNumber (H.trim (S.spawnSync "ffprobe" (ffprobeArgs filePath) s).1.stdout)).leZero
      = true

/-- An example world, whose state counts the child processes started. The directory
`call1` holds three turns and a stray file, `agentonly` holds one agent turn, and in
`broken` the probe of the customer turn prints `N/A`. Any other directory cannot be
read, and ffprobe fails on any other file. -/
def exampleSys : Sys Nat where
  readdirSync dir s :=
    if dir = "/work/audio/call1" then
      (.ok ["003_agent.mp3", "notes.txt", "001_agent.mp3", "002_customer.mp3"], s)
    else if dir = "/work/audio/agentonly" then (.ok ["001_agent.mp3"], s)
    else if dir = "/work/audio/broken" then (.ok ["001_agent.mp3", "002_customer.mp3"], s)
    else (.error "ENOENT: no such file or directory", s)
  spawnSync cmd args s :=
    if cmd = "ffprobe" then
      if args.getLast? = some "/work/audio/call1/001_agent.mp3" then
        ({ status := some 0, stdout := "2.000000\n", stderr := "" }, s + 1)
      else if args.getLast? = some "/work/audio/call1/002_customer.mp3" then
        ({ status := some 0, stdout := "3.000000\n", stderr := "" }, s + 1)
      else if args.getLast? = some "/work/audio/call1/003_agent.mp3" then
        ({ status := some 0, stdout := "2.000000\n", stderr := "" }, s + 1)
      else if args.getLast? = some "/work/audio/broken/001_agent.mp3" then
        ({ status := some 0, stdout := "2.000000\n", stderr := "" }, s + 1)
      else if args.getLast? = some "/work/audio/broken/002_customer.mp3" then
        ({ status := some 0, stdout := "N/A\n", stderr := "" }, s + 1)
      else ({ status := some 1, stdout := "", stderr := "No such file or directory" }, s + 1)
    else ({ status := some 0, stdout := "", stderr := "" }, s + 1)
  timestampForFilename s := ("20251218T093217", s)

/-- The start of a run in the example world. -/
def exampleWorld : World Nat := { state := 0, trace := [] }

/-- The event belongs to the probing of durations: the start of ffprobe, or an error
line. -/
def Event.isProbeEvent : Event → Bool
  | .spawn cmd _ => cmd = "ffprobe"
  | .logError _ => true
  | _ => false

/-- The world in which `processConversationDir` goes on after `readdirSync` returned. -/
def afterReaddir {σ : Type} (H : Host) (S : Sys σ) (convoDirName : String) (w : World σ) :
    World σ :=
  { state := (S.readdirSync (H.pathJoin H.inputDir convoDirName) w.state).2
    trace := w.trace ++
      [Event.enter convoDirName, Event.readdir (H.pathJoin H.inputDir convoDirName)] }

/-- The array `filesAbs` for a directory listing. -/
def resolvedFiles (H : Host) (convoDirName : String) (listing : List String) : List String :=
  (parsedTurns H listing).map
    (fun p => H.pathResolve (H.pathJoin H.inputDir convoDirName) p.fileName)

/-- The conversation is skipped: no turn, no agent turn, or no customer turn. -/
def skipped (H : Host) (listing : List String) : Prop :=
  parsedTurns H listing = [] ∨
    (parsedTurns H listing).any (fun p => p.role = "agent") = false ∨
    (parsedTurns H listing).any (fun p => p.role = "customer") = false

/-! ## The value of a duration parameter -/

/-- The number written by a sequence of decimal digits. -/
def digitsToNat (cs : List Char) : Nat :=
  cs.foldl (fun acc c => 10 * acc + (c.toNat - 48)) 0

/-- The number of seconds a duration parameter of the form `digits.digits` denotes;
`none` for any other text. -/
def decimalValue (s : String) : Option ℚ :=
  match s.data.dropWhile (fun c => c ≠ '.') with
  | _ :: fp =>
    if s.data.takeWhile (fun c => c ≠ '.') ≠ [] ∧ fp ≠ [] ∧
        (s.data.takeWhile (fun c => c ≠ '.')).all Char.isDigit = true ∧
        fp.all Char.isDigit = true then
      some ((digitsToNat (s.data.takeWhile (fun c => c ≠ '.')) : ℚ) +
        (digitsToNat fp : ℚ) / 10 ^ fp.length)
    else none
  | [] => none

/-! ## Channel timelines -/

/-- A channel segment as the segment loop emits it: the speech of an input, or a
silence with its duration parameter. -/
inductive Segment where
  | speech (input : Nat)
  | silence (param : String)
deriving DecidableEq, Repr

/-- The filter that produces segment `i` of channel `ch`. -/
def Segment.filter (ch : String) (i : Nat) : Segment → String
  | .speech k => "[in" ++ toString k ++ "]asetpts=N/SR[" ++ ch ++ toString i ++ "]"
  | .silence d => silenceFilter d ch i

/-- The agent segment of turn `i`, as the loop body chooses it. -/
def agentSegment (H : Host) (i : Nat) (p : Turn) (x : JSNumber) : Segment :=
  if p.role = "agent" then .speech i else .silence (silenceParam H x)

/-- The customer segment of turn `i`, as the loop body chooses it. -/
def customerSegment (H : Host) (i : Nat) (p : Turn) (x : JSNumber) : Segment :=
  if p.role = "agent" then .silence (silenceParam H x) else .speech i

/-- The segments of the agent channel, in turn order. -/
def agentTimeline (H : Host) (parsed : List Turn) (durations : List JSNumber) : List Segment :=
  List.zipWith (fun i px => agentSegment H i px.1 px.2) (List.range parsed.length)
    (parsed.zip durations)

/-- The segments of the customer channel, in turn order. -/
def customerTimeline (H : Host) (parsed : List Turn) (durations : List JSNumber) :
    List Segment :=
  List.zipWith (fun i px => customerSegment H i px.1 px.2) (List.range parsed.length)
    (parsed.zip durations)

/-- The duration of a segment in seconds: a speech segment lasts as long as its clip,
a silence as long as its duration parameter says. -/
def Segment.seconds (durations : List JSNumber) : Segment → Option ℚ
  | .speech k =>
    match durations[k]? with
    | some (.finite q) => some q
    | _ => none
  | .silence d => decimalValue d

/-- The summed duration of a channel. -/
def timelineSeconds (durations : List JSNumber) : List Segment → Option ℚ
  | [] => some 0
  | s :: tl =>
    match s.seconds durations, timelineSeconds durations tl with
    | some a, some b => some (a + b)
    | _, _ => none

/-- A conversation of two turns: an agent clip of 1/1024 s, then a customer clip of 2 s. -/
def shortTurns : List Turn :=
  [ { sortKey := "001", role := "agent", fileName := "001_agent.mp3" },
    { sortKey := "002", role := "customer", fileName := "002_customer.mp3" } ]

/-- The resolved paths of `shortTurns`. -/
def shortFiles : List String :=
  ["/work/audio/call2/001_agent.mp3", "/work/audio/call2/002_customer.mp3"]

/-- The durations of `shortTurns`, both exact binary fractions. -/
def shortDurations : List ℚ := [1 / 1024, 2]

/-- The total of the agent channel when every duration is finite: the clip duration for
an agent turn, the duration rounded to the millisecond for any other turn. -/
def agentTotal (parsed : List Turn) (qs : List ℚ) : ℚ :=
  (List.zipWith (fun p q => if p.role = "agent" then q else roundedSeconds q) parsed qs).sum

/-- The total of the customer channel when every duration is finite: the duration
rounded to the millisecond for an agent turn, the clip duration for any other turn. -/
def customerTotal (parsed : List Turn) (qs : List ℚ) : ℚ :=
  (List.zipWith (fun p q => if p.role = "agent" then roundedSeconds q else q) parsed qs).sum

/-- The durations of the worked example as exact numbers of seconds. -/
def exampleSeconds : List ℚ := [2, 3 / 2, 3]

/-- A directory listing whose sort keys `9` and `10` do not have the same width. -/
def unpaddedListing : List String := ["9_agent.mp3", "10_customer.mp3"]

/-- A second conversation with the roles of `exampleTurns` and other keys and names. -/
def otherTurns : List Turn :=
  [ { sortKey := "20251218_093214", role := "agent", fileName := "20251218_093214_AGENT.MP3" },
    { sortKey := "20251218_093311", role := "customer",
      fileName := "20251218_093311_customer.mp3" },
    { sortKey := "x", role := "agent", fileName := "x_agent.mp3" } ]

/-- The resolved paths of `otherTurns` in the conversation directory `call7`. -/
def otherFiles : List String :=
  ["/work/audio/call7/20251218_093214_AGENT.MP3",
    "/work/audio/call7/20251218_093311_customer.mp3", "/work/audio/call7/x_agent.mp3"]

/-- The durations of a conversation whose first clip lasts 1/4096 s, an exact binary
fraction below half a millisecond. -/
def tinyDurations : List ℚ := [1 / 4096, 2]

/-- The listing of the directory `call1` of the example world. -/
def call1Listing : List String :=
  ["003_agent.mp3", "notes.txt", "001_agent.mp3", "002_customer.mp3"]

/-- The output file of a conversation, named after the clock read in the world `w`. -/
def outputFile {σ : Type} (H : Host) (S : Sys σ) (convoDirName : String) (w : World σ) :
    String :=
  H.pathResolve H.outDir
    ((S.timestampForFilename w.state).1 ++ "_" ++ convoDirName ++ "_stereo.mp3")

/-! ## The filter graph as a structure -/

/-- An input pad of a filter: the audio stream of an input file, written `[i:a]`, or a
link label, written `[name]`. -/
inductive Pad where
  | stream (input : Nat)
  | link (name : String)
deriving DecidableEq, Repr

/-- The text of an input pad. -/
def Pad.text : Pad → String
  | .stream i => "[" ++ toString i ++ ":a]"
  | .link name => "[" ++ name ++ "]"

/-- One filter of the graph: its input pads, the filter and its options, and the link
label of its one output. -/
structure Filter where
  inputs : List Pad
  body : String
  output : String
deriving DecidableEq, Repr

/-- The text of a filter: the input pads, the body, the output label in brackets. -/
def Filter.text (f : Filter) : String :=
  String.join (f.inputs.map Pad.text) ++ f.body ++ "[" ++ f.output ++ "]"

/-- The normalisation of input `i`: from the stream `[i:a]` to the label `in<i>`. -/
def normalizeNode (i : Nat) : Filter :=
  { inputs := [.stream i]
    body := "aresample=48000,aformat=sample_fmts=s16:channel_layouts=mono"
    output := "in" ++ toString i }

/-- The speech of input `i` on channel `ch`: from the label `in<i>` to `<ch><i>`. -/
def speechNode (ch : String) (i : Nat) : Filter :=
  { inputs := [.link ("in" ++ toString i)], body := "asetpts=N/SR", output := ch ++ toString i }

/-- The silence of turn `i` on channel `ch`, a source with no input. -/
def silenceNode (d : String) (ch : String) (i : Nat) : Filter :=
  { inputs := [], body := "anullsrc=r=48000:cl=mono:d=" ++ d, output := ch ++ toString i }

/-- The three filters of turn `i`, in the order the loop pushes them. -/
def turnNodes (H : Host) (i : Nat) (role : String) (dur : JSNumber) : List Filter :=
  if role = "agent" then
    [normalizeNode i, speechNode "a" i, silenceNode (toFixed H dur 3) "c" i]
  else [normalizeNode i, silenceNode (toFixed H dur 3) "a" i, speechNode "c" i]

/-- The filters of index `i` for given arrays `parsed` and `durations`. -/
def nodesAt (H : Host) (parsed : List Turn) (durations : List JSNumber) (i : Nat) :
    List Filter :=
  match parsed[i]?, durations[i]? with
  | some p, some x => turnNodes H i p.role x
  | _, _ => []

/-- The concat of the `n` segments of channel `ch` into the label `out`. -/
def concatNode (ch : String) (n : Nat) (out : String) : Filter :=
  { inputs := (List.range n).map (fun i => Pad.link (ch ++ toString i))
    body := "concat=n=" ++ toString n ++ ":v=0:a=1"
    output := out }

/-- The stereo merge of the labels `agent` and `customer` into `st`. -/
def mergeNode : Filter :=
  { inputs := [.link "agent", .link "customer"]
    body := "amerge=inputs=2,pan=stereo|c0=c0|c1=c1"
    output := "st" }

/-- The filter graph of a conversation as a list of filters, in the order of
`filterParts`. -/
def graph (H : Host) (parsed : List Turn) (durations : List JSNumber) : List Filter :=
  (List.range parsed.length).flatMap (nodesAt H parsed durations) ++
    [concatNode "a" parsed.length "agent", concatNode "c" parsed.length "customer", mergeNode]

/-- The link labels the graph produces, in order. -/
def producedLabels (g : List Filter) : List String := g.map (fun f => f.output)

/-- The input pads the graph consumes, in order. -/
def consumedPads (g : List Filter) : List Pad := g.flatMap (fun f => f.inputs)

/-- The durations of the worked example with the customer clip longer by 1/1024 s: the
second duration, 1.5009765625 s, is not a whole number of milliseconds. -/
def unevenDurations : List ℚ := [2, 1537 / 1024, 3]
/-! ## The segment loop in closed form -/

theorem loopBody_eq (H : Host) (i : Nat) (role : String) (dur : JSNumber) (st : LoopState) :
    loopBody H i role dur st =
      { filterParts := st.filterParts ++ turnFilters H i role dur
        agentSegLabels := st.agentSegLabels ++ [segLabel "a" i]
        customerSegLabels := st.customerSegLabels ++ [segLabel "c" i] } := by
  unfold loopBody turnFilters
  by_cases h : role = "agent" <;> simp [h]

theorem loop_prefix (H : Host) (parsed : List Turn) (durations : List JSNumber) (n : Nat)
    (hp : n ≤ parsed.length) (hd : n ≤ durations.length) :
    (List.range n).foldl
        (fun st i =>
          match parsed[i]?, durations[i]? with
          | some p, some x => loopBody H i p.role x st
          | _, _ => st)
        { filterParts := [], agentSegLabels := [], customerSegLabels := [] } =
      { filterParts := (List.range n).flatMap (filtersAt H parsed durations)
        agentSegLabels := (List.range n).map (segLabel "a")
        customerSegLabels := (List.range n).map (segLabel "c") } := by
  induction n with
  | zero => simp
  | succ n ih =>
    have hp1 : n < parsed.length := by omega
    have hd1 : n < durations.length := by omega
    rw [List.range_succ, List.foldl_append, ih (by omega) (by omega)]
    simp only [List.foldl_cons, List.foldl_nil, List.getElem?_eq_getElem hp1,
      List.getElem?_eq_getElem hd1, loopBody_eq, List.flatMap_append, List.map_append,
      List.flatMap_singleton, List.map_cons, List.map_nil, filtersAt]

theorem segmentLoop_eq (H : Host) (filesAbs : List String) (parsed : List Turn)
    (durations : List JSNumber) (hp : parsed.length = filesAbs.length)
    (hd : durations.length = filesAbs.length) :
    segmentLoop H filesAbs parsed durations =
      { filterParts := (List.range filesAbs.length).flatMap (filtersAt H parsed durations)
        agentSegLabels := (List.range filesAbs.length).map (segLabel "a")
        customerSegLabels := (List.range filesAbs.length).map (segLabel "c") } :=
  loop_prefix H parsed durations filesAbs.length (by omega) (by omega)

theorem length_flatMap_range_three (g : Nat → List String) (n : Nat)
    (hg : ∀ i, i < n → (g i).length = 3) : ((List.range n).flatMap g).length = 3 * n := by
  induction n with
  | zero => simp
  | succ n ih =>
    rw [List.range_succ, List.flatMap_append, List.length_append, List.flatMap_singleton,
      ih (fun i hi => hg i (by omega)), hg n (by omega)]
    omega

theorem getElem?_flatMap_range_three (g : Nat → List String) (n : Nat)
    (hg : ∀ i, i < n → (g i).length = 3) (i j : Nat) (hi : i < n) (hj : j < 3) :
    ((List.range n).flatMap g)[3 * i + j]? = (g i)[j]? := by
  induction n with
  | zero => omega
  | succ n ih =>
    have hlen := length_flatMap_range_three g n (fun k hk => hg k (by omega))
    rw [List.range_succ, List.flatMap_append, List.flatMap_singleton]
    by_cases hin : i < n
    · rw [List.getElem?_append_left (by omega)]
      exact ih (fun k hk => hg k (by omega)) hin
    · have hi' : i = n := by omega
      subst hi'
      rw [List.getElem?_append_right (by omega), hlen]
      congr 1
      omega

/-! ## Text of the filters and of `toFixed` -/

theorem speech_ne_silence (ch ch' d : String) (i j : Nat) :
    speechFilter ch i ≠ silenceFilter d ch' j := by
  intro h
  have h2 := congrArg String.data h
  simp [speechFilter, silenceFilter, String.data_append] at h2

theorem nearestScaled_eq (x : ℚ) (f n : Nat) (h1 : (n : ℚ) ≤ x * 10 ^ f + 1 / 2)
    (h2 : x * 10 ^ f + 1 / 2 < n + 1) : nearestScaled x f = n := by
  unfold nearestScaled
  have : Int.floor (x * (10 : ℚ) ^ f + 1 / 2) = (n : ℤ) := by
    rw [Int.floor_eq_iff]
    exact ⟨by exact_mod_cast h1, by exact_mod_cast h2⟩
  rw [this]; rfl

theorem toFixed_finite (H : Host) (q : ℚ) (f : Nat) (h0 : 0 ≤ q) (h1 : q < 10 ^ 21) :
    toFixed H (.finite q) f = fixedDigits (nearestScaled q f) f := by
  simp only [toFixed, not_lt.mpr h0, if_false, not_le.mpr h1]
  simp

theorem toFixed_two (H : Host) : toFixed H (.finite 2) 3 = "2.000" := by
  rw [toFixed_finite H _ _ (by norm_num) (by norm_num),
    nearestScaled_eq _ _ 2000 (by norm_num) (by norm_num)]
  decide

theorem toFixed_three_halves (H : Host) : toFixed H (.finite (3 / 2)) 3 = "1.500" := by
  rw [toFixed_finite H _ _ (by norm_num) (by norm_num),
    nearestScaled_eq _ _ 1500 (by norm_num) (by norm_num)]
  decide

theorem toFixed_three (H : Host) : toFixed H (.finite 3) 3 = "3.000" := by
  rw [toFixed_finite H _ _ (by norm_num) (by norm_num),
    nearestScaled_eq _ _ 3000 (by norm_num) (by norm_num)]
  decide

theorem turnFilters_length (H : Host) (i : Nat) (role : String) (dur : JSNumber) :
    (turnFilters H i role dur).length = 3 := by
  unfold turnFilters
  split <;> rfl

theorem filtersAt_length (H : Host) (parsed : List Turn) (durations : List JSNumber)
    (n i : Nat) (hp : parsed.length = n) (hd : durations.length = n) (hi : i < n) :
    (filtersAt H parsed durations i).length = 3 := by
  unfold filtersAt
  rw [List.getElem?_eq_getElem (by omega), List.getElem?_eq_getElem (by omega)]
  exact turnFilters_length H i _ _

theorem segmentLoop_filterParts_getElem? (H : Host) (filesAbs : List String)
    (parsed : List Turn) (durations : List JSNumber) (hp : parsed.length = filesAbs.length)
    (hd : durations.length = filesAbs.length) (i j : Nat) (hi : i < filesAbs.length)
    (hj : j < 3) :
    (segmentLoop H filesAbs parsed durations).filterParts[3 * i + j]? =
      (filtersAt H parsed durations i)[j]? := by
  rw [segmentLoop_eq H filesAbs parsed durations hp hd]
  exact getElem?_flatMap_range_three _ _
    (fun k hk => filtersAt_length H parsed durations _ k hp hd hk) i j hi hj

/-! ## Segment counts -/

theorem concatFilter_agent (labels : List String) :
    concatFilter labels "agent" =
      String.join labels ++ "concat=n=" ++ toString labels.length ++ ":v=0:a=1[agent]" := by
  unfold concatFilter
  simp only [String.append_assoc]
  rfl

theorem concatFilter_customer (labels : List String) :
    concatFilter labels "customer" =
      String.join labels ++ "concat=n=" ++ toString labels.length ++ ":v=0:a=1[customer]" := by
  unfold concatFilter
  simp only [String.append_assoc]
  rfl

theorem filterParts_eq (H : Host) (filesAbs : List String) (parsed : List Turn)
    (durations : List JSNumber) (hp : parsed.length = filesAbs.length)
    (hd : durations.length = filesAbs.length) :
    filterParts H filesAbs parsed durations =
      (List.range parsed.length).flatMap (filtersAt H parsed durations) ++
        [concatFilter ((List.range parsed.length).map (segLabel "a")) "agent",
          concatFilter ((List.range parsed.length).map (segLabel "c")) "customer",
          mergeFilter] := by
  unfold filterParts
  simp only [segmentLoop_eq H filesAbs parsed durations hp hd, hp]

theorem loopParts_length (H : Host) (parsed : List Turn) (durations : List JSNumber)
    (hd : durations.length = parsed.length) :
    ((List.range parsed.length).flatMap (filtersAt H parsed durations)).length =
      3 * parsed.length :=
  length_flatMap_range_three _ _ (fun k hk => filtersAt_length H parsed durations _ k rfl hd hk)

/-- C2. Segment counts. When the segment loop runs on arrays `parsed` and `durations` as
long as `filesAbs`, it leaves as many agent segment labels as customer segment labels
as turns, and the two concat filters, which follow the `3 * n` filters of the loop, carry
that number as their `n=` parameter. -/
theorem segment_counts (H : Host) (filesAbs : List String) (parsed : List Turn)
    (durations : List JSNumber) (hp : parsed.length = filesAbs.length)
    (hd : durations.length = filesAbs.length) :
    (segmentLoop H filesAbs parsed durations).agentSegLabels.length = parsed.length ∧
    (segmentLoop H filesAbs parsed durations).customerSegLabels.length = parsed.length ∧
    (filterParts H filesAbs parsed durations)[3 * parsed.length]? =
      some (String.join (segmentLoop H filesAbs parsed durations).agentSegLabels ++
        "concat=n=" ++ toString parsed.length ++ ":v=0:a=1[agent]") ∧
    (filterParts H filesAbs parsed durations)[3 * parsed.length + 1]? =
      some (String.join (segmentLoop H filesAbs parsed durations).customerSegLabels ++
        "concat=n=" ++ toString parsed.length ++ ":v=0:a=1[customer]") := by
  have hlen := loopParts_length H parsed durations (by omega)
  have hfp := filterParts_eq H filesAbs parsed durations hp hd
  have hl := segmentLoop_eq H filesAbs parsed durations hp hd
  refine ⟨by rw [hl]; simp [hp], by rw [hl]; simp [hp], ?_, ?_⟩
  · rw [hfp, List.getElem?_append_right (by omega), hlen, hl, concatFilter_agent]
    simp [hp]
  · rw [hfp, List.getElem?_append_right (by omega), hlen, hl, concatFilter_customer]
    simp [hp]

/-- C2, worked example: three turns give three labels per channel and `n=3`. -/
theorem segment_counts_witness :
    (exampleTurns.length = exampleFiles.length ∧
      exampleDurations.length = exampleFiles.length) ∧
    ((segmentLoop exampleHost exampleFiles exampleTurns exampleDurations).agentSegLabels.length =
        exampleTurns.length ∧
      (segmentLoop exampleHost exampleFiles exampleTurns
        exampleDurations).customerSegLabels.length = exampleTurns.length ∧
      (filterParts exampleHost exampleFiles exampleTurns exampleDurations)[3 *
          exampleTurns.length]? =
        some (String.join
            (segmentLoop exampleHost exampleFiles exampleTurns exampleDurations).agentSegLabels ++
          "concat=n=" ++ toString exampleTurns.length ++ ":v=0:a=1[agent]") ∧
      (filterParts exampleHost exampleFiles exampleTurns exampleDurations)[3 *
          exampleTurns.length + 1]? =
        some (String.join
            (segmentLoop exampleHost exampleFiles exampleTurns
              exampleDurations).customerSegLabels ++
          "concat=n=" ++ toString exampleTurns.length ++ ":v=0:a=1[customer]")) ∧
    String.join (segmentLoop exampleHost exampleFiles exampleTurns exampleDurations).agentSegLabels ++
        "concat=n=" ++ toString exampleTurns.length ++ ":v=0:a=1[agent]" =
      "[a0][a1][a2]concat=n=3:v=0:a=1[agent]" :=
  ⟨⟨rfl, rfl⟩, segment_counts exampleHost exampleFiles exampleTurns exampleDurations rfl rfl,
    by decide⟩

/-! ## Concatenation order and stereo mapping -/

theorem segLabel_a (i : Nat) : segLabel "a" i = "[a" ++ toString i ++ "]" := rfl

theorem segLabel_c (i : Nat) : segLabel "c" i = "[c" ++ toString i ++ "]" := rfl

/-- C9. Concatenation order is turn order. When the segment loop runs on `n` turns,
the agent segment labels are `[a0]`, ..., `[a(n-1)]` in increasing index, the customer
segment labels are `[c0]`, ..., `[c(n-1)]`, and the two concat filters, at positions `3 * n`
and `3 * n + 1` of `filterParts`, are these labels joined in that order, followed by
`concat=n=<n>:v=0:a=1[agent]` and `concat=n=<n>:v=0:a=1[customer]`. -/
theorem concat_order (H : Host) (filesAbs : List String) (parsed : List Turn)
    (durations : List JSNumber) (hp : parsed.length = filesAbs.length)
    (hd : durations.length = filesAbs.length) :
    (segmentLoop H filesAbs parsed durations).agentSegLabels =
      (List.range parsed.length).map (fun i => "[a" ++ toString i ++ "]") ∧
    (segmentLoop H filesAbs parsed durations).customerSegLabels =
      (List.range parsed.length).map (fun i => "[c" ++ toString i ++ "]") ∧
    (filterParts H filesAbs parsed durations)[3 * parsed.length]? =
      some (String.join ((List.range parsed.length).map (fun i => "[a" ++ toString i ++ "]")) ++
        "concat=n=" ++ toString parsed.length ++ ":v=0:a=1[agent]") ∧
    (filterParts H filesAbs parsed durations)[3 * parsed.length + 1]? =
      some (String.join ((List.range parsed.length).map (fun i => "[c" ++ toString i ++ "]")) ++
        "concat=n=" ++ toString parsed.length ++ ":v=0:a=1[customer]") := by
  have hlen := loopParts_length H parsed durations (by omega)
  have hfp := filterParts_eq H filesAbs parsed durations hp hd
  have hl := segmentLoop_eq H filesAbs parsed durations hp hd
  have ha : List.map (segLabel "a") (List.range parsed.length) =
      (List.range parsed.length).map (fun i => "[a" ++ toString i ++ "]") :=
    List.map_congr_left (fun i _ => segLabel_a i)
  have hc : List.map (segLabel "c") (List.range parsed.length) =
      (List.range parsed.length).map (fun i => "[c" ++ toString i ++ "]") :=
    List.map_congr_left (fun i _ => segLabel_c i)
  refine ⟨by rw [hl, ← hp, ha], by rw [hl, ← hp, hc], ?_, ?_⟩
  · rw [hfp, List.getElem?_append_right (by omega), hlen, concatFilter_agent, ha]
    simp
  · rw [hfp, List.getElem?_append_right (by omega), hlen, concatFilter_customer, hc]
    simp

/-- C9, worked example: three turns give `[a0][a1][a2]concat=n=3:v=0:a=1[agent]` and
`[c0][c1][c2]concat=n=3:v=0:a=1[customer]`. -/
theorem concat_order_witness :
    (exampleTurns.length = exampleFiles.length ∧
      exampleDurations.length = exampleFiles.length) ∧
    ((segmentLoop exampleHost exampleFiles exampleTurns exampleDurations).agentSegLabels =
        (List.range exampleTurns.length).map (fun i => "[a" ++ toString i ++ "]") ∧
      (segmentLoop exampleHost exampleFiles exampleTurns exampleDurations).customerSegLabels =
        (List.range exampleTurns.length).map (fun i => "[c" ++ toString i ++ "]") ∧
      (filterParts exampleHost exampleFiles exampleTurns exampleDurations)[3 *
          exampleTurns.length]? =
        some (String.join
            ((List.range exampleTurns.length).map (fun i => "[a" ++ toString i ++ "]")) ++
          "concat=n=" ++ toString exampleTurns.length ++ ":v=0:a=1[agent]") ∧
      (filterParts exampleHost exampleFiles exampleTurns exampleDurations)[3 *
          exampleTurns.length + 1]? =
        some (String.join
            ((List.range exampleTurns.length).map (fun i => "[c" ++ toString i ++ "]")) ++
          "concat=n=" ++ toString exampleTurns.length ++ ":v=0:a=1[customer]")) ∧
    String.join ((List.range exampleTurns.length).map (fun i => "[a" ++ toString i ++ "]")) ++
        "concat=n=" ++ toString exampleTurns.length ++ ":v=0:a=1[agent]" =
      "[a0][a1][a2]concat=n=3:v=0:a=1[agent]" ∧
    String.join ((List.range exampleTurns.length).map (fun i => "[c" ++ toString i ++ "]")) ++
        "concat=n=" ++ toString exampleTurns.length ++ ":v=0:a=1[customer]" =
      "[c0][c1][c2]concat=n=3:v=0:a=1[customer]" :=
  ⟨⟨rfl, rfl⟩, concat_order exampleHost exampleFiles exampleTurns exampleDurations rfl rfl,
    by decide, by decide⟩

theorem inputArgs_length (filesAbs : List String) :
    (filesAbs.flatMap (fun f => ["-i", f])).length = 2 * filesAbs.length := by
  induction filesAbs with
  | nil => rfl
  | cons f fs ih =>
    simp only [List.flatMap_cons, List.length_append, List.length_cons, List.length_nil]
    omega

/-- C10. Stereo mapping. For all inputs the compiled `filterParts` is the filters of the
segment loop followed by exactly three filters: the concat of the agent segment labels
with output `[agent]`, the concat of the customer segment labels with output
`[customer]`, and last `[agent][customer]amerge=inputs=2,pan=stereo|c0=c0|c1=c1[st]`, whose
first input is `[agent]`, mapped to `c0`, and whose second input is `[customer]`, mapped to
`c1`. The ffmpeg arguments after the inputs are `-filter_complex`, the joined filters,
`-map`, `[st]`, the encoder options and the output file, so `[st]` is the one stream
mapped. -/
theorem stereo_mapping (H : Host) (filesAbs : List String) (parsed : List Turn)
    (durations : List JSNumber) (outFile : String) :
    filterParts H filesAbs parsed durations =
      (segmentLoop H filesAbs parsed durations).filterParts ++
        [String.join (segmentLoop H filesAbs parsed durations).agentSegLabels ++ "concat=n=" ++
            toString (segmentLoop H filesAbs parsed durations).agentSegLabels.length ++
            ":v=0:a=1[agent]",
          String.join (segmentLoop H filesAbs parsed durations).customerSegLabels ++ "concat=n=" ++
            toString (segmentLoop H filesAbs parsed durations).customerSegLabels.length ++
            ":v=0:a=1[customer]",
          "[agent][customer]amerge=inputs=2,pan=stereo|c0=c0|c1=c1[st]"] ∧
    (filterParts H filesAbs parsed durations).getLast? =
      some "[agent][customer]amerge=inputs=2,pan=stereo|c0=c0|c1=c1[st]" ∧
    ffmpegArgs H filesAbs parsed durations outFile =
      "-y" :: filesAbs.flatMap (fun f => ["-i", f]) ++
        ["-filter_complex", ";".intercalate (filterParts H filesAbs parsed durations),
          "-map", "[st]", "-c:a", "libmp3lame", "-q:a", "2", outFile] ∧
    (ffmpegArgs H filesAbs parsed durations outFile)[1 + 2 * filesAbs.length + 2]? =
      some "-map" ∧
    (ffmpegArgs H filesAbs parsed durations outFile)[1 + 2 * filesAbs.length + 3]? =
      some "[st]" := by
  have hfp : filterParts H filesAbs parsed durations =
      (segmentLoop H filesAbs parsed durations).filterParts ++
        [String.join (segmentLoop H filesAbs parsed durations).agentSegLabels ++ "concat=n=" ++
            toString (segmentLoop H filesAbs parsed durations).agentSegLabels.length ++
            ":v=0:a=1[agent]",
          String.join (segmentLoop H filesAbs parsed durations).customerSegLabels ++ "concat=n=" ++
            toString (segmentLoop H filesAbs parsed durations).customerSegLabels.length ++
            ":v=0:a=1[customer]",
          "[agent][customer]amerge=inputs=2,pan=stereo|c0=c0|c1=c1[st]"] := by
    simp only [filterParts, concatFilter_agent, concatFilter_customer, mergeFilter]
  have hin := inputArgs_length filesAbs
  have hargs : ffmpegArgs H filesAbs parsed durations outFile =
      ("-y" :: filesAbs.flatMap (fun f => ["-i", f])) ++
        ["-filter_complex", ";".intercalate (filterParts H filesAbs parsed durations),
          "-map", "[st]", "-c:a", "libmp3lame", "-q:a", "2", outFile] := rfl
  refine ⟨hfp, ?_, rfl, ?_, ?_⟩
  · rw [hfp]; simp
  · have hlen : ("-y" :: filesAbs.flatMap (fun f => ["-i", f])).length =
        1 + 2 * filesAbs.length := by rw [List.length_cons, hin]; omega
    have hsub : 1 + 2 * filesAbs.length + 2 - (1 + 2 * filesAbs.length) = 2 := by omega
    rw [hargs, List.getElem?_append_right (by omega), hlen, hsub]
    rfl
  · have hlen : ("-y" :: filesAbs.flatMap (fun f => ["-i", f])).length =
        1 + 2 * filesAbs.length := by rw [List.length_cons, hin]; omega
    have hsub : 1 + 2 * filesAbs.length + 3 - (1 + 2 * filesAbs.length) = 3 := by omega
    rw [hargs, List.getElem?_append_right (by omega), hlen, hsub]
    rfl

/-! ## Turn order -/

theorem lexCompare_total (a b : List Char) : lexCompare a b ≤ 0 ∨ lexCompare b a ≤ 0 := by
  induction a generalizing b with
  | nil => cases b <;> simp [lexCompare]
  | cons x xs ih =>
    cases b with
    | nil => simp [lexCompare]
    | cons y ys =>
      simp only [lexCompare]
      have := ih ys
      split_ifs <;> omega

theorem lexCompare_trans (a b c : List Char) (h1 : lexCompare a b ≤ 0)
    (h2 : lexCompare b c ≤ 0) : lexCompare a c ≤ 0 := by
  induction a generalizing b c with
  | nil => cases c <;> simp [lexCompare]
  | cons x xs ih =>
    cases b with
    | nil => simp [lexCompare] at h1
    | cons y ys =>
      cases c with
      | nil => simp [lexCompare] at h2
      | cons z zs =>
        simp only [lexCompare] at h1 h2 ⊢
        have := ih ys zs
        split_ifs at h1 h2 ⊢ <;> omega

theorem parsedTurns_eq (H : Host) (listing : List String) :
    parsedTurns H listing = (listing.filterMap parseFile).insertionSort (turnLe H) := by
  unfold parsedTurns sortTurns
  rw [List.filterMap_map]
  rfl

/-- C5. Turn order. For a host whose `localeCompare` is a consistent comparator (total
and transitive), and every directory listing: the turn list `parsed` is a permutation of
the non-null `parseFile` results of the listing, so a turn is in it exactly when some
listed name parses to it; it is ascending, every turn compares not-after each later one
under `localeCompare` of the sort keys; and the sort is stable, every already ordered
sub-sequence of the parsed listing, and so every pair of turns with equal sort key,
keeps its relative listing order. -/
theorem turn_order (H : Host)
    (htotal : ∀ x y, H.localeCompare x y ≤ 0 ∨ H.localeCompare y x ≤ 0)
    (htrans : ∀ x y z, H.localeCompare x y ≤ 0 → H.localeCompare y z ≤ 0 →
      H.localeCompare x z ≤ 0)
    (listing : List String) :
    (parsedTurns H listing).Perm (listing.filterMap parseFile) ∧
    (∀ t, t ∈ parsedTurns H listing ↔ ∃ name, name ∈ listing ∧ parseFile name = some t) ∧
    (parsedTurns H listing).Pairwise
      (fun a b => H.localeCompare a.sortKey b.sortKey ≤ 0) ∧
    (∀ c : List Turn, c.Pairwise (fun a b => H.localeCompare a.sortKey b.sortKey ≤ 0) →
      c.Sublist (listing.filterMap parseFile) → c.Sublist (parsedTurns H listing)) ∧
    (∀ a b : Turn, a.sortKey = b.sortKey → [a, b].Sublist (listing.filterMap parseFile) →
      [a, b].Sublist (parsedTurns H listing)) := by
  haveI : IsTotal Turn (turnLe H) := ⟨fun a b => htotal a.sortKey b.sortKey⟩
  haveI : IsTrans Turn (turnLe H) := ⟨fun a b c => htrans a.sortKey b.sortKey c.sortKey⟩
  rw [parsedTurns_eq]
  have hperm := List.perm_insertionSort (turnLe H) (listing.filterMap parseFile)
  refine ⟨hperm, ?_, ?_, ?_, ?_⟩
  · intro t
    rw [hperm.mem_iff, List.mem_filterMap]
  · exact List.sorted_insertionSort (turnLe H) (listing.filterMap parseFile)
  · intro c hc hsub
    exact List.sublist_insertionSort hc hsub
  · intro a b hab hsub
    refine List.pair_sublist_insertionSort ?_ hsub
    have h := htotal a.sortKey a.sortKey
    unfold turnLe
    rw [← hab]
    exact h.elim id id

/-- C5, worked example: with code-point order, the listing with keys `b`, `a`, `c` and a
file that is not a turn gives the turns with keys `a`, `b`, `c`. -/
theorem turn_order_witness :
    ((parsedTurns exampleHost exampleListing).Perm (exampleListing.filterMap parseFile) ∧
      (∀ t, t ∈ parsedTurns exampleHost exampleListing ↔
        ∃ name, name ∈ exampleListing ∧ parseFile name = some t) ∧
      (parsedTurns exampleHost exampleListing).Pairwise
        (fun a b => exampleHost.localeCompare a.sortKey b.sortKey ≤ 0) ∧
      (∀ c : List Turn,
        c.Pairwise (fun a b => exampleHost.localeCompare a.sortKey b.sortKey ≤ 0) →
        c.Sublist (exampleListing.filterMap parseFile) →
        c.Sublist (parsedTurns exampleHost exampleListing)) ∧
      (∀ a b : Turn, a.sortKey = b.sortKey →
        [a, b].Sublist (exampleListing.filterMap parseFile) →
        [a, b].Sublist (parsedTurns exampleHost exampleListing))) ∧
    parsedTurns exampleHost exampleListing =
      [ { sortKey := "a", role := "customer", fileName := "a_customer.mp3" },
        { sortKey := "b", role := "agent", fileName := "b_agent.mp3" },
        { sortKey := "c", role := "agent", fileName := "c_agent.mp3" } ] ∧
    (∀ x y, exampleHost.localeCompare x y ≤ 0 ∨ exampleHost.localeCompare y x ≤ 0) ∧
    (∀ x y z, exampleHost.localeCompare x y ≤ 0 → exampleHost.localeCompare y z ≤ 0 →
      exampleHost.localeCompare x z ≤ 0) :=
  ⟨turn_order exampleHost (fun x y => lexCompare_total x.data y.data)
      (fun x y z => lexCompare_trans x.data y.data z.data) exampleListing,
    by decide, fun x y => lexCompare_total x.data y.data,
    fun x y z => lexCompare_trans x.data y.data z.data⟩
/-! ## Effects of one conversation -/

theorem run_trace {σ : Type} (S : Sys σ) (cmd : String) (args : List String) (w : World σ) :
    ∃ extra, (run S cmd args w).2.trace = w.trace ++ Event.spawn cmd args :: extra ∧
      ∀ e ∈ extra, ∃ m, e = Event.logError m := by
  unfold run
  by_cases h : (S.spawnSync cmd args w.state).1.status = some 0
  · exact ⟨[], by simp [h], by simp⟩
  · exact ⟨[Event.logError (S.spawnSync cmd args w.state).1.stderr], by simp [h, World.emit],
      by simp⟩

theorem ffprobe_trace {σ : Type} (H : Host) (S : Sys σ) (filePath : String) (w : World σ) :
    (ffprobeDurationSeconds H S filePath w).2 = (run S "ffprobe" (ffprobeArgs filePath) w).2 := by
  unfold ffprobeDurationSeconds
  cases hr : run S "ffprobe" (ffprobeArgs filePath) w with
  | mk r w1 =>
    cases r with
    | error e => rfl
    | ok out => simp only []; split <;> rfl

theorem probeAll_trace {σ : Type} (H : Host) (S : Sys σ) (files : List String) (w : World σ) :
    ∃ extra, (probeAll H S files w).2.trace = w.trace ++ extra ∧
      ∀ e ∈ extra, e.isProbeEvent = true := by
  induction files generalizing w with
  | nil => exact ⟨[], by simp [probeAll], by simp⟩
  | cons f fs ih =>
    obtain ⟨x1, hx1, hx1'⟩ := run_trace S "ffprobe" (ffprobeArgs f) w
    rw [← ffprobe_trace H S f w] at hx1
    have hfirst : ∀ e ∈ Event.spawn "ffprobe" (ffprobeArgs f) :: x1, e.isProbeEvent = true := by
      intro e he
      rcases List.mem_cons.mp he with rfl | he
      · rfl
      · obtain ⟨m, rfl⟩ := hx1' e he; rfl
    unfold probeAll
    cases hp : ffprobeDurationSeconds H S f w with
    | mk r w1 =>
      rw [hp] at hx1
      cases r with
      | error e => exact ⟨_, hx1, hfirst⟩
      | ok d =>
        obtain ⟨x2, hx2, hx2'⟩ := ih w1
        simp only []
        cases hq : probeAll H S fs w1 with
        | mk r2 w2 =>
          rw [hq] at hx2
          have htr : w2.trace = w.trace ++ ((Event.spawn "ffprobe" (ffprobeArgs f) :: x1) ++ x2) := by
            rw [hx2, hx1]; simp
          have hall : ∀ e ∈ (Event.spawn "ffprobe" (ffprobeArgs f) :: x1) ++ x2,
              e.isProbeEvent = true := by
            intro e he
            rcases List.mem_append.mp he with he | he
            · exact hfirst e he
            · exact hx2' e he
          cases r2 with
          | error e => exact ⟨_, htr, hall⟩
          | ok ds => exact ⟨_, htr, hall⟩
theorem pcd_readdir_error {σ : Type} (H : Host) (S : Sys σ) (dir : String) (w : World σ)
    (e : String)
    (hread : (S.readdirSync (H.pathJoin H.inputDir dir) w.state).1 = .error e) :
    processConversationDir H S dir w = (.error e, afterReaddir H S dir w) := by
  unfold processConversationDir afterReaddir
  simp only [World.emit, hread, List.append_assoc, List.singleton_append]

theorem pcd_skipped {σ : Type} (H : Host) (S : Sys σ) (dir : String) (w : World σ)
    (listing : List String)
    (hread : (S.readdirSync (H.pathJoin H.inputDir dir) w.state).1 = .ok listing)
    (hskip : skipped H listing) :
    ∃ msg, processConversationDir H S dir w =
      (.ok (), (afterReaddir H S dir w).emit (Event.log msg)) := by
  unfold processConversationDir afterReaddir
  simp only [World.emit, hread, List.append_assoc, List.singleton_append]
  by_cases h0 : (parsedTurns H listing).length = 0
  · exact ⟨"Skipping \"" ++ dir ++ "\", no _agent/_customer mp3 files found",
      by simp only [h0, if_true]⟩
  · simp only [h0, if_false]
    have hne : parsedTurns H listing ≠ [] := fun h => h0 (by rw [h]; rfl)
    rcases hskip with h | h | h
    · exact absurd h hne
    · exact ⟨"Skipping \"" ++ dir ++ "\", missing agent or customer audio",
        by simp only [h, Bool.not_false, Bool.true_or, if_true]⟩
    · exact ⟨"Skipping \"" ++ dir ++ "\", missing agent or customer audio",
        by simp only [h, Bool.not_false, Bool.or_true, if_true]⟩

theorem pcd_not_skipped {σ : Type} (H : Host) (S : Sys σ) (dir : String) (w : World σ)
    (listing : List String)
    (hread : (S.readdirSync (H.pathJoin H.inputDir dir) w.state).1 = .ok listing)
    (hns : ¬ skipped H listing) :
    processConversationDir H S dir w =
      match probeAll H S (resolvedFiles H dir listing) (afterReaddir H S dir w) with
      | (.error e, w2) => (.error e, w2)
      | (.ok durations, w2) =>
        match run S "ffmpeg"
            (ffmpegArgs H (resolvedFiles H dir listing) (parsedTurns H listing) durations
              (H.pathResolve H.outDir
                ((S.timestampForFilename w2.state).1 ++ "_" ++ dir ++ "_stereo.mp3")))
            { w2 with state := (S.timestampForFilename w2.state).2 } with
        | (.error e, w3) => (.error e, w3)
        | (.ok _, w3) =>
          (.ok (), w3.emit (Event.log ("Created: " ++ H.pathResolve H.outDir
            ((S.timestampForFilename w2.state).1 ++ "_" ++ dir ++ "_stereo.mp3")))) := by
  have h0 : ¬ (parsedTurns H listing).length = 0 := by
    intro h
    exact hns (Or.inl (List.length_eq_zero.mp h))
  have ha : (parsedTurns H listing).any (fun p => p.role = "agent") = true := by
    by_contra h
    exact hns (Or.inr (Or.inl (by simpa using h)))
  have hc : (parsedTurns H listing).any (fun p => p.role = "customer") = true := by
    by_contra h
    exact hns (Or.inr (Or.inr (by simpa using h)))
  unfold processConversationDir afterReaddir resolvedFiles
  simp only [World.emit, hread, List.append_assoc, List.singleton_append, h0, if_false, ha, hc,
    Bool.not_true, Bool.or_self, Bool.false_eq_true]
theorem enters_append (a b : List Event) : enters (a ++ b) = enters a ++ enters b := by
  unfold enters
  exact List.filterMap_append _ _ _

theorem enters_eq_nil (tr : List Event) (h : ∀ e ∈ tr, e.isEnter = false) : enters tr = [] := by
  induction tr with
  | nil => rfl
  | cons e es ih =>
    have he := h e (List.mem_cons_self _ _)
    have hes := ih (fun x hx => h x (List.mem_cons_of_mem _ hx))
    cases e <;> simp_all [enters, Event.isEnter]

theorem isEnter_of_isProbeEvent (e : Event) (h : e.isProbeEvent = true) : e.isEnter = false := by
  cases e <;> simp_all [Event.isProbeEvent, Event.isEnter]

theorem isFfmpeg_of_isProbeEvent (e : Event) (h : e.isProbeEvent = true) :
    e.isFfmpeg = false := by
  cases e with
  | spawn cmd args =>
    simp only [Event.isProbeEvent, decide_eq_true_eq] at h
    subst h
    rfl
  | _ => rfl

theorem pcd_trace {σ : Type} (H : Host) (S : Sys σ) (dir : String) (w : World σ) :
    ∃ extra, (processConversationDir H S dir w).2.trace = w.trace ++ Event.enter dir :: extra ∧
      ∀ e ∈ extra, e.isEnter = false := by
  cases hread : (S.readdirSync (H.pathJoin H.inputDir dir) w.state).1 with
  | error e =>
    rw [pcd_readdir_error H S dir w e hread]
    exact ⟨[Event.readdir (H.pathJoin H.inputDir dir)], by simp [afterReaddir], by
      simp [Event.isEnter]⟩
  | ok listing =>
    by_cases hs : skipped H listing
    · obtain ⟨msg, hmsg⟩ := pcd_skipped H S dir w listing hread hs
      rw [hmsg]
      exact ⟨[Event.readdir (H.pathJoin H.inputDir dir), Event.log msg], by
        simp [afterReaddir, World.emit], by simp [Event.isEnter]⟩
    · rw [pcd_not_skipped H S dir w listing hread hs]
      obtain ⟨x2, hx2, hx2'⟩ :=
        probeAll_trace H S (resolvedFiles H dir listing) (afterReaddir H S dir w)
      cases hp : probeAll H S (resolvedFiles H dir listing) (afterReaddir H S dir w) with
      | mk r w2 =>
        rw [hp] at hx2
        have hw2 : w2.trace =
            w.trace ++ Event.enter dir :: (Event.readdir (H.pathJoin H.inputDir dir) :: x2) := by
          rw [hx2]; simp [afterReaddir]
        have hpre : ∀ e ∈ Event.readdir (H.pathJoin H.inputDir dir) :: x2, e.isEnter = false := by
          intro e he
          rcases List.mem_cons.mp he with rfl | he
          · rfl
          · exact isEnter_of_isProbeEvent e (hx2' e he)
        cases r with
        | error e => exact ⟨_, hw2, hpre⟩
        | ok durations =>
          simp only []
          obtain ⟨x3, hx3, hx3'⟩ := run_trace S "ffmpeg"
            (ffmpegArgs H (resolvedFiles H dir listing) (parsedTurns H listing) durations
              (H.pathResolve H.outDir
                ((S.timestampForFilename w2.state).1 ++ "_" ++ dir ++ "_stereo.mp3")))
            { w2 with state := (S.timestampForFilename w2.state).2 }
          have hx3e : ∀ e ∈ x3, e.isEnter = false := by
            intro e he
            obtain ⟨m, rfl⟩ := hx3' e he
            rfl
          cases hrun : run S "ffmpeg"
            (ffmpegArgs H (resolvedFiles H dir listing) (parsedTurns H listing) durations
              (H.pathResolve H.outDir
                ((S.timestampForFilename w2.state).1 ++ "_" ++ dir ++ "_stereo.mp3")))
            { w2 with state := (S.timestampForFilename w2.state).2 } with
          | mk r3 w3 =>
            rw [hrun] at hx3
            simp only [hw2] at hx3
            cases r3 with
            | error e =>
              refine ⟨Event.readdir (H.pathJoin H.inputDir dir) :: x2 ++ Event.spawn "ffmpeg" _ :: x3,
                by simp only []; rw [hx3]; simp; rfl, ?_⟩
              intro e he
              rcases List.mem_append.mp he with he | he
              · exact hpre e he
              · rcases List.mem_cons.mp he with rfl | he
                · rfl
                · exact hx3e e he
            | ok out =>
              refine ⟨Event.readdir (H.pathJoin H.inputDir dir) :: x2 ++ Event.spawn "ffmpeg" _ :: x3
                ++ [Event.log _], by simp only [World.emit]; rw [hx3]; simp; exact ⟨rfl, rfl⟩, ?_⟩
              intro e he
              rcases List.mem_append.mp he with he | he
              · rcases List.mem_append.mp he with he | he
                · exact hpre e he
                · rcases List.mem_cons.mp he with rfl | he
                  · rfl
                  · exact hx3e e he
              · rw [List.mem_singleton] at he
                subst he
                rfl

/-- C8. Failure isolation. For every host, every world, every list of conversation
directories and every start, the main loop ends normally, whatever `readdirSync`,
ffprobe or ffmpeg do, and `processConversationDir` is entered exactly once for each
directory, in listing order: the entries of the final trace are those of the start
followed by the list itself. -/
theorem failure_isolation {σ : Type} (H : Host) (S : Sys σ) (dirs : List String)
    (w : World σ) :
    (mainLoop H S dirs w).1 = .ok () ∧
    enters (mainLoop H S dirs w).2.trace = enters w.trace ++ dirs := by
  induction dirs generalizing w with
  | nil => simp [mainLoop]
  | cons dir rest ih =>
    obtain ⟨extra, htr, hex⟩ := pcd_trace H S dir w
    have hent : enters (processConversationDir H S dir w).2.trace = enters w.trace ++ [dir] := by
      rw [htr, enters_append]
      show enters w.trace ++ enters ([Event.enter dir] ++ extra) = _
      rw [enters_append, enters_eq_nil extra hex]
      rfl
    unfold mainLoop
    cases hp : processConversationDir H S dir w with
    | mk r w1 =>
      rw [hp] at hent
      cases r with
      | ok u =>
        simp only []
        refine ⟨(ih w1).1, ?_⟩
        rw [(ih w1).2, hent]
        simp
      | error msg =>
        simp only []
        refine ⟨(ih _).1, ?_⟩
        rw [(ih _).2]
        simp only [World.emit, enters_append, hent]
        simp [enters]

/-- C8, worked example. In the example world the conversation `broken` throws on its
second probe and `zzz` throws in `readdirSync`; the loop over `broken`, `zzz`,
`agentonly`, `call1` still ends normally and enters all four, in that order. -/
theorem failure_isolation_witness :
    ((mainLoop exampleHost exampleSys ["broken", "zzz", "agentonly", "call1"] exampleWorld).1 =
        .ok () ∧
      enters (mainLoop exampleHost exampleSys ["broken", "zzz", "agentonly", "call1"]
          exampleWorld).2.trace =
        enters exampleWorld.trace ++ ["broken", "zzz", "agentonly", "call1"]) ∧
    (processConversationDir exampleHost exampleSys "broken" exampleWorld).1 =
      .error ("Could not read duration for /work/audio/broken/002_customer.mp3. " ++
        "ffprobe output: \"N/A\"") ∧
    (processConversationDir exampleHost exampleSys "zzz" exampleWorld).1 =
      .error "ENOENT: no such file or directory" :=
  ⟨failure_isolation exampleHost exampleSys ["broken", "zzz", "agentonly", "call1"] exampleWorld,
    rfl, rfl⟩

/-! ## Skipped conversations -/

/-- C6. Skipped conversations. When `readdirSync` returns a listing whose turn list is
empty, or has no turn of role `agent`, or has no turn of role `customer`,
`processConversationDir` returns normally; the world is the one `readdirSync` left, and
the trace grows by the entry, the directory read and one log line, so no child process
(ffprobe or ffmpeg) is started and no filter graph is handed over. Conversely, when the
call starts any child process, the turn list is non-empty and has both an agent turn and
a customer turn. -/
theorem skip_incomplete {σ : Type} (H : Host) (S : Sys σ) (dir : String) (w : World σ)
    (listing : List String)
    (hread : (S.readdirSync (H.pathJoin H.inputDir dir) w.state).1 = .ok listing) :
    (skipped H listing →
      (∃ msg, processConversationDir H S dir w =
        (.ok (),
          { state := (S.readdirSync (H.pathJoin H.inputDir dir) w.state).2
            trace := w.trace ++ [Event.enter dir, Event.readdir (H.pathJoin H.inputDir dir),
              Event.log msg] })) ∧
      ∀ e ∈ (processConversationDir H S dir w).2.trace, e.isSpawn = true → e ∈ w.trace) ∧
    ((∃ e ∈ (processConversationDir H S dir w).2.trace, e.isSpawn = true ∧ e ∉ w.trace) →
      parsedTurns H listing ≠ [] ∧
      (parsedTurns H listing).any (fun p => p.role = "agent") = true ∧
      (parsedTurns H listing).any (fun p => p.role = "customer") = true) := by
  have hskip : skipped H listing →
      (∃ msg, processConversationDir H S dir w =
        (.ok (),
          { state := (S.readdirSync (H.pathJoin H.inputDir dir) w.state).2
            trace := w.trace ++ [Event.enter dir, Event.readdir (H.pathJoin H.inputDir dir),
              Event.log msg] })) ∧
      ∀ e ∈ (processConversationDir H S dir w).2.trace, e.isSpawn = true → e ∈ w.trace := by
    intro hs
    obtain ⟨msg, hmsg⟩ := pcd_skipped H S dir w listing hread hs
    refine ⟨⟨msg, by rw [hmsg]; simp [afterReaddir, World.emit]⟩, ?_⟩
    intro e he hsp
    rw [hmsg] at he
    simp only [afterReaddir, World.emit, List.append_assoc, List.mem_append, List.mem_cons,
      List.mem_singleton, List.not_mem_nil, or_false] at he
    rcases he with he | (he | he) | he
    · exact he
    · subst he; simp [Event.isSpawn] at hsp
    · subst he; simp [Event.isSpawn] at hsp
    · subst he; simp [Event.isSpawn] at hsp
  refine ⟨hskip, ?_⟩
  rintro ⟨e, he, hsp, hnew⟩
  have hns : ¬ skipped H listing := fun hs => hnew ((hskip hs).2 e he hsp)
  unfold skipped at hns
  refine ⟨fun h => hns (Or.inl h), ?_, ?_⟩
  · by_contra h
    exact hns (Or.inr (Or.inl (by simpa using h)))
  · by_contra h
    exact hns (Or.inr (Or.inr (by simpa using h)))

/-- C6, worked example: the directory `agentonly` of the example world holds one agent
turn; the call returns after one log line and starts no process. -/
theorem skip_incomplete_witness :
    (exampleSys.readdirSync (exampleHost.pathJoin exampleHost.inputDir "agentonly")
        exampleWorld.state).1 = .ok ["001_agent.mp3"] ∧
    skipped exampleHost ["001_agent.mp3"] ∧
    ((skipped exampleHost ["001_agent.mp3"] →
      (∃ msg, processConversationDir exampleHost exampleSys "agentonly" exampleWorld =
        (.ok (),
          { state := (exampleSys.readdirSync
              (exampleHost.pathJoin exampleHost.inputDir "agentonly") exampleWorld.state).2
            trace := exampleWorld.trace ++ [Event.enter "agentonly",
              Event.readdir (exampleHost.pathJoin exampleHost.inputDir "agentonly"),
              Event.log msg] })) ∧
      ∀ e ∈ (processConversationDir exampleHost exampleSys "agentonly" exampleWorld).2.trace,
        e.isSpawn = true → e ∈ exampleWorld.trace) ∧
    ((∃ e ∈ (processConversationDir exampleHost exampleSys "agentonly" exampleWorld).2.trace,
        e.isSpawn = true ∧ e ∉ exampleWorld.trace) →
      parsedTurns exampleHost ["001_agent.mp3"] ≠ [] ∧
      (parsedTurns exampleHost ["001_agent.mp3"]).any (fun p => p.role = "agent") = true ∧
      (parsedTurns exampleHost ["001_agent.mp3"]).any (fun p => p.role = "customer") = true)) ∧
    (processConversationDir exampleHost exampleSys "agentonly" exampleWorld).2.trace =
      [Event.enter "agentonly", Event.readdir "/work/audio/agentonly",
        Event.log "Skipping \"agentonly\", missing agent or customer audio"] :=
  ⟨rfl, Or.inr (Or.inr (by decide)),
    skip_incomplete exampleHost exampleSys "agentonly" exampleWorld ["001_agent.mp3"] rfl,
    by decide⟩

/-! ## Duration probes -/

theorem finite_pos_of_checks (x : JSNumber) (hf : x.isFinite = true) (hz : x.leZero = false) :
    ∃ q : ℚ, x = .finite q ∧ 0 < q := by
  cases x with
  | finite q =>
    refine ⟨q, rfl, ?_⟩
    simp only [JSNumber.leZero, decide_eq_false_iff_not, not_le] at hz
    exact hz
  | nan => simp [JSNumber.isFinite] at hf
  | posInf => simp [JSNumber.isFinite] at hf
  | negInf => simp [JSNumber.isFinite] at hf

theorem ffprobe_fails {σ : Type} (H : Host) (S : Sys σ) (filePath : String) (w : World σ)
    (h : probeFailsAt H S filePath w.state) :
    ∃ e, (ffprobeDurationSeconds H S filePath w).1 = .error e := by
  unfold ffprobeDurationSeconds run
  by_cases hst : (S.spawnSync "ffprobe" (ffprobeArgs filePath) w.state).1.status = some 0
  · simp only [hst, ne_eq, not_true_eq_false, if_false]
    rcases h with h | h | h
    · exact absurd hst h
    · exact ⟨_, by simp only [h, Bool.not_false, Bool.true_or, if_true]; rfl⟩
    · exact ⟨_, by simp only [h, Bool.or_true, if_true]; rfl⟩
  · exact ⟨_, by simp only [ne_eq, hst, not_false_eq_true, if_true]; rfl⟩

theorem ffprobe_succeeds {σ : Type} (H : Host) (S : Sys σ) (filePath : String) (w : World σ)
    (h : ¬ probeFailsAt H S filePath w.state) :
    (ffprobeDurationSeconds H S filePath w).1 =
      .ok (H.toNumber (H.trim (S.spawnSync "ffprobe" (ffprobeArgs filePath) w.state).1.stdout)) := by
  unfold probeFailsAt at h
  have hst : (S.spawnSync "ffprobe" (ffprobeArgs filePath) w.state).1.status = some 0 := by
    by_contra hc
    exact h (Or.inl hc)
  have hf : (H.toNumber (H.trim (S.spawnSync "ffprobe" (ffprobeArgs filePath)
      w.state).1.stdout)).isFinite = true := by
    by_contra hc
    exact h (Or.inr (Or.inl (by simpa using hc)))
  have hz : (H.toNumber (H.trim (S.spawnSync "ffprobe" (ffprobeArgs filePath)
      w.state).1.stdout)).leZero = false := by
    by_contra hc
    exact h (Or.inr (Or.inr (by simpa using hc)))
  unfold ffprobeDurationSeconds run
  simp only [hst, ne_eq, not_true_eq_false, if_false, hf, hz, Bool.not_true, Bool.or_self,
    Bool.false_eq_true]

theorem ffprobe_ok_pos {σ : Type} (H : Host) (S : Sys σ) (filePath : String) (w : World σ)
    (x : JSNumber) (h : (ffprobeDurationSeconds H S filePath w).1 = .ok x) :
    ∃ q : ℚ, x = .finite q ∧ 0 < q := by
  by_cases hf : probeFailsAt H S filePath w.state
  · obtain ⟨e, he⟩ := ffprobe_fails H S filePath w hf
    rw [he] at h
    cases h
  · rw [ffprobe_succeeds H S filePath w hf] at h
    injection h with h
    subst h
    unfold probeFailsAt at hf
    refine finite_pos_of_checks _ ?_ ?_
    · by_contra hc
      exact hf (Or.inr (Or.inl (by simpa using hc)))
    · by_contra hc
      exact hf (Or.inr (Or.inr (by simpa using hc)))

theorem probeAll_fails {σ : Type} (H : Host) (S : Sys σ) (files : List String) (f : String)
    (hf : f ∈ files) (hfail : ∀ s, probeFailsAt H S f s) (w : World σ) :
    ∃ e, (probeAll H S files w).1 = .error e := by
  induction files generalizing w with
  | nil => cases hf
  | cons g gs ih =>
    unfold probeAll
    cases hp : ffprobeDurationSeconds H S g w with
    | mk r w1 =>
      cases r with
      | error e => exact ⟨e, rfl⟩
      | ok d =>
        simp only []
        rcases List.mem_cons.mp hf with hfg | hfg
        · subst hfg
          obtain ⟨e, he⟩ := ffprobe_fails H S f w (hfail w.state)
          rw [hp] at he
          cases he
        · obtain ⟨e, he⟩ := ih hfg w1
          cases hq : probeAll H S gs w1 with
          | mk r2 w2 =>
            rw [hq] at he
            cases r2 with
            | error e2 => exact ⟨e2, rfl⟩
            | ok ds => cases he

theorem probeAll_ok {σ : Type} (H : Host) (S : Sys σ) (files : List String) (w : World σ)
    (ds : List JSNumber) (h : (probeAll H S files w).1 = .ok ds) :
    ds.length = files.length ∧ ∀ x ∈ ds, ∃ q : ℚ, x = .finite q ∧ 0 < q := by
  induction files generalizing w ds with
  | nil =>
    simp only [probeAll] at h
    injection h with h
    subst h
    exact ⟨rfl, by simp⟩
  | cons g gs ih =>
    unfold probeAll at h
    cases hp : ffprobeDurationSeconds H S g w with
    | mk r w1 =>
      rw [hp] at h
      cases r with
      | error e => cases h
      | ok d =>
        simp only [] at h
        cases hq : probeAll H S gs w1 with
        | mk r2 w2 =>
          rw [hq] at h
          cases r2 with
          | error e2 => cases h
          | ok ds2 =>
            simp only [] at h
            injection h with h
            subst h
            have h2 := ih w1 ds2 (by rw [hq])
            have h1 := ffprobe_ok_pos H S g w d (by rw [hp])
            refine ⟨by simp [h2.1], ?_⟩
            intro x hx
            rcases List.mem_cons.mp hx with rfl | hx
            · exact h1
            · exact h2.2 x hx

theorem pcd_probe_error {σ : Type} (H : Host) (S : Sys σ) (dir : String) (w : World σ)
    (listing : List String)
    (hread : (S.readdirSync (H.pathJoin H.inputDir dir) w.state).1 = .ok listing)
    (hns : ¬ skipped H listing) (e : String)
    (hprobe : (probeAll H S (resolvedFiles H dir listing) (afterReaddir H S dir w)).1 =
      .error e) :
    (processConversationDir H S dir w).1 = .error e ∧
    ∀ ev ∈ (processConversationDir H S dir w).2.trace, ev.isFfmpeg = true → ev ∈ w.trace := by
  rw [pcd_not_skipped H S dir w listing hread hns]
  obtain ⟨x2, hx2, hx2'⟩ :=
    probeAll_trace H S (resolvedFiles H dir listing) (afterReaddir H S dir w)
  cases hp : probeAll H S (resolvedFiles H dir listing) (afterReaddir H S dir w) with
  | mk r w2 =>
    rw [hp] at hprobe hx2
    cases r with
    | ok ds => cases hprobe
    | error e2 =>
      injection hprobe with hprobe
      subst hprobe
      refine ⟨rfl, ?_⟩
      intro ev hev hff
      simp only [] at hev hx2
      rw [hx2] at hev
      simp only [afterReaddir, List.append_assoc, List.mem_append, List.mem_cons,
        List.mem_singleton, List.not_mem_nil, or_false] at hev
      rcases hev with hev | (hev | hev) | hev
      · exact hev
      · subst hev; simp [Event.isFfmpeg] at hff
      · subst hev; simp [Event.isFfmpeg] at hff
      · rw [isFfmpeg_of_isProbeEvent ev (hx2' ev hev)] at hff
        cases hff

/-- C7. Probe failures. The function `ffprobeDurationSeconds` throws whenever ffprobe does
not exit with status 0 or its trimmed output does not convert to a finite number greater
than 0, and otherwise returns; whatever it returns is finite and strictly positive. In
`processConversationDir`, past the skip checks, an error thrown while the durations are
probed is thrown by the call itself, and the call has started no ffmpeg process, so no
output is written; this is the case as soon as the probe of one turn's file fails
whenever it is run. -/
theorem probe_failure_aborts {σ : Type} (H : Host) (S : Sys σ) (dir : String) (w : World σ)
    (listing : List String)
    (hread : (S.readdirSync (H.pathJoin H.inputDir dir) w.state).1 = .ok listing)
    (hns : ¬ skipped H listing) :
    (∀ filePath (w1 : World σ), probeFailsAt H S filePath w1.state →
      ∃ e, (ffprobeDurationSeconds H S filePath w1).1 = .error e) ∧
    (∀ filePath (w1 : World σ), ¬ probeFailsAt H S filePath w1.state →
      ∃ x, (ffprobeDurationSeconds H S filePath w1).1 = .ok x) ∧
    (∀ filePath (w1 : World σ) x, (ffprobeDurationSeconds H S filePath w1).1 = .ok x →
      x.isFinite = true ∧ ∃ q : ℚ, x = .finite q ∧ 0 < q) ∧
    (∀ e, (probeAll H S (resolvedFiles H dir listing) (afterReaddir H S dir w)).1 = .error e →
      (processConversationDir H S dir w).1 = .error e ∧
      ∀ ev ∈ (processConversationDir H S dir w).2.trace, ev.isFfmpeg = true → ev ∈ w.trace) ∧
    (∀ f ∈ resolvedFiles H dir listing, (∀ s, probeFailsAt H S f s) →
      (∃ e, (processConversationDir H S dir w).1 = .error e) ∧
      ∀ ev ∈ (processConversationDir H S dir w).2.trace, ev.isFfmpeg = true → ev ∈ w.trace) := by
  refine ⟨fun p w1 h => ffprobe_fails H S p w1 h,
    fun p w1 h => ⟨_, ffprobe_succeeds H S p w1 h⟩, ?_,
    fun e he => pcd_probe_error H S dir w listing hread hns e he, ?_⟩
  · intro p w1 x hx
    obtain ⟨q, hq, hpos⟩ := ffprobe_ok_pos H S p w1 x hx
    exact ⟨by rw [hq]; rfl, q, hq, hpos⟩
  · intro f hf hfail
    obtain ⟨e, he⟩ := probeAll_fails H S _ f hf hfail (afterReaddir H S dir w)
    have h := pcd_probe_error H S dir w listing hread hns e he
    exact ⟨⟨e, h.1⟩, h.2⟩

/-- C7, worked example. In the directory `broken` of the example world the probe of the
customer turn prints `N/A`: the call throws the duration error after two ffprobe
processes and starts no ffmpeg. -/
theorem probe_failure_aborts_witness :
    ((exampleSys.readdirSync (exampleHost.pathJoin exampleHost.inputDir "broken")
        exampleWorld.state).1 = .ok ["001_agent.mp3", "002_customer.mp3"] ∧
      ¬ skipped exampleHost ["001_agent.mp3", "002_customer.mp3"] ∧
      "/work/audio/broken/002_customer.mp3" ∈
        resolvedFiles exampleHost "broken" ["001_agent.mp3", "002_customer.mp3"] ∧
      ∀ s, probeFailsAt exampleHost exampleSys "/work/audio/broken/002_customer.mp3" s) ∧
    ((∃ e, (processConversationDir exampleHost exampleSys "broken" exampleWorld).1 = .error e) ∧
      ∀ ev ∈ (processConversationDir exampleHost exampleSys "broken" exampleWorld).2.trace,
        ev.isFfmpeg = true → ev ∈ exampleWorld.trace) ∧
    (processConversationDir exampleHost exampleSys "broken" exampleWorld).1 =
      .error ("Could not read duration for /work/audio/broken/002_customer.mp3. " ++
        "ffprobe output: \"N/A\"") ∧
    (processConversationDir exampleHost exampleSys "broken" exampleWorld).2.trace =
      [Event.enter "broken", Event.readdir "/work/audio/broken",
        Event.spawn "ffprobe" (ffprobeArgs "/work/audio/broken/001_agent.mp3"),
        Event.spawn "ffprobe" (ffprobeArgs "/work/audio/broken/002_customer.mp3")] := by
  have hns : ¬ skipped exampleHost ["001_agent.mp3", "002_customer.mp3"] := by
    unfold skipped
    decide
  have hmem : "/work/audio/broken/002_customer.mp3" ∈
      resolvedFiles exampleHost "broken" ["001_agent.mp3", "002_customer.mp3"] := by decide
  have hfail : ∀ s, probeFailsAt exampleHost exampleSys "/work/audio/broken/002_customer.mp3" s :=
    fun s => Or.inr (Or.inl rfl)
  exact ⟨⟨rfl, hns, hmem, hfail⟩,
    (probe_failure_aborts exampleHost exampleSys "broken" exampleWorld
      ["001_agent.mp3", "002_customer.mp3"] rfl hns).2.2.2.2
      "/work/audio/broken/002_customer.mp3" hmem hfail,
    rfl, by decide⟩

/-! ## Decimal text of a number -/

theorem digitChar_value (k : Nat) (hk : k < 10) :
    (Nat.digitChar k).toNat - 48 = k ∧ (Nat.digitChar k).isDigit = true := by
  interval_cases k <;> decide

theorem toDigitsCore_append (fuel n : Nat) (ds : List Char) :
    Nat.toDigitsCore 10 fuel n ds = Nat.toDigitsCore 10 fuel n [] ++ ds := by
  induction fuel generalizing n ds with
  | zero => simp [Nat.toDigitsCore]
  | succ fuel ih =>
    simp only [Nat.toDigitsCore]
    split
    · simp
    · rw [ih (n / 10) (Nat.digitChar (n % 10) :: ds), ih (n / 10) [Nat.digitChar (n % 10)]]
      simp

theorem toDigitsCore_value (fuel n : Nat) (h : n < fuel) :
    digitsToNat (Nat.toDigitsCore 10 fuel n []) = n ∧
      ∀ c ∈ Nat.toDigitsCore 10 fuel n [], c.isDigit = true := by
  induction fuel generalizing n with
  | zero => omega
  | succ fuel ih =>
    have hd := digitChar_value (n % 10) (Nat.mod_lt _ (by decide))
    simp only [Nat.toDigitsCore]
    split
    · rename_i h0
      refine ⟨?_, by simpa using hd.2⟩
      simp only [digitsToNat, List.foldl_cons, List.foldl_nil, hd.1]
      omega
    · rename_i h0
      have hlt : n / 10 < fuel := by omega
      obtain ⟨h1, h2⟩ := ih (n / 10) hlt
      rw [toDigitsCore_append]
      refine ⟨?_, ?_⟩
      · unfold digitsToNat at h1 ⊢
        rw [List.foldl_append, h1]
        simp only [List.foldl_cons, List.foldl_nil, hd.1]
        omega
      · intro c hc
        rcases List.mem_append.mp hc with hc | hc
        · exact h2 c hc
        · rw [List.mem_singleton] at hc
          rw [hc]
          exact hd.2

theorem toString_digits (n : Nat) :
    digitsToNat (toString n).data = n ∧ ∀ c ∈ (toString n).data, c.isDigit = true := by
  have h := toDigitsCore_value (n + 1) n (by omega)
  exact h

theorem foldl_digits_acc (b : List Char) (acc : Nat) :
    b.foldl (fun acc c => 10 * acc + (c.toNat - 48)) acc =
      acc * 10 ^ b.length + b.foldl (fun acc c => 10 * acc + (c.toNat - 48)) 0 := by
  induction b generalizing acc with
  | nil => simp
  | cons c b ih =>
    simp only [List.foldl_cons, List.length_cons]
    rw [ih (10 * acc + (c.toNat - 48)), ih (10 * 0 + (c.toNat - 48))]
    ring

theorem digitsToNat_append (a b : List Char) :
    digitsToNat (a ++ b) = digitsToNat a * 10 ^ b.length + digitsToNat b := by
  unfold digitsToNat
  rw [List.foldl_append, foldl_digits_acc]

theorem digitsToNat_zeros (z : Nat) : digitsToNat (List.replicate z '0') = 0 := by
  induction z with
  | zero => rfl
  | succ z ih =>
    rw [List.replicate_succ]
    have h := digitsToNat_append ['0'] (List.replicate z '0')
    simp only [List.singleton_append] at h
    rw [h, ih]
    simp [digitsToNat]

theorem takeWhile_dropWhile_split (p : Char → Bool) (a b : List Char) (x : Char)
    (ha : ∀ c ∈ a, p c = true) (hx : p x = false) :
    (a ++ x :: b).takeWhile p = a ∧ (a ++ x :: b).dropWhile p = x :: b := by
  induction a with
  | nil => simp [List.takeWhile, List.dropWhile, hx]
  | cons c a ih =>
    have hc := ha c (List.mem_cons_self _ _)
    have := ih (fun y hy => ha y (List.mem_cons_of_mem _ hy))
    simp [List.takeWhile, List.dropWhile, hc, this]

theorem isDigit_ne_dot (c : Char) (h : c.isDigit = true) : (decide (c ≠ '.')) = true := by
  simp only [ne_eq, decide_not, Bool.not_eq_true', decide_eq_false_iff_not]
  intro hc
  subst hc
  simp [Char.isDigit] at h

theorem decimalValue_fixedDigits (n : Nat) :
    decimalValue (fixedDigits n 3) = some ((n : ℚ) / 1000) := by
  obtain ⟨hval, hdig⟩ := toString_digits n
  -- the padded digits
  obtain ⟨m, hm, hmval, hmdig, hmlen⟩ : ∃ m : List Char,
      fixedDigits n 3 = String.mk (m.take (m.length - 3) ++ '.' :: m.drop (m.length - 3)) ∧
      digitsToNat m = n ∧ (∀ c ∈ m, c.isDigit = true) ∧ 4 ≤ m.length := by
    by_cases hlen : (toString n).data.length ≤ 3
    · refine ⟨List.replicate (3 + 1 - (toString n).data.length) '0' ++ (toString n).data, ?_, ?_,
        ?_, ?_⟩
      · simp only [fixedDigits, if_pos hlen, if_neg (show ¬ (3 = 0) by decide)]
      · rw [digitsToNat_append, digitsToNat_zeros, hval]; simp
      · intro c hc
        rcases List.mem_append.mp hc with hc | hc
        · rw [(List.mem_replicate.mp hc).2]; rfl
        · exact hdig c hc
      · simp only [List.length_append, List.length_replicate]; omega
    · exact ⟨(toString n).data,
        by simp only [fixedDigits, if_neg hlen, if_neg (show ¬ (3 = 0) by decide)],
        hval, hdig, by omega⟩
  have ha : ∀ c ∈ m.take (m.length - 3), (decide (c ≠ '.')) = true :=
    fun c hc => isDigit_ne_dot c (hmdig c (List.mem_of_mem_take hc))
  obtain ⟨ht, hd⟩ := takeWhile_dropWhile_split (fun c => decide (c ≠ '.'))
    (m.take (m.length - 3)) (m.drop (m.length - 3)) '.' ha (by decide)
  have hblen : (m.drop (m.length - 3)).length = 3 := by rw [List.length_drop]; omega
  have halen : (m.take (m.length - 3)).length = m.length - 3 := by
    rw [List.length_take]; omega
  have hsplit := digitsToNat_append (m.take (m.length - 3)) (m.drop (m.length - 3))
  rw [List.take_append_drop, hmval, hblen] at hsplit
  have hane : m.take (m.length - 3) ≠ [] := by
    intro h
    rw [h] at halen
    simp at halen
    omega
  have hbne : m.drop (m.length - 3) ≠ [] := by
    intro h
    rw [h] at hblen
    simp at hblen
  have hadig : (m.take (m.length - 3)).all Char.isDigit = true :=
    List.all_eq_true.mpr (fun c hc => hmdig c (List.mem_of_mem_take hc))
  have hbdig : (m.drop (m.length - 3)).all Char.isDigit = true :=
    List.all_eq_true.mpr (fun c hc => hmdig c (List.mem_of_mem_drop hc))
  unfold decimalValue
  rw [hm]
  simp only [ht, hd, hane, hbne, hadig, hbdig, ne_eq, not_false_eq_true, and_self, if_true,
    hblen]
  congr 1
  have hq : (n : ℚ) = (digitsToNat (m.take (m.length - 3)) : ℚ) * 10 ^ 3 +
      (digitsToNat (m.drop (m.length - 3)) : ℚ) := by exact_mod_cast hsplit
  rw [hq]
  ring
/-! ## Channel durations -/

theorem roundedSeconds_bounds (q : ℚ) (h0 : 0 ≤ q) :
    q - 1 / 2000 < roundedSeconds q ∧ roundedSeconds q ≤ q + 1 / 2000 := by
  unfold roundedSeconds nearestScaled
  have hfl := Int.floor_le (q * (10 : ℚ) ^ 3 + 1 / 2)
  have hlt := Int.lt_floor_add_one (q * (10 : ℚ) ^ 3 + 1 / 2)
  have hnn : 0 ≤ Int.floor (q * (10 : ℚ) ^ 3 + 1 / 2) := Int.floor_nonneg.mpr (by positivity)
  have hcast : ((Int.floor (q * (10 : ℚ) ^ 3 + 1 / 2)).toNat : ℚ) =
      (Int.floor (q * (10 : ℚ) ^ 3 + 1 / 2) : ℚ) := by
    have := Int.toNat_of_nonneg hnn
    exact_mod_cast this
  rw [hcast]
  constructor
  · rw [lt_div_iff₀ (by norm_num)]
    linarith
  · rw [div_le_iff₀ (by norm_num)]
    linarith

theorem roundedSeconds_exact (k : Nat) : roundedSeconds ((k : ℚ) / 1000) = (k : ℚ) / 1000 := by
  unfold roundedSeconds
  rw [nearestScaled_eq ((k : ℚ) / 1000) 3 k (by norm_num) (by norm_num)]

theorem silence_seconds (H : Host) (q : ℚ) (h0 : 0 ≤ q) (h1 : q < 10 ^ 21) :
    decimalValue (silenceParam H (.finite q)) = some (roundedSeconds q) := by
  unfold silenceParam
  rw [toFixed_finite H q 3 h0 h1, decimalValue_fixedDigits]
  rfl

theorem timelineSeconds_by_index (durations : List JSNumber) (tl : List Segment) (vs : List ℚ)
    (hlen : tl.length = vs.length)
    (h : ∀ (i : Nat) (s : Segment) (v : ℚ), tl[i]? = some s → vs[i]? = some v →
      s.seconds durations = some v) :
    timelineSeconds durations tl = some vs.sum := by
  induction tl generalizing vs with
  | nil =>
    cases vs with
    | nil => rfl
    | cons v vs => simp at hlen
  | cons s tl ih =>
    cases vs with
    | nil => simp at hlen
    | cons v vs =>
      have hs := h 0 s v (by simp) (by simp)
      have htl := ih vs (by simpa using hlen)
        (fun i s' v' h1 h2 => h (i + 1) s' v' (by simpa using h1) (by simpa using h2))
      simp only [timelineSeconds, hs, htl, List.sum_cons]
theorem agentTimeline_getElem? (H : Host) (parsed : List Turn) (durations : List JSNumber)
    (i : Nat) (p : Turn) (x : JSNumber) (hp : parsed[i]? = some p)
    (hx : durations[i]? = some x) :
    (agentTimeline H parsed durations)[i]? = some (agentSegment H i p x) := by
  have hi : i < parsed.length := (List.getElem?_eq_some.mp hp).1
  unfold agentTimeline
  rw [List.getElem?_zipWith, List.getElem?_range hi, List.zip, List.getElem?_zipWith, hp, hx]

theorem customerTimeline_getElem? (H : Host) (parsed : List Turn) (durations : List JSNumber)
    (i : Nat) (p : Turn) (x : JSNumber) (hp : parsed[i]? = some p)
    (hx : durations[i]? = some x) :
    (customerTimeline H parsed durations)[i]? = some (customerSegment H i p x) := by
  have hi : i < parsed.length := (List.getElem?_eq_some.mp hp).1
  unfold customerTimeline
  rw [List.getElem?_zipWith, List.getElem?_range hi, List.zip, List.getElem?_zipWith, hp, hx]

theorem timeline_length (H : Host) (parsed : List Turn) (durations : List JSNumber)
    (hd : durations.length = parsed.length) :
    (agentTimeline H parsed durations).length = parsed.length ∧
    (customerTimeline H parsed durations).length = parsed.length := by
  unfold agentTimeline customerTimeline
  simp [hd]
theorem sum_zipWith_bound (f : Turn → ℚ → ℚ) (ε : ℚ) (parsed : List Turn) (qs : List ℚ)
    (hlen : parsed.length = qs.length) (h : ∀ p, ∀ q ∈ qs, |f p q - q| ≤ ε) :
    |(List.zipWith f parsed qs).sum - qs.sum| ≤ (qs.length : ℚ) * ε := by
  induction parsed generalizing qs with
  | nil =>
    cases qs with
    | nil => simp
    | cons q qs => simp at hlen
  | cons p ps ih =>
    cases qs with
    | nil => simp at hlen
    | cons q qs =>
      have h1 := h p q (List.mem_cons_self _ _)
      have h2 := ih qs (by simpa using hlen) (fun p' q' hq' => h p' q' (List.mem_cons_of_mem _ hq'))
      simp only [List.zipWith_cons_cons, List.sum_cons, List.length_cons, Nat.cast_add,
        Nat.cast_one]
      have e : f p q + (List.zipWith f ps qs).sum - (q + qs.sum) =
          (f p q - q) + ((List.zipWith f ps qs).sum - qs.sum) := by ring
      rw [e]
      calc |f p q - q + ((List.zipWith f ps qs).sum - qs.sum)|
          ≤ |f p q - q| + |(List.zipWith f ps qs).sum - qs.sum| := abs_add _ _
        _ ≤ ε + (qs.length : ℚ) * ε := add_le_add h1 h2
        _ = ((qs.length : ℚ) + 1) * ε := by ring

theorem sum_zipWith_eq (f : Turn → ℚ → ℚ) (parsed : List Turn) (qs : List ℚ)
    (hlen : parsed.length = qs.length) (h : ∀ p, ∀ q ∈ qs, f p q = q) :
    (List.zipWith f parsed qs).sum = qs.sum := by
  induction parsed generalizing qs with
  | nil =>
    cases qs with
    | nil => simp
    | cons q qs => simp at hlen
  | cons p ps ih =>
    cases qs with
    | nil => simp at hlen
    | cons q qs =>
      simp only [List.zipWith_cons_cons, List.sum_cons]
      rw [h p q (List.mem_cons_self _ _), ih qs (by simpa using hlen)
        (fun p' q' hq' => h p' q' (List.mem_cons_of_mem _ hq'))]

theorem Segment.filter_speech (ch : String) (i : Nat) :
    (Segment.speech i).filter ch i = speechFilter ch i := rfl

theorem timelineSeconds_agentTimeline (H : Host) (parsed : List Turn) (qs : List ℚ)
    (hlen : parsed.length = qs.length) (hpos : ∀ q ∈ qs, 0 < q ∧ q < 10 ^ 21) :
    timelineSeconds (qs.map .finite) (agentTimeline H parsed (qs.map .finite)) =
      some (agentTotal parsed qs) := by
  refine timelineSeconds_by_index _ _ _ ?_ ?_
  · rw [(timeline_length H parsed _ (by simp [hlen])).1]
    simp [hlen]
  · intro i s v hs hv
    obtain ⟨p, q, hp1, hq1, hv1⟩ := List.getElem?_zipWith_eq_some.mp hv
    have hqm : q ∈ qs := List.getElem?_mem hq1
    have hxe : (qs.map JSNumber.finite)[i]? = some (.finite q) := by simp [hq1]
    rw [agentTimeline_getElem? H parsed _ i p _ hp1 hxe] at hs
    injection hs with hs
    subst hs
    subst hv1
    unfold agentSegment
    by_cases hr : p.role = "agent"
    · simp only [hr, if_true, Segment.seconds, hxe]
    · simp only [hr, if_false, Segment.seconds]
      exact silence_seconds H q (le_of_lt (hpos q hqm).1) (hpos q hqm).2

theorem timelineSeconds_customerTimeline (H : Host) (parsed : List Turn) (qs : List ℚ)
    (hlen : parsed.length = qs.length) (hpos : ∀ q ∈ qs, 0 < q ∧ q < 10 ^ 21) :
    timelineSeconds (qs.map .finite) (customerTimeline H parsed (qs.map .finite)) =
      some (customerTotal parsed qs) := by
  refine timelineSeconds_by_index _ _ _ ?_ ?_
  · rw [(timeline_length H parsed _ (by simp [hlen])).2]
    simp [hlen]
  · intro i s v hs hv
    obtain ⟨p, q, hp1, hq1, hv1⟩ := List.getElem?_zipWith_eq_some.mp hv
    have hqm : q ∈ qs := List.getElem?_mem hq1
    have hxe : (qs.map JSNumber.finite)[i]? = some (.finite q) := by simp [hq1]
    rw [customerTimeline_getElem? H parsed _ i p _ hp1 hxe] at hs
    injection hs with hs
    subst hs
    subst hv1
    unfold customerSegment
    by_cases hr : p.role = "agent"
    · simp only [hr, if_true, Segment.seconds]
      exact silence_seconds H q (le_of_lt (hpos q hqm).1) (hpos q hqm).2
    · simp only [hr, if_false, Segment.seconds, hxe]

/-- C3, as amended. For turns whose probed durations are positive and below `10^21`,
the filters of segments `[a_i]` and `[c_i]` render the two timelines; the agent channel
lasts the clip duration of each agent turn plus, for each other turn, the value of the
emitted `toFixed(3)` parameter, which is the duration rounded to the nearest
millisecond, and the customer channel the mirror image. Each total is within half a
millisecond per turn of the sum of all turn durations, and both equal that sum when
every duration is a whole number of milliseconds. -/
theorem channel_totals (H : Host) (filesAbs : List String) (parsed : List Turn) (qs : List ℚ)
    (hp : parsed.length = filesAbs.length) (hq : qs.length = filesAbs.length)
    (hpos : ∀ q ∈ qs, 0 < q ∧ q < 10 ^ 21) :
    (∀ i, i < filesAbs.length → ∃ a c,
      (agentTimeline H parsed (qs.map .finite))[i]? = some a ∧
      (customerTimeline H parsed (qs.map .finite))[i]? = some c ∧
      (segmentLoop H filesAbs parsed (qs.map .finite)).filterParts[3 * i + 1]? =
        some (a.filter "a" i) ∧
      (segmentLoop H filesAbs parsed (qs.map .finite)).filterParts[3 * i + 2]? =
        some (c.filter "c" i)) ∧
    timelineSeconds (qs.map .finite) (agentTimeline H parsed (qs.map .finite)) =
      some (agentTotal parsed qs) ∧
    timelineSeconds (qs.map .finite) (customerTimeline H parsed (qs.map .finite)) =
      some (customerTotal parsed qs) ∧
    |agentTotal parsed qs - qs.sum| ≤ (qs.length : ℚ) / 2000 ∧
    |customerTotal parsed qs - qs.sum| ≤ (qs.length : ℚ) / 2000 ∧
    ((∀ q ∈ qs, ∃ k : ℕ, q = (k : ℚ) / 1000) →
      agentTotal parsed qs = qs.sum ∧ customerTotal parsed qs = qs.sum) := by
  have hd : (qs.map JSNumber.finite).length = filesAbs.length := by simp [hq]
  have hlen : parsed.length = qs.length := by omega
  have hrnd : ∀ q ∈ qs, |roundedSeconds q - q| ≤ 1 / 2000 := by
    intro q hqm
    have hb := roundedSeconds_bounds q (le_of_lt (hpos q hqm).1)
    rw [abs_le]
    constructor <;> linarith [hb.1, hb.2]
  refine ⟨?_, ?_, ?_, ?_, ?_, ?_⟩
  · intro i hi
    have hpi : i < parsed.length := by omega
    have hqi : i < qs.length := by omega
    have hpe : parsed[i]? = some parsed[i] := List.getElem?_eq_getElem hpi
    have hxe : (qs.map JSNumber.finite)[i]? = some (.finite qs[i]) := by
      simp [List.getElem?_eq_getElem hqi]
    refine ⟨_, _, agentTimeline_getElem? H parsed _ i _ _ hpe hxe,
      customerTimeline_getElem? H parsed _ i _ _ hpe hxe, ?_, ?_⟩
    · rw [segmentLoop_filterParts_getElem? H filesAbs parsed _ hp hd i 1 hi (by omega)]
      simp only [filtersAt, hpe, hxe, turnFilters, agentSegment]
      by_cases hr : parsed[i].role = "agent" <;> simp [hr, Segment.filter, speechFilter, silenceParam]
    · rw [segmentLoop_filterParts_getElem? H filesAbs parsed _ hp hd i 2 hi (by omega)]
      simp only [filtersAt, hpe, hxe, turnFilters, customerSegment]
      by_cases hr : parsed[i].role = "agent" <;> simp [hr, Segment.filter, speechFilter, silenceParam]
  · exact timelineSeconds_agentTimeline H parsed qs hlen hpos
  · exact timelineSeconds_customerTimeline H parsed qs hlen hpos
  · have h := sum_zipWith_bound
      (fun p q => if p.role = "agent" then q else roundedSeconds q) (1 / 2000) parsed qs hlen
      (by
        intro p q hqm
        by_cases hr : p.role = "agent"
        · simp [hr]
        · simpa [hr] using hrnd q hqm)
    unfold agentTotal
    calc _ ≤ (qs.length : ℚ) * (1 / 2000) := h
      _ = (qs.length : ℚ) / 2000 := by ring
  · have h := sum_zipWith_bound
      (fun p q => if p.role = "agent" then roundedSeconds q else q) (1 / 2000) parsed qs hlen
      (by
        intro p q hqm
        by_cases hr : p.role = "agent"
        · simpa [hr] using hrnd q hqm
        · simp [hr])
    unfold customerTotal
    calc _ ≤ (qs.length : ℚ) * (1 / 2000) := h
      _ = (qs.length : ℚ) / 2000 := by ring
  · intro hms
    have hex : ∀ q ∈ qs, roundedSeconds q = q := by
      intro q hqm
      obtain ⟨k, hk⟩ := hms q hqm
      rw [hk]
      exact roundedSeconds_exact k
    unfold agentTotal customerTotal
    constructor
    · refine sum_zipWith_eq _ parsed qs hlen ?_
      intro p q hqm
      by_cases hr : p.role = "agent"
      · simp [hr]
      · simpa [hr] using hex q hqm
    · refine sum_zipWith_eq _ parsed qs hlen ?_
      intro p q hqm
      by_cases hr : p.role = "agent"
      · simpa [hr] using hex q hqm
      · simp [hr]

theorem roundedSeconds_two : roundedSeconds 2 = 2 := by
  have h := roundedSeconds_exact 2000
  norm_num at h
  exact h

theorem roundedSeconds_small : roundedSeconds (1 / 1024) = 1 / 1000 := by
  unfold roundedSeconds
  rw [nearestScaled_eq (1 / 1024) 3 1 (by norm_num) (by norm_num)]
  norm_num

/-- C3, worked example of the amended statement: for the turns agent 2.0 s, customer
1.5 s, agent 3.0 s, all whole milliseconds, both channels last 6.5 s. -/
theorem channel_totals_witness :
    (exampleTurns.length = exampleFiles.length ∧ exampleSeconds.length = exampleFiles.length ∧
      (∀ q ∈ exampleSeconds, 0 < q ∧ q < 10 ^ 21) ∧
      ∀ q ∈ exampleSeconds, ∃ k : ℕ, q = (k : ℚ) / 1000) ∧
    timelineSeconds (exampleSeconds.map .finite)
        (agentTimeline exampleHost exampleTurns (exampleSeconds.map .finite)) =
      some (agentTotal exampleTurns exampleSeconds) ∧
    timelineSeconds (exampleSeconds.map .finite)
        (customerTimeline exampleHost exampleTurns (exampleSeconds.map .finite)) =
      some (customerTotal exampleTurns exampleSeconds) ∧
    agentTotal exampleTurns exampleSeconds = exampleSeconds.sum ∧
    customerTotal exampleTurns exampleSeconds = exampleSeconds.sum ∧
    exampleSeconds.sum = 13 / 2 := by
  have hpos : ∀ q ∈ exampleSeconds, 0 < q ∧ q < 10 ^ 21 := by
    intro q hq
    simp only [exampleSeconds, List.mem_cons, List.mem_singleton, List.not_mem_nil, or_false] at hq
    rcases hq with rfl | rfl | rfl <;> norm_num
  have hms : ∀ q ∈ exampleSeconds, ∃ k : ℕ, q = (k : ℚ) / 1000 := by
    intro q hq
    simp only [exampleSeconds, List.mem_cons, List.mem_singleton, List.not_mem_nil, or_false] at hq
    rcases hq with rfl | rfl | rfl
    · exact ⟨2000, by norm_num⟩
    · exact ⟨1500, by norm_num⟩
    · exact ⟨3000, by norm_num⟩
  have h := channel_totals exampleHost exampleFiles exampleTurns exampleSeconds rfl rfl hpos
  exact ⟨⟨rfl, rfl, hpos, hms⟩, h.2.1, h.2.2.1, (h.2.2.2.2.2 hms).1, (h.2.2.2.2.2 hms).2,
    by norm_num [exampleSeconds]⟩

/-- C3, counterexample to the claim as stated. An agent clip of 1/1024 s followed by a
customer clip of 2 s: the silence on the customer channel is emitted with `d=0.001`, so
the customer channel lasts 2.001 s while the agent channel and the sum of the turn
durations are 2049/1024 s. The two channel totals differ, and the customer total is not
the sum of the turn durations. -/
theorem channel_totals_differ :
    shortTurns.length = shortFiles.length ∧ shortDurations.length = shortFiles.length ∧
    (∀ q ∈ shortDurations, 0 < q) ∧
    (segmentLoop exampleHost shortFiles shortTurns (shortDurations.map .finite)).filterParts[2]? =
      some "anullsrc=r=48000:cl=mono:d=0.001[c0]" ∧
    timelineSeconds (shortDurations.map .finite)
        (agentTimeline exampleHost shortTurns (shortDurations.map .finite)) =
      some (2049 / 1024) ∧
    timelineSeconds (shortDurations.map .finite)
        (customerTimeline exampleHost shortTurns (shortDurations.map .finite)) =
      some (2001 / 1000) ∧
    shortDurations.sum = 2049 / 1024 ∧
    ¬ (timelineSeconds (shortDurations.map .finite)
          (agentTimeline exampleHost shortTurns (shortDurations.map .finite)) =
        timelineSeconds (shortDurations.map .finite)
          (customerTimeline exampleHost shortTurns (shortDurations.map .finite)) ∧
      timelineSeconds (shortDurations.map .finite)
          (customerTimeline exampleHost shortTurns (shortDurations.map .finite)) =
        some shortDurations.sum) := by
  have hpos : ∀ q ∈ shortDurations, 0 < q ∧ q < 10 ^ 21 := by
    intro q hq
    simp only [shortDurations, List.mem_cons, List.mem_singleton, List.not_mem_nil, or_false] at hq
    rcases hq with rfl | rfl <;> norm_num
  have ha := timelineSeconds_agentTimeline exampleHost shortTurns shortDurations rfl hpos
  have hc := timelineSeconds_customerTimeline exampleHost shortTurns shortDurations rfl hpos
  have hat : agentTotal shortTurns shortDurations = 2049 / 1024 := by
    simp only [agentTotal, shortTurns, shortDurations, List.zipWith_cons_cons,
      List.zipWith_nil_right, List.sum_cons, List.sum_nil, roundedSeconds_two]
    norm_num
  have hct : customerTotal shortTurns shortDurations = 2001 / 1000 := by
    simp only [customerTotal, shortTurns, shortDurations, List.zipWith_cons_cons,
      List.zipWith_nil_right, List.sum_cons, List.sum_nil, roundedSeconds_small]
    rw [if_pos trivial, if_neg (by decide)]
    norm_num
  have hsum : shortDurations.sum = 2049 / 1024 := by norm_num [shortDurations]
  rw [hat] at ha
  rw [hct] at hc
  refine ⟨rfl, rfl, fun q hq => (hpos q hq).1, ?_, ha, hc, hsum, ?_⟩
  · rw [segmentLoop_filterParts_getElem? exampleHost shortFiles shortTurns _ rfl rfl 0 2
      (by decide) (by decide)]
    have ht : toFixed exampleHost (.finite (1 / 1024)) 3 = "0.001" := by
      rw [toFixed_finite _ _ _ (by norm_num) (by norm_num),
        nearestScaled_eq _ _ 1 (by norm_num) (by norm_num)]
      decide
    simp only [filtersAt, shortTurns, shortDurations, List.map_cons, List.getElem?_cons_zero,
      turnFilters, ht]
    decide
  · rw [ha, hc, hsum]
    rintro ⟨h1, -⟩
    injection h1 with h1
    norm_num at h1
/-! ## The turn parser -/

theorem toNat_ofNat_upper (n : Nat) (h1 : 97 ≤ n) (h2 : n ≤ 122) :
    (Char.ofNat (n - 32)).toNat = n - 32 := by
  interval_cases n <;> rfl

theorem toUpper_of_lower (c : Char) (h : 97 ≤ c.toNat ∧ c.toNat ≤ 122) :
    c.toUpper = Char.ofNat (c.toNat - 32) := by
  unfold Char.toUpper
  simp only [ge_iff_le, h, and_self, if_true]

theorem toUpper_of_not_lower (c : Char) (h : ¬ (97 ≤ c.toNat ∧ c.toNat ≤ 122)) :
    c.toUpper = c := by
  unfold Char.toUpper
  simp only [ge_iff_le, h, if_false]

theorem toLower_of_upper (c : Char) (h : 65 ≤ c.toNat ∧ c.toNat ≤ 90) :
    c.toLower = Char.ofNat (c.toNat + 32) := by
  unfold Char.toLower
  simp only [ge_iff_le, h, and_self, if_true]

theorem toLower_of_not_upper (c : Char) (h : ¬ (65 ≤ c.toNat ∧ c.toNat ≤ 90)) :
    c.toLower = c := by
  unfold Char.toLower
  simp only [ge_iff_le, h, if_false]

theorem toLower_eq_of_toUpper_eq (c p : Char) (h : c.toUpper = p.toUpper) :
    c.toLower = p.toLower := by
  by_cases hc : 97 ≤ c.toNat ∧ c.toNat ≤ 122
  · have hcu := toNat_ofNat_upper c.toNat hc.1 hc.2
    rw [toUpper_of_lower c hc] at h
    by_cases hp : 97 ≤ p.toNat ∧ p.toNat ≤ 122
    · have hpu := toNat_ofNat_upper p.toNat hp.1 hp.2
      rw [toUpper_of_lower p hp] at h
      have hn : c.toNat = p.toNat := by
        have := congrArg Char.toNat h
        rw [hcu, hpu] at this
        omega
      have : c = p := by rw [← Char.ofNat_toNat c, ← Char.ofNat_toNat p, hn]
      rw [this]
    · rw [toUpper_of_not_lower p hp] at h
      have hpn : p.toNat = c.toNat - 32 := by rw [← h, hcu]
      rw [toLower_of_not_upper c (by omega), toLower_of_upper p (by omega), hpn]
      have : c.toNat - 32 + 32 = c.toNat := by omega
      rw [this, Char.ofNat_toNat]
  · rw [toUpper_of_not_lower c hc] at h
    by_cases hp : 97 ≤ p.toNat ∧ p.toNat ≤ 122
    · have hpu := toNat_ofNat_upper p.toNat hp.1 hp.2
      rw [toUpper_of_lower p hp] at h
      have hcn : c.toNat = p.toNat - 32 := by rw [h, hpu]
      rw [toLower_of_not_upper p (by omega), toLower_of_upper c (by omega), hcn]
      have : p.toNat - 32 + 32 = p.toNat := by omega
      rw [this, Char.ofNat_toNat]
    · rw [toUpper_of_not_lower p hp] at h
      rw [h]

theorem ciLit_length (cs ps : List Char) (h : ciLit cs ps = true) : cs.length = ps.length := by
  induction cs generalizing ps with
  | nil => cases ps <;> simp_all [ciLit]
  | cons c cs ih =>
    cases ps with
    | nil => simp [ciLit] at h
    | cons p ps =>
      simp only [ciLit, Bool.and_eq_true] at h
      simp [ih ps h.2]

theorem ciLit_toLower (cs ps : List Char) (h : ciLit cs ps = true) :
    cs.map Char.toLower = ps.map Char.toLower := by
  induction cs generalizing ps with
  | nil => cases ps <;> simp_all [ciLit]
  | cons c cs ih =>
    cases ps with
    | nil => simp [ciLit] at h
    | cons p ps =>
      simp only [ciLit, Bool.and_eq_true, ciChar, decide_eq_true_eq] at h
      simp [ih ps h.2, toLower_eq_of_toUpper_eq c p h.1]

theorem ciLit_take (cs ps qs : List Char) (h : ciLit cs (ps ++ qs) = true) :
    ciLit (cs.take ps.length) ps = true ∧ ciLit (cs.drop ps.length) qs = true := by
  induction ps generalizing cs with
  | nil => simpa [ciLit] using h
  | cons p ps ih =>
    cases cs with
    | nil => simp [ciLit] at h
    | cons c cs =>
      simp only [List.cons_append, ciLit, Bool.and_eq_true] at h
      have := ih cs h.2
      simp [ciLit, h.1, this]
theorem matchTail_agent (r : List Char) (h : ciLit r "agent.mp3".data = true) :
    matchTail ('_' :: r) = some (r.take 5) := by
  simp [matchTail, h]

theorem matchTail_customer (r : List Char) (h : ciLit r "customer.mp3".data = true) :
    matchTail ('_' :: r) = some (r.take 8) := by
  have hlen := ciLit_length r _ h
  have hna : ciLit r "agent.mp3".data = false := by
    by_contra hc
    have hl := ciLit_length r _ (by simpa using hc)
    rw [hlen] at hl
    revert hl
    decide
  simp [matchTail, h, hna]

theorem matchTail_eq_some (rest g : List Char) (h : matchTail rest = some g) :
    ∃ r, rest = '_' :: r ∧
      ((ciLit r "agent.mp3".data = true ∧ g = r.take 5) ∨
        (ciLit r "customer.mp3".data = true ∧ g = r.take 8)) := by
  cases rest with
  | nil => simp [matchTail] at h
  | cons c r =>
    simp only [matchTail] at h
    by_cases hc : c = '_'
    · subst hc
      simp only [if_true] at h
      by_cases ha : ciLit r "agent.mp3".data = true
      · simp only [ha, if_true, Option.some.injEq] at h
        exact ⟨r, rfl, Or.inl ⟨ha, h.symm⟩⟩
      · simp only [ha, Bool.false_eq_true, if_false] at h
        by_cases hcu : ciLit r "customer.mp3".data = true
        · simp only [hcu, if_true, Option.some.injEq] at h
          exact ⟨r, rfl, Or.inr ⟨hcu, h.symm⟩⟩
        · simp [hcu] at h
    · simp [hc] at h

theorem matchTail_length (rest g : List Char) (h : matchTail rest = some g) :
    (rest.length = 10 ∧ ∃ r, rest = '_' :: r ∧ ciLit r "agent.mp3".data = true) ∨
      (rest.length = 13 ∧ ∃ r, rest = '_' :: r ∧ ciLit r "customer.mp3".data = true) := by
  obtain ⟨r, hr, h1 | h1⟩ := matchTail_eq_some rest g h
  · left
    have := ciLit_length r _ h1.1
    refine ⟨?_, r, hr, h1.1⟩
    rw [hr, List.length_cons, this]
    rfl
  · right
    have := ciLit_length r _ h1.1
    refine ⟨?_, r, hr, h1.1⟩
    rw [hr, List.length_cons, this]
    rfl

theorem matchFrom_sound (cs : List Char) (k : Nat) (g1 g2 : List Char)
    (h : matchFrom cs k = some (g1, g2)) :
    ∃ j, j ≤ k ∧ g1 = cs.take j ∧ (∀ c ∈ g1, isLineTerminator c = false) ∧
      matchTail (cs.drop j) = some g2 := by
  induction k with
  | zero =>
    simp only [matchFrom, Option.map_eq_some'] at h
    obtain ⟨g, hg, hpair⟩ := h
    injection hpair with h1 h2
    subst h1 h2
    exact ⟨0, le_refl _, by simp, by simp, by simpa using hg⟩
  | succ k ih =>
    simp only [matchFrom] at h
    by_cases hall : (cs.take (k + 1)).all (fun c => !isLineTerminator c) = true
    · simp only [hall, if_true] at h
      cases hm : matchTail (cs.drop (k + 1)) with
      | none =>
        rw [hm] at h
        obtain ⟨j, hj, rest⟩ := ih h
        exact ⟨j, by omega, rest⟩
      | some g =>
        rw [hm] at h
        injection h with h
        injection h with h1 h2
        subst h1 h2
        refine ⟨k + 1, le_refl _, rfl, ?_, hm⟩
        intro c hc
        have := List.all_eq_true.mp hall c hc
        simpa using this
    · simp only [hall, Bool.false_eq_true, if_false] at h
      obtain ⟨j, hj, rest⟩ := ih h
      exact ⟨j, by omega, rest⟩

theorem matchFrom_complete (cs : List Char) (k j : Nat) (g : List Char) (hj : j ≤ k)
    (hlt : ∀ c ∈ cs.take j, isLineTerminator c = false)
    (hm : matchTail (cs.drop j) = some g) : ∃ r, matchFrom cs k = some r := by
  induction k with
  | zero =>
    have : j = 0 := by omega
    subst this
    simp only [List.drop_zero] at hm
    exact ⟨([], g), by simp [matchFrom, hm]⟩
  | succ k ih =>
    simp only [matchFrom]
    by_cases hjk : j = k + 1
    · subst hjk
      have hall : (cs.take (k + 1)).all (fun c => !isLineTerminator c) = true :=
        List.all_eq_true.mpr (fun c hc => by simp [hlt c hc])
      simp only [hall, if_true, hm]
      exact ⟨_, rfl⟩
    · obtain ⟨r, hr⟩ := ih (by omega)
      by_cases hall : (cs.take (k + 1)).all (fun c => !isLineTerminator c) = true
      · simp only [hall, if_true]
        cases hm2 : matchTail (cs.drop (k + 1)) with
        | none => exact ⟨r, hr⟩
        | some g2 => exact ⟨_, rfl⟩
      · simp only [hall, Bool.false_eq_true, if_false]
        exact ⟨r, hr⟩

theorem matchTail_unique (cs : List Char) (j j' : Nat) (g g' : List Char)
    (h : matchTail (cs.drop j) = some g) (h' : matchTail (cs.drop j') = some g') : j = j' := by
  have key : ∀ (a b : Nat) (r0 r1 : List Char), cs.drop a = '_' :: r0 →
      ciLit r0 "agent.mp3".data = true → cs.drop b = '_' :: r1 →
      ciLit r1 "customer.mp3".data = true → (cs.drop a).length = 10 →
      (cs.drop b).length = 13 → False := by
    intro a b r0 r1 ha hca hb hcb hla hlb
    rw [List.length_drop] at hla hlb
    have hab : a = b + 3 := by omega
    have hd : cs.drop a = (cs.drop b).drop 3 := by rw [List.drop_drop, hab, Nat.add_comm]
    rw [hb, ha] at hd
    match r1, hcb with
    | c0 :: c1 :: c2 :: t, hcb =>
      simp only [List.drop_succ_cons, List.drop_zero] at hd
      injection hd with hd1 hd2
      subst hd1
      revert hcb
      simp [ciLit, ciChar]
    | [], hcb => simp [ciLit] at hcb
    | [_], hcb => simp [ciLit] at hcb
    | [_, _], hcb => simp [ciLit] at hcb
  have hl := matchTail_length _ _ h
  have hl' := matchTail_length _ _ h'
  rcases hl with ⟨hlen, r, hr, hc⟩ | ⟨hlen, r, hr, hc⟩ <;>
    rcases hl' with ⟨hlen', r', hr', hc'⟩ | ⟨hlen', r', hr', hc'⟩
  · rw [List.length_drop] at hlen hlen'; omega
  · exact (key j j' r r' hr hc hr' hc' hlen hlen').elim
  · exact (key j' j r' r hr' hc' hr hc hlen' hlen).elim
  · rw [List.length_drop] at hlen hlen'; omega
theorem regexMatch_of_form (s : String) (key r g : List Char)
    (hs : s.data = key ++ '_' :: r)
    (hkey : ∀ c ∈ key, isLineTerminator c = false)
    (hm : matchTail ('_' :: r) = some g) :
    regexMatch s = some (key, g) := by
  have htake : s.data.take key.length = key := by rw [hs]; simp
  have hdrop : s.data.drop key.length = '_' :: r := by rw [hs]; simp
  have hle : key.length ≤ s.data.length := by rw [hs]; simp
  obtain ⟨⟨g1, g2⟩, hr⟩ := matchFrom_complete s.data s.data.length key.length g hle
    (by rw [htake]; exact hkey) (by rw [hdrop]; exact hm)
  obtain ⟨j, -, hg1, -, hj⟩ := matchFrom_sound s.data s.data.length g1 g2 hr
  have hjj : j = key.length :=
    matchTail_unique s.data j key.length g2 g hj (by rw [hdrop]; exact hm)
  subst hjj
  rw [hdrop, hm] at hj
  injection hj with hj
  unfold regexMatch
  rw [hr, hg1, htake, hj]

theorem regexMatch_form (s : String) (g1 g2 : List Char) (h : regexMatch s = some (g1, g2)) :
    ∃ r, s.data = g1 ++ '_' :: r ∧ (∀ c ∈ g1, isLineTerminator c = false) ∧
      ((ciLit r "agent.mp3".data = true ∧ g2.map Char.toLower = "agent".data) ∨
        (ciLit r "customer.mp3".data = true ∧ g2.map Char.toLower = "customer".data)) := by
  obtain ⟨j, -, hg1, hlt, hj⟩ := matchFrom_sound s.data s.data.length g1 g2 h
  obtain ⟨r, hr, hcase⟩ := matchTail_eq_some _ _ hj
  refine ⟨r, ?_, hlt, ?_⟩
  · rw [hg1, ← hr, List.take_append_drop]
  · rcases hcase with ⟨hc, hg⟩ | ⟨hc, hg⟩
    · left
      refine ⟨hc, ?_⟩
      have h5 := (ciLit_take r "agent".data ".mp3".data hc).1
      rw [hg]
      exact ciLit_toLower _ _ h5
    · right
      refine ⟨hc, ?_⟩
      have h8 := (ciLit_take r "customer".data ".mp3".data hc).1
      rw [hg]
      exact ciLit_toLower _ _ h8

/-- The exact domain and result of `parseFile`: a name parses to the turn `t` exactly
when `t.fileName` is the name, the name is `t.sortKey`, then `_`, then a text that
matches `agent.mp3` or `customer.mp3` up to letter case, `t.role` is the lower-case
role, and `t.sortKey` contains no line terminator. -/
theorem parseFile_eq_some_iff (s : String) (t : Turn) :
    parseFile s = some t ↔
      t.fileName = s ∧ ∃ r, s.data = t.sortKey.data ++ '_' :: r ∧
        (∀ c ∈ t.sortKey.data, isLineTerminator c = false) ∧
        ((t.role = "agent" ∧ ciLit r "agent.mp3".data = true) ∨
          (t.role = "customer" ∧ ciLit r "customer.mp3".data = true)) := by
  constructor
  · intro h
    unfold parseFile at h
    cases hm : regexMatch s with
    | none => rw [hm] at h; cases h
    | some g =>
      obtain ⟨g1, g2⟩ := g
      rw [hm] at h
      simp only [Option.some.injEq] at h
      subst h
      obtain ⟨r, hs, hlt, hcase⟩ := regexMatch_form s g1 g2 hm
      refine ⟨rfl, r, hs, hlt, ?_⟩
      rcases hcase with ⟨hc, hg⟩ | ⟨hc, hg⟩
      · exact Or.inl ⟨by simp only [hg], hc⟩
      · exact Or.inr ⟨by simp only [hg], hc⟩
  · rintro ⟨hf, r, hs, hlt, hcase⟩
    obtain ⟨key, role, file⟩ := t
    simp only at hf hs hlt hcase
    subst hf
    rcases hcase with ⟨hrole, hc⟩ | ⟨hrole, hc⟩
    · have hm := regexMatch_of_form file key.data r _ hs hlt (matchTail_agent r hc)
      have h5 := ciLit_toLower _ _ (ciLit_take r "agent".data ".mp3".data hc).1
      unfold parseFile
      rw [hm]
      simp only [Option.some.injEq, Turn.mk.injEq, and_true, true_and]
      rw [hrole]
      have : List.map Char.toLower (List.take 5 r) = "agent".data := h5
      rw [this]
    · have hm := regexMatch_of_form file key.data r _ hs hlt (matchTail_customer r hc)
      have h8 := ciLit_toLower _ _ (ciLit_take r "customer".data ".mp3".data hc).1
      unfold parseFile
      rw [hm]
      simp only [Option.some.injEq, Turn.mk.injEq, and_true, true_and]
      rw [hrole]
      have : List.map Char.toLower (List.take 8 r) = "customer".data := h8
      rw [this]

/-- C4, the code at the failing input. The name `a`, line feed, `b_agent.mp3` ends in
`_agent.mp3` and has the form sort key, `_`, role, `.mp3` with role `agent`, yet
`parseFile` returns null on it, because `.` in the pattern does not match a line
terminator. On the names of the claim without line terminator the result is as
claimed. -/
theorem parseFile_line_terminator :
    "a\nb_agent.mp3" = "a\nb" ++ "_" ++ "agent" ++ ".mp3" ∧
    parseFile "a\nb_agent.mp3" = none ∧
    parseFile "ab_agent.mp3" =
      some { sortKey := "ab", role := "agent", fileName := "ab_agent.mp3" } ∧
    parseFile "20251218_agent.mp3" =
      some { sortKey := "20251218", role := "agent", fileName := "20251218_agent.mp3" } ∧
    parseFile "a_agent_customer.mp3" =
      some { sortKey := "a_agent", role := "customer", fileName := "a_agent_customer.mp3" } ∧
    parseFile "X_CusTomer.MP3" =
      some { sortKey := "X", role := "customer", fileName := "X_CusTomer.MP3" } ∧
    parseFile "readme.txt" = none := by
  decide

/-! ## From the conversation to the filter graph -/

/-- When the durations of a conversation are all probed, `processConversationDir` starts
ffmpeg with `ffmpegArgs` computed from `filesAbs`, `parsed` and `durations`, three
arrays of the same length, and every duration is finite and greater than 0. -/
theorem pcd_ffmpeg_call {σ : Type} (H : Host) (S : Sys σ) (dir : String) (w : World σ)
    (listing : List String)
    (hread : (S.readdirSync (H.pathJoin H.inputDir dir) w.state).1 = .ok listing)
    (hns : ¬ skipped H listing) (durations : List JSNumber) (w2 : World σ)
    (hprobe : probeAll H S (resolvedFiles H dir listing) (afterReaddir H S dir w) =
      (.ok durations, w2)) :
    (parsedTurns H listing).length = (resolvedFiles H dir listing).length ∧
    durations.length = (resolvedFiles H dir listing).length ∧
    (∀ x ∈ durations, ∃ q : ℚ, x = .finite q ∧ 0 < q) ∧
    Event.spawn "ffmpeg"
        (ffmpegArgs H (resolvedFiles H dir listing) (parsedTurns H listing) durations
          (H.pathResolve H.outDir
            ((S.timestampForFilename w2.state).1 ++ "_" ++ dir ++ "_stereo.mp3"))) ∈
      (processConversationDir H S dir w).2.trace := by
  have hok := probeAll_ok H S (resolvedFiles H dir listing) (afterReaddir H S dir w) durations
    (by rw [hprobe])
  refine ⟨by simp [resolvedFiles], hok.1, hok.2, ?_⟩
  rw [pcd_not_skipped H S dir w listing hread hns, hprobe]
  simp only []
  obtain ⟨x3, hx3, -⟩ := run_trace S "ffmpeg"
    (ffmpegArgs H (resolvedFiles H dir listing) (parsedTurns H listing) durations
      (H.pathResolve H.outDir
        ((S.timestampForFilename w2.state).1 ++ "_" ++ dir ++ "_stereo.mp3")))
    { w2 with state := (S.timestampForFilename w2.state).2 }
  cases hrun : run S "ffmpeg"
    (ffmpegArgs H (resolvedFiles H dir listing) (parsedTurns H listing) durations
      (H.pathResolve H.outDir
        ((S.timestampForFilename w2.state).1 ++ "_" ++ dir ++ "_stereo.mp3")))
    { w2 with state := (S.timestampForFilename w2.state).2 } with
  | mk r3 w3 =>
    rw [hrun] at hx3
    simp only [] at hx3
    cases r3 with
    | error e =>
      simp only []
      rw [hx3]
      simp
    | ok out =>
      simp only [World.emit]
      rw [hx3]
      simp

/-! ## Injectivity of the parser and unpadded sort keys -/

theorem parseFile_fileName (s : String) (t : Turn) (h : parseFile s = some t) :
    t.fileName = s :=
  ((parseFile_eq_some_iff s t).mp h).1

/-- C13. The parser is injective on the names it accepts: two distinct file names on
which `parseFile` returns a turn give two different turns, since each turn records the
file name it was parsed from. -/
theorem parseFile_injective (n1 n2 : String) (t1 t2 : Turn) (h1 : parseFile n1 = some t1)
    (h2 : parseFile n2 = some t2) (hne : n1 ≠ n2) : t1 ≠ t2 := by
  intro heq
  apply hne
  rw [← parseFile_fileName n1 t1 h1, ← parseFile_fileName n2 t2 h2, heq]

/-- C13, worked example: `a_agent.mp3` and `a_AGENT.mp3` are both accepted, with the same
sort key and role, and the two turns differ by their file name. -/
theorem parseFile_injective_witness :
    (parseFile "a_agent.mp3" =
        some { sortKey := "a", role := "agent", fileName := "a_agent.mp3" } ∧
      parseFile "a_AGENT.mp3" =
        some { sortKey := "a", role := "agent", fileName := "a_AGENT.mp3" } ∧
      "a_agent.mp3" ≠ "a_AGENT.mp3") ∧
    ({ sortKey := "a", role := "agent", fileName := "a_agent.mp3" } : Turn) ≠
      { sortKey := "a", role := "agent", fileName := "a_AGENT.mp3" } :=
  ⟨⟨by decide, by decide, by decide⟩,
    parseFile_injective "a_agent.mp3" "a_AGENT.mp3" _ _ (by decide) (by decide) (by decide)⟩

/-- C15. Unpadded sort keys. For a host whose `localeCompare` orders the key `9` after
the key `10`, as plain string order does, the listing `9_agent.mp3`, `10_customer.mp3`
gives the turn list with the turn of key `10` first and the turn of key `9` second: the
order of the turns is not the numeric order of the keys, and nothing in
`processConversationDir` checks the keys. -/
theorem unpadded_keys_order (H : Host) (h : 0 < H.localeCompare "9" "10") :
    parsedTurns H unpaddedListing =
      [ { sortKey := "10", role := "customer", fileName := "10_customer.mp3" },
        { sortKey := "9", role := "agent", fileName := "9_agent.mp3" } ] := by
  have hl : unpaddedListing.filterMap parseFile =
      [ { sortKey := "9", role := "agent", fileName := "9_agent.mp3" },
        { sortKey := "10", role := "customer", fileName := "10_customer.mp3" } ] := by decide
  rw [parsedTurns_eq, hl]
  have hn : ¬ turnLe H { sortKey := "9", role := "agent", fileName := "9_agent.mp3" }
      { sortKey := "10", role := "customer", fileName := "10_customer.mp3" } := by
    show ¬ H.localeCompare "9" "10" ≤ 0
    omega
  simp only [List.insertionSort, List.orderedInsert, hn, if_false]

/-- C15, worked example: code-point order puts `9` after `10`, and the turn list of the
example host starts with the turn of key `10`. -/
theorem unpadded_keys_order_witness :
    0 < exampleHost.localeCompare "9" "10" ∧
    parsedTurns exampleHost unpaddedListing =
      [ { sortKey := "10", role := "customer", fileName := "10_customer.mp3" },
        { sortKey := "9", role := "agent", fileName := "9_agent.mp3" } ] :=
  ⟨by decide, unpadded_keys_order exampleHost (by decide)⟩

/-! ## The graph as a function of roles and durations -/

theorem segmentLoop_congr (H : Host) (f1 f2 : List String) (p1 p2 : List Turn)
    (durations : List JSNumber) (hlen : f1.length = f2.length)
    (hroles : p1.map (fun p => p.role) = p2.map (fun p => p.role)) :
    segmentLoop H f1 p1 durations = segmentLoop H f2 p2 durations := by
  unfold segmentLoop
  rw [hlen]
  congr 1
  funext st i
  have h : p1[i]?.map (fun p => p.role) = p2[i]?.map (fun p => p.role) := by
    rw [← List.getElem?_map, ← List.getElem?_map, hroles]
  cases h1 : p1[i]? with
  | none =>
    cases h2 : p2[i]? with
    | none => rfl
    | some b => rw [h1, h2] at h; cases h
  | some a =>
    cases h2 : p2[i]? with
    | none => rw [h1, h2] at h; cases h
    | some b =>
      rw [h1, h2] at h
      simp only [Option.map_some', Option.some.injEq] at h
      cases durations[i]? with
      | none => rfl
      | some x => simp only [h]

theorem filterComplex_index (H : Host) (filesAbs : List String) (parsed : List Turn)
    (durations : List JSNumber) (outFile : String) :
    (ffmpegArgs H filesAbs parsed durations outFile)[1 + 2 * filesAbs.length + 1]? =
      some (filterComplex H filesAbs parsed durations) := by
  have hin := inputArgs_length filesAbs
  have hlen : ("-y" :: filesAbs.flatMap (fun f => ["-i", f])).length =
      1 + 2 * filesAbs.length := by rw [List.length_cons, hin]; omega
  have hsub : 1 + 2 * filesAbs.length + 1 - (1 + 2 * filesAbs.length) = 1 := by omega
  unfold ffmpegArgs
  rw [List.getElem?_append_right (by omega), hlen, hsub]
  rfl

/-- C16. The filter graph depends on roles and durations only. Two conversations whose
turn lists have the same sequence of roles and whose durations are the same give the
same `-filter_complex` argument, whatever the sort keys, the file names, the resolved
paths, the conversation directory and the output file; that argument is the one that
follows `-filter_complex` in the ffmpeg arguments of either. -/
theorem graph_of_roles_and_durations (H : Host) (f1 f2 : List String) (p1 p2 : List Turn)
    (durations : List JSNumber) (out1 out2 : String) (hp1 : p1.length = f1.length)
    (hp2 : p2.length = f2.length)
    (hroles : p1.map (fun p => p.role) = p2.map (fun p => p.role)) :
    filterComplex H f1 p1 durations = filterComplex H f2 p2 durations ∧
    (ffmpegArgs H f1 p1 durations out1)[1 + 2 * f1.length + 1]? =
      some (filterComplex H f1 p1 durations) ∧
    (ffmpegArgs H f2 p2 durations out2)[1 + 2 * f2.length + 1]? =
      some (filterComplex H f1 p1 durations) := by
  have hlen : f1.length = f2.length := by
    have := congrArg List.length hroles
    simp only [List.length_map] at this
    omega
  have hfc : filterComplex H f1 p1 durations = filterComplex H f2 p2 durations := by
    unfold filterComplex filterParts
    rw [segmentLoop_congr H f1 f2 p1 p2 durations hlen hroles]
  refine ⟨hfc, filterComplex_index H f1 p1 durations out1, ?_⟩
  rw [hfc]
  exact filterComplex_index H f2 p2 durations out2

/-- C16, worked example: the conversations `call1` and `call7` have the roles agent,
customer, agent and the same durations, other names and keys; their `-filter_complex`
arguments are equal. -/
theorem graph_of_roles_and_durations_witness :
    (exampleTurns.length = exampleFiles.length ∧ otherTurns.length = otherFiles.length ∧
      exampleTurns.map (fun p => p.role) = otherTurns.map (fun p => p.role) ∧
      exampleTurns ≠ otherTurns ∧ exampleFiles ≠ otherFiles) ∧
    filterComplex exampleHost exampleFiles exampleTurns exampleDurations =
      filterComplex exampleHost otherFiles otherTurns exampleDurations :=
  ⟨⟨rfl, rfl, by decide, by decide, by decide⟩,
    (graph_of_roles_and_durations exampleHost exampleFiles otherFiles exampleTurns otherTurns
      exampleDurations "/work/out/a.mp3" "/work/out/b.mp3" rfl rfl (by decide)).1⟩

/-! ## Precision of the silence parameter -/

theorem nearestScaled_cast (q : ℚ) (h0 : 0 ≤ q) :
    ((nearestScaled q 3 : ℕ) : ℚ) = (Int.floor (q * (10 : ℚ) ^ 3 + 1 / 2) : ℚ) := by
  unfold nearestScaled
  have hnn : 0 ≤ Int.floor (q * (10 : ℚ) ^ 3 + 1 / 2) := Int.floor_nonneg.mpr (by positivity)
  have := Int.toNat_of_nonneg hnn
  exact_mod_cast this

theorem roundedSeconds_eq_zero_iff (q : ℚ) (h0 : 0 ≤ q) :
    roundedSeconds q = 0 ↔ q < 1 / 2000 := by
  unfold roundedSeconds
  rw [nearestScaled_cast q h0]
  have hfl := Int.floor_le (q * (10 : ℚ) ^ 3 + 1 / 2)
  have hlt := Int.lt_floor_add_one (q * (10 : ℚ) ^ 3 + 1 / 2)
  constructor
  · intro h
    have hz : (Int.floor (q * (10 : ℚ) ^ 3 + 1 / 2) : ℚ) = 0 := by
      rcases div_eq_zero_iff.mp h with h | h
      · exact h
      · norm_num at h
    rw [hz] at hlt
    linarith
  · intro h
    have hz : Int.floor (q * (10 : ℚ) ^ 3 + 1 / 2) = 0 := by
      rw [Int.floor_eq_iff]
      constructor
      · simp only [Int.cast_zero]; positivity
      · simp only [Int.cast_zero]; linarith
    rw [hz]
    simp

theorem roundedSeconds_nearest (q : ℚ) (h0 : 0 ≤ q) (k : ℕ) :
    |roundedSeconds q - q| ≤ |(k : ℚ) / 1000 - q| := by
  have hb := roundedSeconds_bounds q h0
  have hcast := nearestScaled_cast q h0
  have hfl := Int.floor_le (q * (10 : ℚ) ^ 3 + 1 / 2)
  have hlt := Int.lt_floor_add_one (q * (10 : ℚ) ^ 3 + 1 / 2)
  have hr : roundedSeconds q = (Int.floor (q * (10 : ℚ) ^ 3 + 1 / 2) : ℚ) / 1000 := by
    unfold roundedSeconds
    rw [hcast]
  have h1 : |roundedSeconds q - q| ≤ 1 / 2000 := by
    rw [abs_le]
    constructor <;> linarith [hb.1, hb.2]
  by_cases hk : (k : ℤ) = Int.floor (q * (10 : ℚ) ^ 3 + 1 / 2)
  · rw [hr, ← hk]
    simp
  · have hne : (k : ℤ) < Int.floor (q * (10 : ℚ) ^ 3 + 1 / 2) ∨
        Int.floor (q * (10 : ℚ) ^ 3 + 1 / 2) < (k : ℤ) := lt_or_gt_of_ne hk
    rcases hne with hlt' | hgt
    · have h2 : ((k : ℤ) : ℚ) + 1 ≤ (Int.floor (q * (10 : ℚ) ^ 3 + 1 / 2) : ℚ) := by
        exact_mod_cast Int.add_one_le_iff.mpr hlt'
      have h3 : (k : ℚ) / 1000 - q ≤ -(1 / 2000) := by
        have : ((k : ℤ) : ℚ) = (k : ℚ) := by simp
        rw [this] at h2
        rw [div_sub' _ _ _ (by norm_num : (1000 : ℚ) ≠ 0), div_le_iff₀ (by norm_num)]
        linarith
      calc |roundedSeconds q - q| ≤ 1 / 2000 := h1
        _ ≤ |(k : ℚ) / 1000 - q| := by
          rw [abs_of_nonpos (by linarith)]
          linarith
    · have h2 : (Int.floor (q * (10 : ℚ) ^ 3 + 1 / 2) : ℚ) + 1 ≤ ((k : ℤ) : ℚ) := by
        exact_mod_cast Int.add_one_le_iff.mpr hgt
      have h3 : 1 / 2000 ≤ (k : ℚ) / 1000 - q := by
        have : ((k : ℤ) : ℚ) = (k : ℚ) := by simp
        rw [this] at h2
        rw [div_sub' _ _ _ (by norm_num : (1000 : ℚ) ≠ 0), le_div_iff₀ (by norm_num)]
        linarith
      calc |roundedSeconds q - q| ≤ 1 / 2000 := h1
        _ ≤ |(k : ℚ) / 1000 - q| := by
          rw [abs_of_nonneg (by linarith)]
          exact h3

theorem fixedDigits_form (n : Nat) :
    ∃ a b : List Char, fixedDigits n 3 = String.mk (a ++ '.' :: b) ∧ a ≠ [] ∧ b.length = 3 ∧
      (∀ c ∈ a, c.isDigit = true) ∧ (∀ c ∈ b, c.isDigit = true) ∧
      digitsToNat (a ++ b) = n := by
  obtain ⟨hval, hdig⟩ := toString_digits n
  obtain ⟨m, hm, hmval, hmdig, hmlen⟩ : ∃ m : List Char,
      fixedDigits n 3 = String.mk (m.take (m.length - 3) ++ '.' :: m.drop (m.length - 3)) ∧
      digitsToNat m = n ∧ (∀ c ∈ m, c.isDigit = true) ∧ 4 ≤ m.length := by
    by_cases hlen : (toString n).data.length ≤ 3
    · refine ⟨List.replicate (3 + 1 - (toString n).data.length) '0' ++ (toString n).data, ?_, ?_,
        ?_, ?_⟩
      · simp only [fixedDigits, if_pos hlen, if_neg (show ¬ (3 = 0) by decide)]
      · rw [digitsToNat_append, digitsToNat_zeros, hval]; simp
      · intro c hc
        rcases List.mem_append.mp hc with hc | hc
        · rw [(List.mem_replicate.mp hc).2]; rfl
        · exact hdig c hc
      · simp only [List.length_append, List.length_replicate]; omega
    · exact ⟨(toString n).data,
        by simp only [fixedDigits, if_neg hlen, if_neg (show ¬ (3 = 0) by decide)],
        hval, hdig, by omega⟩
  refine ⟨m.take (m.length - 3), m.drop (m.length - 3), hm, ?_, ?_,
    fun c hc => hmdig c (List.mem_of_mem_take hc),
    fun c hc => hmdig c (List.mem_of_mem_drop hc), ?_⟩
  · intro h
    have := congrArg List.length h
    rw [List.length_take] at this
    simp at this
    omega
  · rw [List.length_drop]; omega
  · rw [List.take_append_drop, hmval]

theorem toFixed_tiny (H : Host) (q : ℚ) (h0 : 0 ≤ q) (h1 : q < 1 / 2000) :
    toFixed H (.finite q) 3 = "0.000" := by
  rw [toFixed_finite H q 3 h0 (by linarith [show (1 : ℚ) / 2000 < 10 ^ 21 by norm_num]),
    nearestScaled_eq q 3 0 (by simp only [Nat.cast_zero]; positivity)
      (by simp only [Nat.cast_zero]; linarith)]
  decide

theorem sum_zipWith_diff_bound (f g : Turn → ℚ → ℚ) (ε : ℚ) (parsed : List Turn) (qs : List ℚ)
    (hε : 0 ≤ ε) (h : ∀ p, ∀ q ∈ qs, |f p q - g p q| ≤ ε) :
    |(List.zipWith f parsed qs).sum - (List.zipWith g parsed qs).sum| ≤ (qs.length : ℚ) * ε := by
  induction parsed generalizing qs with
  | nil =>
    have h0 : (0 : ℚ) ≤ (qs.length : ℚ) * ε := by positivity
    simpa using h0
  | cons p ps ih =>
    cases qs with
    | nil => simp
    | cons q qs =>
      have h1 := h p q (List.mem_cons_self _ _)
      have h2 := ih qs (fun p' q' hq' => h p' q' (List.mem_cons_of_mem _ hq'))
      simp only [List.zipWith_cons_cons, List.sum_cons, List.length_cons, Nat.cast_add,
        Nat.cast_one]
      have e : f p q + (List.zipWith f ps qs).sum - (g p q + (List.zipWith g ps qs).sum) =
          (f p q - g p q) + ((List.zipWith f ps qs).sum - (List.zipWith g ps qs).sum) := by ring
      rw [e]
      calc |f p q - g p q + ((List.zipWith f ps qs).sum - (List.zipWith g ps qs).sum)|
          ≤ |f p q - g p q| + |(List.zipWith f ps qs).sum - (List.zipWith g ps qs).sum| :=
            abs_add _ _
        _ ≤ ε + (qs.length : ℚ) * ε := add_le_add h1 h2
        _ = ((qs.length : ℚ) + 1) * ε := by ring

theorem roundedSeconds_abs (q : ℚ) (h0 : 0 ≤ q) : |roundedSeconds q - q| ≤ 1 / 2000 := by
  have hb := roundedSeconds_bounds q h0
  rw [abs_le]
  constructor <;> linarith [hb.1, hb.2]

/-- C12, as amended. For every turn whose probed duration `q` is positive and below
`10^21`, the loop always emits the silence filter of the other channel, with no special
case for small durations. Its duration parameter is `q.toFixed(3)`, whose value is `q`
rounded to the nearest millisecond: it is within half a millisecond of `q`, it is not
zero exactly when `q` is at least half a millisecond, and it is the text `0.000` for
every smaller `q`. -/
theorem silence_always_inserted (H : Host) (filesAbs : List String) (parsed : List Turn)
    (durations : List JSNumber) (hp : parsed.length = filesAbs.length)
    (hd : durations.length = filesAbs.length) (i : Nat) (hi : i < filesAbs.length) (q : ℚ)
    (hq : durations[i]? = some (.finite q)) (h0 : 0 < q) (h1 : q < 10 ^ 21) :
    (∃ p, parsed[i]? = some p ∧
      (p.role = "agent" →
        (segmentLoop H filesAbs parsed durations).filterParts[3 * i + 2]? =
          some (silenceFilter (silenceParam H (.finite q)) "c" i)) ∧
      (p.role ≠ "agent" →
        (segmentLoop H filesAbs parsed durations).filterParts[3 * i + 1]? =
          some (silenceFilter (silenceParam H (.finite q)) "a" i))) ∧
    silenceParam H (.finite q) = toFixed H (.finite q) 3 ∧
    decimalValue (silenceParam H (.finite q)) = some (roundedSeconds q) ∧
    |roundedSeconds q - q| ≤ 1 / 2000 ∧
    (roundedSeconds q ≠ 0 ↔ 1 / 2000 ≤ q) ∧
    (q < 1 / 2000 → silenceParam H (.finite q) = "0.000") := by
  have hpi : i < parsed.length := by omega
  have hpe : parsed[i]? = some parsed[i] := List.getElem?_eq_getElem hpi
  refine ⟨⟨parsed[i], hpe, ?_, ?_⟩, rfl, silence_seconds H q (le_of_lt h0) h1,
    roundedSeconds_abs q (le_of_lt h0), ?_, fun h => toFixed_tiny H q (le_of_lt h0) h⟩
  · intro hr
    rw [segmentLoop_filterParts_getElem? H filesAbs parsed durations hp hd i 2 hi (by omega)]
    simp [filtersAt, hpe, hq, turnFilters, hr, silenceParam]
  · intro hr
    rw [segmentLoop_filterParts_getElem? H filesAbs parsed durations hp hd i 1 hi (by omega)]
    simp [filtersAt, hpe, hq, turnFilters, hr, silenceParam]
  · rw [ne_eq, roundedSeconds_eq_zero_iff q (le_of_lt h0), not_lt]

/-- C12, worked example of the amended statement: the customer turn of 2 s of the short
conversation gets the agent silence `d=2.000`, which is not zero. -/
theorem silence_always_inserted_witness :
    (shortTurns.length = shortFiles.length ∧
      (tinyDurations.map JSNumber.finite).length = shortFiles.length ∧ 1 < shortFiles.length ∧
      (tinyDurations.map JSNumber.finite)[1]? = some (.finite 2) ∧ (0 : ℚ) < 2 ∧
      (2 : ℚ) < 10 ^ 21) ∧
    (segmentLoop exampleHost shortFiles shortTurns
        (tinyDurations.map JSNumber.finite)).filterParts[3 * 1 + 1]? =
      some (silenceFilter (silenceParam exampleHost (.finite 2)) "a" 1) ∧
    decimalValue (silenceParam exampleHost (.finite 2)) = some (roundedSeconds 2) ∧
    roundedSeconds 2 ≠ 0 := by
  have h := silence_always_inserted exampleHost shortFiles shortTurns
    (tinyDurations.map JSNumber.finite) rfl rfl 1 (by decide) 2 rfl (by norm_num) (by norm_num)
  obtain ⟨⟨p, hp, -, hcust⟩, -, hval, -, hnz, -⟩ := h
  have hp1 : p = { sortKey := "002", role := "customer", fileName := "002_customer.mp3" } := by
    have : shortTurns[1]? = some
        { sortKey := "002", role := "customer", fileName := "002_customer.mp3" } := rfl
    rw [this] at hp
    injection hp with hp
    exact hp.symm
  refine ⟨⟨rfl, rfl, by decide, rfl, by norm_num, by norm_num⟩, hcust (by rw [hp1]; decide),
    hval, hnz.mpr (by norm_num)⟩

/-- C12, counterexample to the claim as stated. An agent clip of 1/4096 s, a positive
duration: the silence of that turn on the customer channel is emitted with `d=0.000`,
a duration parameter of zero. -/
theorem silence_zero_for_tiny :
    (0 : ℚ) < 1 / 4096 ∧
    (tinyDurations.map JSNumber.finite)[0]? = some (.finite (1 / 4096)) ∧
    (segmentLoop exampleHost shortFiles shortTurns
        (tinyDurations.map JSNumber.finite)).filterParts[2]? =
      some "anullsrc=r=48000:cl=mono:d=0.000[c0]" ∧
    silenceParam exampleHost (.finite (1 / 4096)) = "0.000" ∧
    decimalValue (silenceParam exampleHost (.finite (1 / 4096))) = some 0 := by
  have ht : toFixed exampleHost (.finite (1 / 4096)) 3 = "0.000" :=
    toFixed_tiny exampleHost _ (by norm_num) (by norm_num)
  have hv := silence_seconds exampleHost (1 / 4096) (by norm_num) (by norm_num)
  rw [(roundedSeconds_eq_zero_iff (1 / 4096) (by norm_num)).mpr (by norm_num)] at hv
  refine ⟨by norm_num, rfl, ?_, ht, hv⟩
  rw [segmentLoop_filterParts_getElem? exampleHost shortFiles shortTurns _ rfl rfl 0 2
    (by decide) (by decide)]
  simp only [filtersAt, shortTurns, tinyDurations, List.map_cons, List.getElem?_cons_zero,
    turnFilters, ht]
  decide

/-- C14, as amended. For turns whose probed durations are positive and below `10^21`:
the silence of turn `i` is emitted with the parameter `durations[i].toFixed(3)`; that
text is digits, a point and exactly three digits; its value is the multiple of one
millisecond nearest to the duration, so it differs from the duration by at most
0.0005 s; and the totals of the agent and the customer channel differ by at most
0.0005 s per turn. -/
theorem silence_precision (H : Host) (filesAbs : List String) (parsed : List Turn)
    (qs : List ℚ) (hp : parsed.length = filesAbs.length) (hq : qs.length = filesAbs.length)
    (hpos : ∀ q ∈ qs, 0 < q ∧ q < 10 ^ 21) :
    (∀ i, i < filesAbs.length → ∃ p q, parsed[i]? = some p ∧ qs[i]? = some q ∧
      (p.role = "agent" →
        (segmentLoop H filesAbs parsed (qs.map .finite)).filterParts[3 * i + 2]? =
          some (silenceFilter (toFixed H (.finite q) 3) "c" i)) ∧
      (p.role ≠ "agent" →
        (segmentLoop H filesAbs parsed (qs.map .finite)).filterParts[3 * i + 1]? =
          some (silenceFilter (toFixed H (.finite q) 3) "a" i))) ∧
    (∀ q ∈ qs,
      (∃ a b : List Char, toFixed H (.finite q) 3 = String.mk (a ++ '.' :: b) ∧ a ≠ [] ∧
        b.length = 3 ∧ (∀ c ∈ a, c.isDigit = true) ∧ (∀ c ∈ b, c.isDigit = true)) ∧
      decimalValue (toFixed H (.finite q) 3) = some (roundedSeconds q) ∧
      (∀ k : ℕ, |roundedSeconds q - q| ≤ |(k : ℚ) / 1000 - q|) ∧
      |roundedSeconds q - q| ≤ 1 / 2000) ∧
    timelineSeconds (qs.map .finite) (agentTimeline H parsed (qs.map .finite)) =
      some (agentTotal parsed qs) ∧
    timelineSeconds (qs.map .finite) (customerTimeline H parsed (qs.map .finite)) =
      some (customerTotal parsed qs) ∧
    |agentTotal parsed qs - customerTotal parsed qs| ≤ (qs.length : ℚ) * (1 / 2000) := by
  have hd : (qs.map JSNumber.finite).length = filesAbs.length := by simp [hq]
  have hlen : parsed.length = qs.length := by omega
  refine ⟨?_, ?_, timelineSeconds_agentTimeline H parsed qs hlen hpos,
    timelineSeconds_customerTimeline H parsed qs hlen hpos, ?_⟩
  · intro i hi
    have hpi : i < parsed.length := by omega
    have hqi : i < qs.length := by omega
    have hpe : parsed[i]? = some parsed[i] := List.getElem?_eq_getElem hpi
    have hxe : (qs.map JSNumber.finite)[i]? = some (.finite qs[i]) := by
      simp [List.getElem?_eq_getElem hqi]
    refine ⟨parsed[i], qs[i], hpe, List.getElem?_eq_getElem hqi, ?_, ?_⟩
    · intro hr
      rw [segmentLoop_filterParts_getElem? H filesAbs parsed _ hp hd i 2 hi (by omega)]
      simp [filtersAt, hpe, hxe, turnFilters, hr]
    · intro hr
      rw [segmentLoop_filterParts_getElem? H filesAbs parsed _ hp hd i 1 hi (by omega)]
      simp [filtersAt, hpe, hxe, turnFilters, hr]
  · intro q hqm
    have h0 := le_of_lt (hpos q hqm).1
    refine ⟨?_, silence_seconds H q h0 (hpos q hqm).2, roundedSeconds_nearest q h0,
      roundedSeconds_abs q h0⟩
    obtain ⟨a, b, hab, ha, hb, hda, hdb, -⟩ := fixedDigits_form (nearestScaled q 3)
    exact ⟨a, b, by rw [toFixed_finite H q 3 h0 (hpos q hqm).2, hab], ha, hb, hda, hdb⟩
  · unfold agentTotal customerTotal
    refine sum_zipWith_diff_bound _ _ (1 / 2000) parsed qs (by norm_num) ?_
    intro p q hqm
    have hr := roundedSeconds_abs q (le_of_lt (hpos q hqm).1)
    by_cases hrole : p.role = "agent"
    · simp only [hrole, if_true]
      rw [abs_sub_comm]
      exact hr
    · simp only [hrole, if_false]
      exact hr

/-- C14, worked example of the amended statement, on the short conversation: the agent
clip of 1/1024 s gets the silence `d=0.001`, and the channel totals 2049/1024 s and
2001/1000 s differ by less than a millisecond. -/
theorem silence_precision_witness :
    (shortTurns.length = shortFiles.length ∧ shortDurations.length = shortFiles.length ∧
      ∀ q ∈ shortDurations, 0 < q ∧ q < 10 ^ 21) ∧
    decimalValue (toFixed exampleHost (.finite (1 / 1024)) 3) =
      some (roundedSeconds (1 / 1024)) ∧
    roundedSeconds (1 / 1024) = 1 / 1000 ∧
    |agentTotal shortTurns shortDurations - customerTotal shortTurns shortDurations| ≤
      (shortDurations.length : ℚ) * (1 / 2000) := by
  have hpos : ∀ q ∈ shortDurations, 0 < q ∧ q < 10 ^ 21 := by
    intro q hq
    simp only [shortDurations, List.mem_cons, List.mem_singleton, List.not_mem_nil, or_false] at hq
    rcases hq with rfl | rfl <;> norm_num
  have h := silence_precision exampleHost shortFiles shortTurns shortDurations rfl rfl hpos
  exact ⟨⟨rfl, rfl, hpos⟩, (h.2.1 (1 / 1024) (by simp [shortDurations])).2.1,
    roundedSeconds_small, h.2.2.2.2⟩

/-- C14, counterexample to the claim as stated. The duration `10^21` s is finite and
positive, and `toFixed(3)` prints it as `1e+21`: the silence parameter has no point
and no fractional digit, and is not a decimal number of seconds. -/
theorem silence_param_large :
    (0 : ℚ) < 10 ^ 21 ∧
    JSNumber.isFinite (.finite (10 ^ 21)) = true ∧
    JSNumber.leZero (.finite (10 ^ 21)) = false ∧
    silenceParam exampleHost (.finite (10 ^ 21)) = "1e+21" ∧
    '.' ∉ (silenceParam exampleHost (.finite (10 ^ 21))).data ∧
    decimalValue (silenceParam exampleHost (.finite (10 ^ 21))) = none ∧
    ¬ ∃ a b : List Char,
      silenceParam exampleHost (.finite (10 ^ 21)) = String.mk (a ++ '.' :: b) := by
  have ht : silenceParam exampleHost (.finite (10 ^ 21)) = "1e+21" := by
    unfold silenceParam toFixed
    have h1 : ¬ ((10 : ℚ) ^ 21 < 0) := by norm_num
    simp only [h1, if_false, le_refl, if_true]
    rfl
  refine ⟨by norm_num, rfl, ?_, ht, ?_, ?_, ?_⟩
  · simp only [JSNumber.leZero, decide_eq_false_iff_not, not_le]
    norm_num
  · rw [ht]; decide
  · rw [ht]; decide
  · rw [ht]
    rintro ⟨a, b, hab⟩
    have hmem : '.' ∈ ("1e+21" : String).data := by
      rw [hab]
      simp
    revert hmem
    decide

/-! ## Agreement of inputs, turns and durations -/

theorem pairs_getElem? (filesAbs : List String) (i : Nat) (f : String)
    (hf : filesAbs[i]? = some f) :
    (filesAbs.flatMap (fun f => ["-i", f]))[2 * i]? = some "-i" ∧
    (filesAbs.flatMap (fun f => ["-i", f]))[2 * i + 1]? = some f := by
  induction filesAbs generalizing i with
  | nil => simp at hf
  | cons g gs ih =>
    cases i with
    | zero =>
      simp only [List.getElem?_cons_zero, Option.some.injEq] at hf
      subst hf
      simp
    | succ i =>
      have h := ih i (by simpa using hf)
      have e1 : 2 * (i + 1) = 2 * i + 1 + 1 := by omega
      rw [e1]
      simp only [List.flatMap_cons, List.cons_append, List.nil_append, List.getElem?_cons_succ]
      exact h

theorem inputArgs_getElem? (filesAbs : List String) (i : Nat) (f : String)
    (hf : filesAbs[i]? = some f) :
    ("-y" :: filesAbs.flatMap (fun f => ["-i", f]))[1 + 2 * i]? = some "-i" ∧
    ("-y" :: filesAbs.flatMap (fun f => ["-i", f]))[2 + 2 * i]? = some f := by
  have h := pairs_getElem? filesAbs i f hf
  have e1 : 1 + 2 * i = 2 * i + 1 := by omega
  have e2 : 2 + 2 * i = 2 * i + 1 + 1 := by omega
  rw [e1, e2, List.getElem?_cons_succ, List.getElem?_cons_succ]
  exact h

theorem ffmpegArgs_input (H : Host) (filesAbs : List String) (parsed : List Turn)
    (durations : List JSNumber) (outFile : String) (i : Nat) (f : String)
    (hf : filesAbs[i]? = some f) :
    (ffmpegArgs H filesAbs parsed durations outFile)[1 + 2 * i]? = some "-i" ∧
    (ffmpegArgs H filesAbs parsed durations outFile)[2 + 2 * i]? = some f := by
  have hi : i < filesAbs.length := (List.getElem?_eq_some.mp hf).1
  have hlen : ("-y" :: filesAbs.flatMap (fun f => ["-i", f])).length =
      1 + 2 * filesAbs.length := by rw [List.length_cons, inputArgs_length]; omega
  have h := inputArgs_getElem? filesAbs i f hf
  unfold ffmpegArgs
  rw [List.getElem?_append_left (by omega), List.getElem?_append_left (by omega)]
  exact h

theorem probeAll_results {σ : Type} (H : Host) (S : Sys σ) (files : List String) (w : World σ)
    (ds : List JSNumber) (h : (probeAll H S files w).1 = .ok ds) (i : Nat) (f : String)
    (d : JSNumber) (hf : files[i]? = some f) (hd : ds[i]? = some d) :
    ∃ wi : World σ, (ffprobeDurationSeconds H S f wi).1 = .ok d ∧
      d = H.toNumber (H.trim (S.spawnSync "ffprobe" (ffprobeArgs f) wi.state).1.stdout) := by
  induction files generalizing w ds i with
  | nil => simp at hf
  | cons g gs ih =>
    unfold probeAll at h
    cases hp : ffprobeDurationSeconds H S g w with
    | mk r w1 =>
      rw [hp] at h
      cases r with
      | error e => cases h
      | ok d0 =>
        simp only [] at h
        cases hq : probeAll H S gs w1 with
        | mk r2 w2 =>
          rw [hq] at h
          cases r2 with
          | error e2 => cases h
          | ok ds2 =>
            simp only [] at h
            injection h with h
            subst h
            cases i with
            | zero =>
              simp only [List.getElem?_cons_zero, Option.some.injEq] at hf hd
              subst hf hd
              refine ⟨w, by rw [hp], ?_⟩
              by_cases hfail : probeFailsAt H S g w.state
              · obtain ⟨e, he⟩ := ffprobe_fails H S g w hfail
                rw [hp] at he
                cases he
              · have hs := ffprobe_succeeds H S g w hfail
                rw [hp] at hs
                injection hs
            | succ i =>
              exact ih w1 ds2 (by rw [hq]) i (by simpa using hf) (by simpa using hd)

theorem filterParts_getElem?_turn (H : Host) (filesAbs : List String) (parsed : List Turn)
    (durations : List JSNumber) (hp : parsed.length = filesAbs.length)
    (hd : durations.length = filesAbs.length) (i j : Nat) (hi : i < filesAbs.length)
    (hj : j < 3) :
    (filterParts H filesAbs parsed durations)[3 * i + j]? =
      (filtersAt H parsed durations i)[j]? := by
  have hlen := loopParts_length H parsed durations (by omega)
  rw [filterParts_eq H filesAbs parsed durations hp hd,
    List.getElem?_append_left (by rw [hlen]; omega)]
  exact getElem?_flatMap_range_three _ _
    (fun k hk => filtersAt_length H parsed durations _ k rfl (by omega) hk) i j (by omega) hj

/-- C17. Agreement of inputs, turns and durations. When the durations of a conversation
are all probed, ffmpeg is started with `-y`, then one pair `-i`, path for each turn in
the order of the sorted turn list, then the options. For every index `i`, the path of
pair `i` is the resolved path of turn `i`, `durations[i]` is what
`ffprobeDurationSeconds` returned for that same path, and the filters of turn `i`
normalise the stream `[i:a]` and use the role of turn `i` and `durations[i]`. -/
theorem input_turn_agreement {σ : Type} (H : Host) (S : Sys σ) (dir : String) (w : World σ)
    (listing : List String)
    (hread : (S.readdirSync (H.pathJoin H.inputDir dir) w.state).1 = .ok listing)
    (hns : ¬ skipped H listing) (durations : List JSNumber) (w2 : World σ)
    (hprobe : probeAll H S (resolvedFiles H dir listing) (afterReaddir H S dir w) =
      (.ok durations, w2)) :
    Event.spawn "ffmpeg"
        (ffmpegArgs H (resolvedFiles H dir listing) (parsedTurns H listing) durations
          (outputFile H S dir w2)) ∈ (processConversationDir H S dir w).2.trace ∧
    ffmpegArgs H (resolvedFiles H dir listing) (parsedTurns H listing) durations
        (outputFile H S dir w2) =
      "-y" :: (resolvedFiles H dir listing).flatMap (fun f => ["-i", f]) ++
        ["-filter_complex",
          filterComplex H (resolvedFiles H dir listing) (parsedTurns H listing) durations,
          "-map", "[st]", "-c:a", "libmp3lame", "-q:a", "2", outputFile H S dir w2] ∧
    (resolvedFiles H dir listing).length = (parsedTurns H listing).length ∧
    durations.length = (parsedTurns H listing).length ∧
    ∀ i, i < (parsedTurns H listing).length → ∃ p x,
      (parsedTurns H listing)[i]? = some p ∧ durations[i]? = some x ∧
      (resolvedFiles H dir listing)[i]? =
        some (H.pathResolve (H.pathJoin H.inputDir dir) p.fileName) ∧
      (ffmpegArgs H (resolvedFiles H dir listing) (parsedTurns H listing) durations
        (outputFile H S dir w2))[1 + 2 * i]? = some "-i" ∧
      (ffmpegArgs H (resolvedFiles H dir listing) (parsedTurns H listing) durations
        (outputFile H S dir w2))[2 + 2 * i]? =
        some (H.pathResolve (H.pathJoin H.inputDir dir) p.fileName) ∧
      (∃ wi : World σ,
        (ffprobeDurationSeconds H S (H.pathResolve (H.pathJoin H.inputDir dir) p.fileName)
          wi).1 = .ok x) ∧
      (filterParts H (resolvedFiles H dir listing) (parsedTurns H listing) durations)[3 * i]? =
        some (normalizeFilter i) ∧
      (filterParts H (resolvedFiles H dir listing) (parsedTurns H listing)
          durations)[3 * i + 1]? = (turnFilters H i p.role x)[1]? ∧
      (filterParts H (resolvedFiles H dir listing) (parsedTurns H listing)
          durations)[3 * i + 2]? = (turnFilters H i p.role x)[2]? := by
  obtain ⟨hlp, hld, -, hspawn⟩ := pcd_ffmpeg_call H S dir w listing hread hns durations w2 hprobe
  refine ⟨hspawn, rfl, hlp.symm, by omega, ?_⟩
  intro i hi
  have hdi : i < durations.length := by omega
  have hpe : (parsedTurns H listing)[i]? = some (parsedTurns H listing)[i] :=
    List.getElem?_eq_getElem hi
  have hxe : durations[i]? = some durations[i] := List.getElem?_eq_getElem hdi
  have hfe : (resolvedFiles H dir listing)[i]? =
      some (H.pathResolve (H.pathJoin H.inputDir dir) (parsedTurns H listing)[i].fileName) := by
    unfold resolvedFiles
    rw [List.getElem?_map, hpe]
    rfl
  have hargs := ffmpegArgs_input H (resolvedFiles H dir listing) (parsedTurns H listing) durations
    (outputFile H S dir w2) i _ hfe
  obtain ⟨wi, hwi, -⟩ := probeAll_results H S (resolvedFiles H dir listing)
    (afterReaddir H S dir w) durations (by rw [hprobe]) i _ _ hfe hxe
  have hfa : filtersAt H (parsedTurns H listing) durations i =
      turnFilters H i (parsedTurns H listing)[i].role durations[i] := by
    simp only [filtersAt, hpe, hxe]
  have hfl : i < (resolvedFiles H dir listing).length := by omega
  refine ⟨_, _, hpe, hxe, hfe, hargs.1, hargs.2, ⟨wi, hwi⟩, ?_, ?_, ?_⟩
  · have h := filterParts_getElem?_turn H _ _ durations hlp hld i 0 hfl (by omega)
    rw [Nat.add_zero] at h
    rw [h, hfa]
    unfold turnFilters
    split <;> rfl
  · rw [filterParts_getElem?_turn H _ _ durations hlp hld i 1 hfl (by omega), hfa]
  · rw [filterParts_getElem?_turn H _ _ durations hlp hld i 2 hfl (by omega), hfa]

/-- C17, worked example: in the directory `call1` of the example world the listing is
sorted to the turns 001, 002, 003, all three probes succeed, and ffmpeg is started with
the three resolved paths in that order. -/
theorem input_turn_agreement_witness :
    ((exampleSys.readdirSync (exampleHost.pathJoin exampleHost.inputDir "call1")
        exampleWorld.state).1 = .ok call1Listing ∧
      ¬ skipped exampleHost call1Listing ∧
      (probeAll exampleHost exampleSys (resolvedFiles exampleHost "call1" call1Listing)
        (afterReaddir exampleHost exampleSys "call1" exampleWorld)).1 =
        .ok [.finite 2, .finite 3, .finite 2]) ∧
    Event.spawn "ffmpeg"
        (ffmpegArgs exampleHost (resolvedFiles exampleHost "call1" call1Listing)
          (parsedTurns exampleHost call1Listing) [.finite 2, .finite 3, .finite 2]
          "/work/out/20251218T093217_call1_stereo.mp3") ∈
      (processConversationDir exampleHost exampleSys "call1" exampleWorld).2.trace ∧
    resolvedFiles exampleHost "call1" call1Listing = exampleFiles ∧
    parsedTurns exampleHost call1Listing = exampleTurns ∧
    (ffmpegArgs exampleHost (resolvedFiles exampleHost "call1" call1Listing)
        (parsedTurns exampleHost call1Listing) [.finite 2, .finite 3, .finite 2]
        "/work/out/20251218T093217_call1_stereo.mp3").take 7 =
      ["-y", "-i", "/work/audio/call1/001_agent.mp3", "-i",
        "/work/audio/call1/002_customer.mp3", "-i", "/work/audio/call1/003_agent.mp3"] := by
  have hns : ¬ skipped exampleHost call1Listing := by
    unfold skipped
    decide
  have h1 : (probeAll exampleHost exampleSys (resolvedFiles exampleHost "call1" call1Listing)
      (afterReaddir exampleHost exampleSys "call1" exampleWorld)).1 =
      .ok [.finite 2, .finite 3, .finite 2] := rfl
  have hprobe : probeAll exampleHost exampleSys (resolvedFiles exampleHost "call1" call1Listing)
      (afterReaddir exampleHost exampleSys "call1" exampleWorld) =
      (.ok [.finite 2, .finite 3, .finite 2],
        (probeAll exampleHost exampleSys (resolvedFiles exampleHost "call1" call1Listing)
          (afterReaddir exampleHost exampleSys "call1" exampleWorld)).2) :=
    Prod.ext h1 rfl
  have h := input_turn_agreement exampleHost exampleSys "call1" exampleWorld call1Listing rfl hns
    [.finite 2, .finite 3, .finite 2] _ hprobe
  have hfiles : resolvedFiles exampleHost "call1" call1Listing = exampleFiles := by decide
  refine ⟨⟨rfl, hns, h1⟩, h.1, hfiles, by decide, ?_⟩
  rw [hfiles]
  rfl

/-! ## The filter graph as a structure -/

theorem normalizeNode_text (i : Nat) : (normalizeNode i).text = normalizeFilter i := by
  simp only [Filter.text, normalizeNode, Pad.text, normalizeFilter, List.map_cons, List.map_nil,
    String.join, List.foldl, String.append_assoc]
  rfl

theorem speechNode_text (ch : String) (i : Nat) : (speechNode ch i).text = speechFilter ch i := by
  simp only [Filter.text, speechNode, Pad.text, speechFilter, List.map_cons, List.map_nil,
    String.join, List.foldl, String.append_assoc]
  rfl

theorem silenceNode_text (d ch : String) (i : Nat) :
    (silenceNode d ch i).text = silenceFilter d ch i := by
  simp only [Filter.text, silenceNode, silenceFilter, List.map_nil,
    String.join, List.foldl, String.append_assoc]
  rfl

theorem mergeNode_text : mergeNode.text = mergeFilter := by decide

theorem linkLabels_text (ch : String) (n : Nat) :
    ((List.range n).map (fun i => Pad.link (ch ++ toString i))).map Pad.text =
      (List.range n).map (segLabel ch) := by
  rw [List.map_map]
  apply List.map_congr_left
  intro i _
  simp only [Function.comp, Pad.text, segLabel, String.append_assoc]

theorem concatNode_text (ch : String) (n : Nat) (out : String) :
    (concatNode ch n out).text = concatFilter ((List.range n).map (segLabel ch)) out := by
  simp only [Filter.text, concatNode, concatFilter, linkLabels_text, List.length_map,
    List.length_range, String.append_assoc]
  rfl

theorem turnNodes_text (H : Host) (i : Nat) (role : String) (dur : JSNumber) :
    (turnNodes H i role dur).map Filter.text = turnFilters H i role dur := by
  unfold turnNodes turnFilters
  split <;> simp only [List.map_cons, List.map_nil, normalizeNode_text, speechNode_text,
    silenceNode_text]

theorem nodesAt_text (H : Host) (parsed : List Turn) (durations : List JSNumber) (i : Nat) :
    (nodesAt H parsed durations i).map Filter.text = filtersAt H parsed durations i := by
  unfold nodesAt filtersAt
  cases parsed[i]? with
  | none => rfl
  | some p =>
    cases durations[i]? with
    | none => rfl
    | some x => exact turnNodes_text H i p.role x

theorem graph_text (H : Host) (filesAbs : List String) (parsed : List Turn)
    (durations : List JSNumber) (hp : parsed.length = filesAbs.length)
    (hd : durations.length = filesAbs.length) :
    filterParts H filesAbs parsed durations = (graph H parsed durations).map Filter.text := by
  rw [filterParts_eq H filesAbs parsed durations hp hd]
  unfold graph
  simp only [List.map_append, List.map_flatMap, nodesAt_text, List.map_cons, List.map_nil,
    concatNode_text, mergeNode_text]

theorem turnNodes_length (H : Host) (i : Nat) (role : String) (dur : JSNumber) :
    (turnNodes H i role dur).length = 3 := by
  unfold turnNodes
  split <;> rfl

theorem nodesAt_eq (H : Host) (parsed : List Turn) (durations : List JSNumber) (i : Nat)
    (hpi : i < parsed.length) (hdi : i < durations.length) :
    nodesAt H parsed durations i = turnNodes H i parsed[i].role durations[i] := by
  unfold nodesAt
  rw [List.getElem?_eq_getElem hpi, List.getElem?_eq_getElem hdi]

theorem graph_length (H : Host) (parsed : List Turn) (durations : List JSNumber)
    (hd : durations.length = parsed.length) :
    (graph H parsed durations).length = 3 * parsed.length + 3 := by
  unfold graph
  rw [List.length_append]
  have : ((List.range parsed.length).flatMap (nodesAt H parsed durations)).length =
      3 * parsed.length := by
    have h := congrArg List.length
      (show ((List.range parsed.length).flatMap (nodesAt H parsed durations)).map Filter.text =
        (List.range parsed.length).flatMap (filtersAt H parsed durations) by
        simp only [List.map_flatMap, nodesAt_text])
    rw [List.length_map] at h
    rw [h, loopParts_length H parsed durations hd]
  rw [this]
  rfl

/-! ## Distinct labels -/

theorem toString_injective (i j : Nat) (h : (toString i).data = (toString j).data) : i = j := by
  rw [← (toString_digits i).1, ← (toString_digits j).1, h]

theorem toString_head (n : Nat) :
    ∃ c cs, (toString n).data = c :: cs ∧ c.isDigit = true := by
  cases h : (toString n).data with
  | nil =>
    have h1 := (toString_digits n).1
    rw [h] at h1
    have hn : n = 0 := h1.symm
    subst hn
    have h0 : (toString 0).data ≠ [] := by decide
    exact absurd h h0
  | cons c cs =>
    refine ⟨c, cs, rfl, ?_⟩
    exact (toString_digits n).2 c (by rw [h]; exact List.mem_cons_self _ _)

theorem toString_not_mem (n : Nat) (c : Char) (hc : c.isDigit = false) :
    c ∉ (toString n).data := by
  intro h
  rw [(toString_digits n).2 c h] at hc
  cases hc

theorem label_injective (ch : String) (i j : Nat) (h : ch ++ toString i = ch ++ toString j) :
    i = j := by
  have h2 := congrArg String.data h
  simp only [String.data_append, List.append_cancel_left_eq] at h2
  exact toString_injective i j h2

theorem in_ne_a (i j : Nat) : "in" ++ toString i ≠ "a" ++ toString j := by
  intro h
  have h2 := congrArg String.data h
  simp [String.data_append] at h2

theorem in_ne_c (i j : Nat) : "in" ++ toString i ≠ "c" ++ toString j := by
  intro h
  have h2 := congrArg String.data h
  simp [String.data_append] at h2

theorem a_ne_c (i j : Nat) : "a" ++ toString i ≠ "c" ++ toString j := by
  intro h
  have h2 := congrArg String.data h
  simp [String.data_append] at h2

theorem in_not_final (i : Nat) :
    "in" ++ toString i ≠ "agent" ∧ "in" ++ toString i ≠ "customer" ∧
      "in" ++ toString i ≠ "st" := by
  refine ⟨?_, ?_, ?_⟩ <;>
  · intro h
    have h2 := congrArg String.data h
    simp [String.data_append] at h2

theorem a_not_final (i : Nat) :
    "a" ++ toString i ≠ "agent" ∧ "a" ++ toString i ≠ "customer" ∧
      "a" ++ toString i ≠ "st" := by
  refine ⟨?_, ?_, ?_⟩
  · intro h
    have h2 := congrArg String.data h
    simp only [String.data_append] at h2
    have h3 : (toString i).data = ['g', 'e', 'n', 't'] := by
      have : ("a" : String).data ++ (toString i).data = ("a" : String).data ++ ['g', 'e', 'n', 't'] :=
        h2
      exact List.append_cancel_left this
    exact toString_not_mem i 'g' (by decide) (by rw [h3]; simp)
  · intro h
    have h2 := congrArg String.data h
    simp [String.data_append] at h2
  · intro h
    have h2 := congrArg String.data h
    simp [String.data_append] at h2

theorem c_not_final (i : Nat) :
    "c" ++ toString i ≠ "agent" ∧ "c" ++ toString i ≠ "customer" ∧
      "c" ++ toString i ≠ "st" := by
  refine ⟨?_, ?_, ?_⟩
  · intro h
    have h2 := congrArg String.data h
    simp [String.data_append] at h2
  · intro h
    have h2 := congrArg String.data h
    simp only [String.data_append] at h2
    have h3 : (toString i).data = ['u', 's', 't', 'o', 'm', 'e', 'r'] := by
      have : ("c" : String).data ++ (toString i).data =
          ("c" : String).data ++ ['u', 's', 't', 'o', 'm', 'e', 'r'] := h2
      exact List.append_cancel_left this
    exact toString_not_mem i 'u' (by decide) (by rw [h3]; simp)
  · intro h
    have h2 := congrArg String.data h
    simp [String.data_append] at h2

/-! ## Labels produced and pads consumed -/

theorem turnNodes_outputs (H : Host) (i : Nat) (role : String) (dur : JSNumber) :
    (turnNodes H i role dur).map (fun f => f.output) =
      ["in" ++ toString i, "a" ++ toString i, "c" ++ toString i] := by
  unfold turnNodes
  split <;> rfl

theorem turnNodes_inputs (H : Host) (i : Nat) (role : String) (dur : JSNumber) :
    (turnNodes H i role dur).flatMap (fun f => f.inputs) =
      [Pad.stream i, Pad.link ("in" ++ toString i)] := by
  unfold turnNodes
  split <;> rfl

theorem producedLabels_graph (H : Host) (parsed : List Turn) (durations : List JSNumber)
    (hd : durations.length = parsed.length) :
    producedLabels (graph H parsed durations) =
      (List.range parsed.length).flatMap
          (fun i => ["in" ++ toString i, "a" ++ toString i, "c" ++ toString i]) ++
        ["agent", "customer", "st"] := by
  unfold producedLabels graph
  rw [List.map_append, List.map_flatMap]
  congr 1
  apply List.flatMap_congr
  intro i hi
  have hi' : i < parsed.length := List.mem_range.mp hi
  rw [nodesAt_eq H parsed durations i hi' (by omega)]
  exact turnNodes_outputs H i _ _

theorem consumedPads_graph (H : Host) (parsed : List Turn) (durations : List JSNumber)
    (hd : durations.length = parsed.length) :
    consumedPads (graph H parsed durations) =
      (List.range parsed.length).flatMap
          (fun i => [Pad.stream i, Pad.link ("in" ++ toString i)]) ++
        ((List.range parsed.length).map (fun i => Pad.link ("a" ++ toString i)) ++
          ((List.range parsed.length).map (fun i => Pad.link ("c" ++ toString i)) ++
            [Pad.link "agent", Pad.link "customer"])) := by
  unfold consumedPads graph
  rw [List.flatMap_append, List.flatMap_assoc]
  congr 1
  apply List.flatMap_congr
  intro i hi
  have hi' : i < parsed.length := List.mem_range.mp hi
  rw [nodesAt_eq H parsed durations i hi' (by omega)]
  exact turnNodes_inputs H i _ _

theorem producedLabels_nodup (n : Nat) :
    ((List.range n).flatMap
        (fun i => ["in" ++ toString i, "a" ++ toString i, "c" ++ toString i]) ++
      ["agent", "customer", "st"]).Nodup := by
  rw [List.nodup_append]
  refine ⟨?_, by decide, ?_⟩
  · rw [List.nodup_flatMap]
    constructor
    · intro i _
      simp only [List.nodup_cons, List.mem_cons, List.mem_singleton, List.not_mem_nil, or_false,
        not_or, not_false_eq_true, List.nodup_nil, and_true]
      exact ⟨⟨in_ne_a i i, in_ne_c i i⟩, a_ne_c i i⟩
    · refine (List.pairwise_lt_range n).imp ?_
      intro i j hij
      show List.Disjoint _ _
      rw [List.disjoint_left]
      intro x hx hx'
      simp only [List.mem_cons, List.mem_singleton, List.not_mem_nil, or_false] at hx hx'
      have hne : i ≠ j := Nat.ne_of_lt hij
      rcases hx with rfl | rfl | rfl <;> rcases hx' with h | h | h
      · exact hne (label_injective "in" i j h)
      · exact in_ne_a i j h
      · exact in_ne_c i j h
      · exact in_ne_a j i h.symm
      · exact hne (label_injective "a" i j h)
      · exact a_ne_c i j h
      · exact in_ne_c j i h.symm
      · exact a_ne_c j i h.symm
      · exact hne (label_injective "c" i j h)
  · rw [List.disjoint_left]
    intro x hx hx'
    obtain ⟨i, -, hxi⟩ := List.mem_flatMap.mp hx
    simp only [List.mem_cons, List.mem_singleton, List.not_mem_nil, or_false] at hxi hx'
    rcases hxi with rfl | rfl | rfl <;> rcases hx' with h | h | h
    · exact (in_not_final i).1 h
    · exact (in_not_final i).2.1 h
    · exact (in_not_final i).2.2 h
    · exact (a_not_final i).1 h
    · exact (a_not_final i).2.1 h
    · exact (a_not_final i).2.2 h
    · exact (c_not_final i).1 h
    · exact (c_not_final i).2.1 h
    · exact (c_not_final i).2.2 h

theorem linkLabels_nodup (ch : String) (n : Nat) :
    ((List.range n).map (fun i => Pad.link (ch ++ toString i))).Nodup := by
  refine List.Nodup.map_on ?_ (List.nodup_range n)
  intro i _ j _ h
  injection h with h
  exact label_injective ch i j h

theorem consumedPads_nodup (n : Nat) :
    ((List.range n).flatMap (fun i => [Pad.stream i, Pad.link ("in" ++ toString i)]) ++
      ((List.range n).map (fun i => Pad.link ("a" ++ toString i)) ++
        ((List.range n).map (fun i => Pad.link ("c" ++ toString i)) ++
          [Pad.link "agent", Pad.link "customer"]))).Nodup := by
  rw [List.nodup_append]
  refine ⟨?_, ?_, ?_⟩
  · rw [List.nodup_flatMap]
    constructor
    · intro i _
      simp
    · refine (List.pairwise_lt_range n).imp ?_
      intro i j hij
      show List.Disjoint _ _
      rw [List.disjoint_left]
      intro x hx hx'
      simp only [List.mem_cons, List.mem_singleton, List.not_mem_nil, or_false] at hx hx'
      have hne : i ≠ j := Nat.ne_of_lt hij
      rcases hx with rfl | rfl <;> rcases hx' with h | h
      · injection h with h
        exact hne h
      · cases h
      · cases h
      · injection h with h
        exact hne (label_injective "in" i j h)
  · rw [List.nodup_append]
    refine ⟨linkLabels_nodup "a" n, ?_, ?_⟩
    · rw [List.nodup_append]
      refine ⟨linkLabels_nodup "c" n, by decide, ?_⟩
      rw [List.disjoint_left]
      intro x hx hx'
      obtain ⟨i, -, rfl⟩ := List.mem_map.mp hx
      simp only [List.mem_cons, List.mem_singleton, List.not_mem_nil, or_false] at hx'
      rcases hx' with h | h
      · injection h with h
        exact (c_not_final i).1 h
      · injection h with h
        exact (c_not_final i).2.1 h
    · rw [List.disjoint_left]
      intro x hx hx'
      obtain ⟨i, -, rfl⟩ := List.mem_map.mp hx
      rcases List.mem_append.mp hx' with hx' | hx'
      · obtain ⟨j, -, h⟩ := List.mem_map.mp hx'
        injection h with h
        exact a_ne_c i j h.symm
      · simp only [List.mem_cons, List.mem_singleton, List.not_mem_nil, or_false] at hx'
        rcases hx' with h | h
        · injection h with h
          exact (a_not_final i).1 h
        · injection h with h
          exact (a_not_final i).2.1 h
  · rw [List.disjoint_left]
    intro x hx hx'
    obtain ⟨i, -, hxi⟩ := List.mem_flatMap.mp hx
    simp only [List.mem_cons, List.mem_singleton, List.not_mem_nil, or_false] at hxi
    rcases hxi with rfl | rfl
    · rcases List.mem_append.mp hx' with hx' | hx'
      · obtain ⟨j, -, h⟩ := List.mem_map.mp hx'
        cases h
      · rcases List.mem_append.mp hx' with hx' | hx'
        · obtain ⟨j, -, h⟩ := List.mem_map.mp hx'
          cases h
        · simp at hx'
    · rcases List.mem_append.mp hx' with hx' | hx'
      · obtain ⟨j, -, h⟩ := List.mem_map.mp hx'
        injection h with h
        exact in_ne_a i j h.symm
      · rcases List.mem_append.mp hx' with hx' | hx'
        · obtain ⟨j, -, h⟩ := List.mem_map.mp hx'
          injection h with h
          exact in_ne_c i j h.symm
        · simp only [List.mem_cons, List.mem_singleton, List.not_mem_nil, or_false] at hx'
          rcases hx' with h | h
          · injection h with h
            exact (in_not_final i).1 h
          · injection h with h
            exact (in_not_final i).2.1 h

theorem length_flatMap_range_nodes (g : Nat → List Filter) (n : Nat)
    (hg : ∀ i, i < n → (g i).length = 3) : ((List.range n).flatMap g).length = 3 * n := by
  induction n with
  | zero => simp
  | succ n ih =>
    rw [List.range_succ, List.flatMap_append, List.length_append, List.flatMap_singleton,
      ih (fun i hi => hg i (by omega)), hg n (by omega)]
    omega

theorem getElem?_flatMap_range_nodes (g : Nat → List Filter) (n : Nat)
    (hg : ∀ i, i < n → (g i).length = 3) (i j : Nat) (hi : i < n) (hj : j < 3) :
    ((List.range n).flatMap g)[3 * i + j]? = (g i)[j]? := by
  induction n with
  | zero => omega
  | succ n ih =>
    have hlen := length_flatMap_range_nodes g n (fun k hk => hg k (by omega))
    rw [List.range_succ, List.flatMap_append, List.flatMap_singleton]
    by_cases hin : i < n
    · rw [List.getElem?_append_left (by omega)]
      exact ih (fun k hk => hg k (by omega)) hin
    · have hi' : i = n := by omega
      subst hi'
      rw [List.getElem?_append_right (by omega), hlen]
      congr 1
      omega

theorem nodesAt_length (H : Host) (parsed : List Turn) (durations : List JSNumber)
    (hd : durations.length = parsed.length) (i : Nat) (hi : i < parsed.length) :
    (nodesAt H parsed durations i).length = 3 := by
  rw [nodesAt_eq H parsed durations i hi (by omega)]
  exact turnNodes_length H i _ _

theorem graph_getElem?_turn (H : Host) (parsed : List Turn) (durations : List JSNumber)
    (hd : durations.length = parsed.length) (i j : Nat) (hi : i < parsed.length) (hj : j < 3) :
    (graph H parsed durations)[3 * i + j]? = (nodesAt H parsed durations i)[j]? := by
  have hlen := length_flatMap_range_nodes (nodesAt H parsed durations) parsed.length
    (fun k hk => nodesAt_length H parsed durations hd k hk)
  unfold graph
  rw [List.getElem?_append_left (by rw [hlen]; omega),
    getElem?_flatMap_range_nodes _ _ (fun k hk => nodesAt_length H parsed durations hd k hk)
      i j hi hj]

theorem graph_getElem?_tail (H : Host) (parsed : List Turn) (durations : List JSNumber)
    (hd : durations.length = parsed.length) :
    (graph H parsed durations)[3 * parsed.length]? =
      some (concatNode "a" parsed.length "agent") ∧
    (graph H parsed durations)[3 * parsed.length + 1]? =
      some (concatNode "c" parsed.length "customer") ∧
    (graph H parsed durations)[3 * parsed.length + 2]? = some mergeNode := by
  have hlen := length_flatMap_range_nodes (nodesAt H parsed durations) parsed.length
    (fun k hk => nodesAt_length H parsed durations hd k hk)
  unfold graph
  refine ⟨?_, ?_, ?_⟩
  · rw [List.getElem?_append_right (by omega), hlen]
    simp
  · rw [List.getElem?_append_right (by omega), hlen]
    simp
  · rw [List.getElem?_append_right (by omega), hlen]
    simp

theorem graph_mem (H : Host) (parsed : List Turn) (durations : List JSNumber)
    (hd : durations.length = parsed.length) (f : Filter) (hf : f ∈ graph H parsed durations) :
    (∃ i, i < parsed.length ∧
      (f = normalizeNode i ∨ f = speechNode "a" i ∨ f = speechNode "c" i ∨
        ∃ d ch, f = silenceNode d ch i)) ∨
    f = concatNode "a" parsed.length "agent" ∨ f = concatNode "c" parsed.length "customer" ∨
    f = mergeNode := by
  unfold graph at hf
  rcases List.mem_append.mp hf with hf | hf
  · left
    obtain ⟨i, hi, hfi⟩ := List.mem_flatMap.mp hf
    have hi' : i < parsed.length := List.mem_range.mp hi
    rw [nodesAt_eq H parsed durations i hi' (by omega)] at hfi
    refine ⟨i, hi', ?_⟩
    unfold turnNodes at hfi
    split at hfi
    · simp only [List.mem_cons, List.mem_singleton, List.not_mem_nil, or_false] at hfi
      rcases hfi with h | h | h
      · exact Or.inl h
      · exact Or.inr (Or.inl h)
      · exact Or.inr (Or.inr (Or.inr ⟨_, _, h⟩))
    · simp only [List.mem_cons, List.mem_singleton, List.not_mem_nil, or_false] at hfi
      rcases hfi with h | h | h
      · exact Or.inl h
      · exact Or.inr (Or.inr (Or.inr ⟨_, _, h⟩))
      · exact Or.inr (Or.inr (Or.inl h))
  · right
    simpa using hf

theorem graph_consumers (H : Host) (parsed : List Turn) (durations : List JSNumber)
    (hd : durations.length = parsed.length) (f : Filter) (hf : f ∈ graph H parsed durations) :
    (∀ k, Pad.stream k ∈ f.inputs → k < parsed.length ∧ f = normalizeNode k) ∧
    (∀ L, Pad.link L ∈ f.inputs →
      (∃ i, i < parsed.length ∧ L = "in" ++ toString i ∧
        (f = speechNode "a" i ∨ f = speechNode "c" i)) ∨
      (∃ i, i < parsed.length ∧ L = "a" ++ toString i ∧
        f = concatNode "a" parsed.length "agent") ∨
      (∃ i, i < parsed.length ∧ L = "c" ++ toString i ∧
        f = concatNode "c" parsed.length "customer") ∨
      ((L = "agent" ∨ L = "customer") ∧ f = mergeNode)) := by
  rcases graph_mem H parsed durations hd f hf with ⟨i, hi, h | h | h | ⟨d, ch, h⟩⟩ | h | h | h
  · subst h
    constructor
    · intro k hk
      simp only [normalizeNode, List.mem_singleton, Pad.stream.injEq] at hk
      subst hk
      exact ⟨hi, rfl⟩
    · intro L hL
      simp [normalizeNode] at hL
  · subst h
    constructor
    · intro k hk
      simp [speechNode] at hk
    · intro L hL
      simp only [speechNode, List.mem_singleton, Pad.link.injEq] at hL
      exact Or.inl ⟨i, hi, hL, Or.inl rfl⟩
  · subst h
    constructor
    · intro k hk
      simp [speechNode] at hk
    · intro L hL
      simp only [speechNode, List.mem_singleton, Pad.link.injEq] at hL
      exact Or.inl ⟨i, hi, hL, Or.inr rfl⟩
  · subst h
    constructor
    · intro k hk
      simp [silenceNode] at hk
    · intro L hL
      simp [silenceNode] at hL
  · subst h
    constructor
    · intro k hk
      simp [concatNode] at hk
    · intro L hL
      simp only [concatNode, List.mem_map, List.mem_range, Pad.link.injEq] at hL
      obtain ⟨i, hi, hL⟩ := hL
      exact Or.inr (Or.inl ⟨i, hi, hL.symm, rfl⟩)
  · subst h
    constructor
    · intro k hk
      simp [concatNode] at hk
    · intro L hL
      simp only [concatNode, List.mem_map, List.mem_range, Pad.link.injEq] at hL
      obtain ⟨i, hi, hL⟩ := hL
      exact Or.inr (Or.inr (Or.inl ⟨i, hi, hL.symm, rfl⟩))
  · subst h
    constructor
    · intro k hk
      simp [mergeNode] at hk
    · intro L hL
      simp only [mergeNode, List.mem_cons, List.mem_singleton, Pad.link.injEq,
        List.not_mem_nil, or_false] at hL
      exact Or.inr (Or.inr (Or.inr ⟨hL, rfl⟩))

theorem mem_producedLabels (n : Nat) (L : String) :
    L ∈ (List.range n).flatMap
          (fun i => ["in" ++ toString i, "a" ++ toString i, "c" ++ toString i]) ++
        ["agent", "customer", "st"] ↔
      (∃ i, i < n ∧ (L = "in" ++ toString i ∨ L = "a" ++ toString i ∨ L = "c" ++ toString i)) ∨
        L = "agent" ∨ L = "customer" ∨ L = "st" := by
  simp only [List.mem_append, List.mem_flatMap, List.mem_range, List.mem_cons,
    List.mem_singleton, List.not_mem_nil, or_false]

theorem mem_consumedPads_link (n : Nat) (L : String) :
    Pad.link L ∈
        (List.range n).flatMap (fun i => [Pad.stream i, Pad.link ("in" ++ toString i)]) ++
          ((List.range n).map (fun i => Pad.link ("a" ++ toString i)) ++
            ((List.range n).map (fun i => Pad.link ("c" ++ toString i)) ++
              [Pad.link "agent", Pad.link "customer"])) ↔
      (∃ i, i < n ∧ (L = "in" ++ toString i ∨ L = "a" ++ toString i ∨ L = "c" ++ toString i)) ∨
        L = "agent" ∨ L = "customer" := by
  simp only [List.mem_append, List.mem_flatMap, List.mem_range, List.mem_cons,
    List.mem_singleton, List.not_mem_nil, or_false, List.mem_map, Pad.link.injEq, false_or,
    reduceCtorEq]
  constructor
  · rintro (⟨i, hi, h⟩ | ⟨i, hi, h⟩ | ⟨i, hi, h⟩ | h | h)
    · exact Or.inl ⟨i, hi, Or.inl h⟩
    · exact Or.inl ⟨i, hi, Or.inr (Or.inl h.symm)⟩
    · exact Or.inl ⟨i, hi, Or.inr (Or.inr h.symm)⟩
    · exact Or.inr (Or.inl h)
    · exact Or.inr (Or.inr h)
  · rintro (⟨i, hi, h | h | h⟩ | h | h)
    · exact Or.inl ⟨i, hi, h⟩
    · exact Or.inr (Or.inl ⟨i, hi, h.symm⟩)
    · exact Or.inr (Or.inr (Or.inl ⟨i, hi, h.symm⟩))
    · exact Or.inr (Or.inr (Or.inr (Or.inl h)))
    · exact Or.inr (Or.inr (Or.inr (Or.inr h)))

theorem mem_consumedPads_stream (n k : Nat) :
    Pad.stream k ∈
        (List.range n).flatMap (fun i => [Pad.stream i, Pad.link ("in" ++ toString i)]) ++
          ((List.range n).map (fun i => Pad.link ("a" ++ toString i)) ++
            ((List.range n).map (fun i => Pad.link ("c" ++ toString i)) ++
              [Pad.link "agent", Pad.link "customer"])) ↔ k < n := by
  simp only [List.mem_append, List.mem_flatMap, List.mem_range, List.mem_cons,
    List.mem_singleton, List.not_mem_nil, or_false, List.mem_map, Pad.stream.injEq,
    and_false, exists_false, reduceCtorEq]
  constructor
  · rintro ⟨i, hi, h⟩
    omega
  · intro h
    exact ⟨k, h, rfl⟩

/-- C18. Well-formedness of the filter graph. For arrays `parsed` and `durations` as long
as `filesAbs`, `filterParts` has `3 * n + 3` entries and is the text of the `graph`, filter
by filter. The labels produced are `in<i>`, `a<i>`, `c<i>` for `i < n`, `agent`, `customer`
and `st`, each by exactly one filter. A link label is consumed exactly when it is one of
the produced labels other than `st`, and then by exactly one input pad: `in<i>` by the
speech filter of turn `i`, `a<i>` by the agent concat, `c<i>` by the customer concat,
`agent` and `customer` by the merge. -/
theorem graph_well_formed (H : Host) (filesAbs : List String) (parsed : List Turn)
    (durations : List JSNumber) (hp : parsed.length = filesAbs.length)
    (hd : durations.length = filesAbs.length) :
    filterParts H filesAbs parsed durations = (graph H parsed durations).map Filter.text ∧
    (filterParts H filesAbs parsed durations).length = 3 * parsed.length + 3 ∧
    (∀ L, L ∈ producedLabels (graph H parsed durations) ↔
      (∃ i, i < parsed.length ∧
        (L = "in" ++ toString i ∨ L = "a" ++ toString i ∨ L = "c" ++ toString i)) ∨
      L = "agent" ∨ L = "customer" ∨ L = "st") ∧
    (∀ L, L ∈ producedLabels (graph H parsed durations) →
      (producedLabels (graph H parsed durations)).count L = 1) ∧
    (∀ L, Pad.link L ∈ consumedPads (graph H parsed durations) ↔
      L ∈ producedLabels (graph H parsed durations) ∧ L ≠ "st") ∧
    (∀ L, Pad.link L ∈ consumedPads (graph H parsed durations) →
      (consumedPads (graph H parsed durations)).count (Pad.link L) = 1) ∧
    (∀ f, f ∈ graph H parsed durations → ∀ L, Pad.link L ∈ f.inputs →
      (∃ i, i < parsed.length ∧ L = "in" ++ toString i ∧
        (f = speechNode "a" i ∨ f = speechNode "c" i)) ∨
      (∃ i, i < parsed.length ∧ L = "a" ++ toString i ∧
        f = concatNode "a" parsed.length "agent") ∨
      (∃ i, i < parsed.length ∧ L = "c" ++ toString i ∧
        f = concatNode "c" parsed.length "customer") ∨
      ((L = "agent" ∨ L = "customer") ∧ f = mergeNode)) := by
  have hd' : durations.length = parsed.length := by omega
  have hprod := producedLabels_graph H parsed durations hd'
  have hcons := consumedPads_graph H parsed durations hd'
  have htext := graph_text H filesAbs parsed durations hp hd
  refine ⟨htext, ?_, ?_, ?_, ?_, ?_, ?_⟩
  · rw [htext, List.length_map, graph_length H parsed durations hd']
  · intro L
    rw [hprod]
    exact mem_producedLabels parsed.length L
  · intro L hL
    refine List.count_eq_one_of_mem ?_ hL
    rw [hprod]
    exact producedLabels_nodup parsed.length
  · intro L
    rw [hcons, hprod, mem_consumedPads_link, mem_producedLabels]
    constructor
    · rintro (⟨i, hi, h | h | h⟩ | h | h)
      · exact ⟨Or.inl ⟨i, hi, Or.inl h⟩, by rw [h]; exact (in_not_final i).2.2⟩
      · exact ⟨Or.inl ⟨i, hi, Or.inr (Or.inl h)⟩, by rw [h]; exact (a_not_final i).2.2⟩
      · exact ⟨Or.inl ⟨i, hi, Or.inr (Or.inr h)⟩, by rw [h]; exact (c_not_final i).2.2⟩
      · exact ⟨Or.inr (Or.inl h), by rw [h]; decide⟩
      · exact ⟨Or.inr (Or.inr (Or.inl h)), by rw [h]; decide⟩
    · rintro ⟨h | h | h | h, hst⟩
      · exact Or.inl h
      · exact Or.inr (Or.inl h)
      · exact Or.inr (Or.inr h)
      · exact absurd h hst
  · intro L hL
    refine List.count_eq_one_of_mem ?_ hL
    rw [hcons]
    exact consumedPads_nodup parsed.length
  · intro f hf L hL
    exact (graph_consumers H parsed durations hd' f hf).2 L hL

/-- C18, worked example: the graph of the three turns agent, customer, agent has twelve
filters; it produces `in0` to `c2`, `agent`, `customer` and `st`, and consumes the three
input streams and every label but `st`. -/
theorem graph_well_formed_witness :
    (exampleTurns.length = exampleFiles.length ∧
      exampleDurations.length = exampleFiles.length) ∧
    (filterParts exampleHost exampleFiles exampleTurns exampleDurations).length =
      3 * exampleTurns.length + 3 ∧
    producedLabels (graph exampleHost exampleTurns exampleDurations) =
      ["in0", "a0", "c0", "in1", "a1", "c1", "in2", "a2", "c2", "agent", "customer", "st"] ∧
    consumedPads (graph exampleHost exampleTurns exampleDurations) =
      [Pad.stream 0, Pad.link "in0", Pad.stream 1, Pad.link "in1", Pad.stream 2,
        Pad.link "in2", Pad.link "a0", Pad.link "a1", Pad.link "a2", Pad.link "c0",
        Pad.link "c1", Pad.link "c2", Pad.link "agent", Pad.link "customer"] ∧
    (consumedPads (graph exampleHost exampleTurns exampleDurations)).count (Pad.link "in1") = 1 :=
  by
  have h := graph_well_formed exampleHost exampleFiles exampleTurns exampleDurations rfl rfl
  have hprod : producedLabels (graph exampleHost exampleTurns exampleDurations) =
      ["in0", "a0", "c0", "in1", "a1", "c1", "in2", "a2", "c2", "agent", "customer", "st"] := by
    rw [producedLabels_graph exampleHost exampleTurns exampleDurations rfl]
    decide
  have hcons : consumedPads (graph exampleHost exampleTurns exampleDurations) =
      [Pad.stream 0, Pad.link "in0", Pad.stream 1, Pad.link "in1", Pad.stream 2,
        Pad.link "in2", Pad.link "a0", Pad.link "a1", Pad.link "a2", Pad.link "c0",
        Pad.link "c1", Pad.link "c2", Pad.link "agent", Pad.link "customer"] := by
    rw [consumedPads_graph exampleHost exampleTurns exampleDurations rfl]
    decide
  refine ⟨⟨rfl, rfl⟩, h.2.1, hprod, hcons, ?_⟩
  exact h.2.2.2.2.2.1 "in1" (by rw [hcons]; decide)

/-! ## The normalisation filters -/

theorem normalizeFilter_data (i : Nat) :
    ∃ r : List Char, (normalizeFilter i).data = '[' :: ((toString i).data ++ ':' :: r) := by
  refine ⟨"a]aresample=48000,aformat=sample_fmts=s16:channel_layouts=mono[in".data ++
    ((toString i).data ++ [']']), ?_⟩
  simp only [normalizeFilter, String.data_append, List.append_assoc]
  rfl

theorem normalizeFilter_injective (i j : Nat) (h : normalizeFilter i = normalizeFilter j) :
    i = j := by
  obtain ⟨ri, hi⟩ := normalizeFilter_data i
  obtain ⟨rj, hj⟩ := normalizeFilter_data j
  have h2 := congrArg String.data h
  rw [hi, hj] at h2
  injection h2 with _ h3
  have hti := (takeWhile_dropWhile_split Char.isDigit (toString i).data ri ':'
    (toString_digits i).2 (by decide)).1
  have htj := (takeWhile_dropWhile_split Char.isDigit (toString j).data rj ':'
    (toString_digits j).2 (by decide)).1
  rw [h3, htj] at hti
  exact (toString_injective i j hti.symm)

theorem normalizeFilter_second (i : Nat) :
    ∃ c r, (normalizeFilter i).data = '[' :: c :: r ∧ c.isDigit = true := by
  obtain ⟨r, hr⟩ := normalizeFilter_data i
  obtain ⟨c, cs, hc, hd⟩ := toString_head i
  exact ⟨c, cs ++ ':' :: r, by rw [hr, hc]; rfl, hd⟩

theorem normalizeFilter_ne_speech (i j : Nat) (ch : String) :
    normalizeFilter i ≠ speechFilter ch j := by
  intro h
  obtain ⟨c, r, hc, hd⟩ := normalizeFilter_second i
  have h2 := congrArg String.data h
  rw [hc] at h2
  simp only [speechFilter, String.data_append, List.append_assoc] at h2
  have h3 : '[' :: c :: r = '[' :: 'i' :: ('n' :: ((toString j).data ++
      ("]asetpts=N/SR[".data ++ (ch.data ++ ((toString j).data ++ "]".data))))) := h2
  injection h3 with _ h4
  injection h4 with h5 _
  rw [h5] at hd
  revert hd
  decide

theorem normalizeFilter_ne_silence (i j : Nat) (d ch : String) :
    normalizeFilter i ≠ silenceFilter d ch j := by
  intro h
  obtain ⟨c, r, hc, -⟩ := normalizeFilter_second i
  have h2 := congrArg String.data h
  rw [hc] at h2
  simp [silenceFilter, String.data_append] at h2

theorem normalizeFilter_ne_merge (i : Nat) : normalizeFilter i ≠ mergeFilter := by
  intro h
  obtain ⟨c, r, hc, hd⟩ := normalizeFilter_second i
  have h2 := congrArg String.data h
  rw [hc] at h2
  have h3 : '[' :: c :: r = '[' :: 'a' :: "gent][customer]amerge=inputs=2,pan=stereo|c0=c0|c1=c1[st]".data :=
    h2
  injection h3 with _ h4
  injection h4 with h5 _
  rw [h5] at hd
  revert hd
  decide

theorem foldl_append_string (xs : List String) (acc : String) :
    xs.foldl (fun r s => r ++ s) acc = acc ++ xs.foldl (fun r s => r ++ s) "" := by
  induction xs generalizing acc with
  | nil => simp
  | cons x xs ih =>
    simp only [List.foldl_cons]
    rw [ih (acc ++ x), ih ("" ++ x), String.empty_append, String.append_assoc]

theorem join_cons (x : String) (xs : List String) :
    String.join (x :: xs) = x ++ String.join xs := by
  unfold String.join
  rw [List.foldl_cons, foldl_append_string, String.empty_append]

theorem concatFilter_nil_data (out : String) :
    ∃ r : List Char, (concatFilter [] out).data = 'c' :: r := by
  refine ⟨"oncat=n=0:v=0:a=1[".data ++ (out.data ++ "]".data), ?_⟩
  simp only [concatFilter, String.data_append, List.append_assoc]
  rfl

theorem concatFilter_cons_data (ch : String) (k : Nat) (ls : List String) (out : String) :
    ∃ r : List Char, (concatFilter (segLabel ch k :: ls) out).data = '[' :: (ch.data ++ r) := by
  refine ⟨(toString k).data ++ ("]".data ++ ((String.join ls).data ++ ("concat=n=".data ++
    ((toString (segLabel ch k :: ls).length).data ++ (":v=0:a=1[".data ++
      (out.data ++ "]".data)))))), ?_⟩
  simp only [concatFilter, join_cons, segLabel, String.data_append, List.append_assoc]
  rfl

theorem normalizeFilter_ne_concat (i n : Nat) (ch out : String) (c0 : Char) (cs : List Char)
    (hch : ch.data = c0 :: cs) (hc0 : c0.isDigit = false) :
    normalizeFilter i ≠ concatFilter ((List.range n).map (segLabel ch)) out := by
  intro h
  obtain ⟨c, r, hc, hd⟩ := normalizeFilter_second i
  have h2 := congrArg String.data h
  rw [hc] at h2
  cases n with
  | zero =>
    obtain ⟨r2, hr2⟩ := concatFilter_nil_data out
    have h3 : '[' :: c :: r = 'c' :: r2 := by rw [h2, ← hr2]; rfl
    injection h3 with h4 _
    revert h4
    decide
  | succ n =>
    rw [List.range_succ_eq_map, List.map_cons] at h2
    obtain ⟨r2, hr2⟩ := concatFilter_cons_data ch 0
      (List.map (segLabel ch) (List.map Nat.succ (List.range n))) out
    rw [hr2, hch] at h2
    injection h2 with _ h4
    injection h4 with h5 _
    rw [h5, hc0] at hd
    cases hd

theorem count_normalizeFilter_turn (H : Host) (i j : Nat) (role : String) (dur : JSNumber) :
    (turnFilters H j role dur).count (normalizeFilter i) = if j = i then 1 else 0 := by
  have h1 : ∀ ch, (speechFilter ch j == normalizeFilter i) = false := by
    intro ch
    rw [beq_eq_false_iff_ne]
    exact fun h => normalizeFilter_ne_speech i j ch h.symm
  have h2 : ∀ d ch, (silenceFilter d ch j == normalizeFilter i) = false := by
    intro d ch
    rw [beq_eq_false_iff_ne]
    exact fun h => normalizeFilter_ne_silence i j d ch h.symm
  unfold turnFilters
  by_cases hji : j = i
  · subst hji
    split <;> simp [List.count_cons, h1, h2]
  · have h3 : (normalizeFilter j == normalizeFilter i) = false := by
      rw [beq_eq_false_iff_ne]
      exact fun h => hji (normalizeFilter_injective j i h)
    split <;> simp [List.count_cons, h1, h2, h3, hji]

theorem count_normalizeFilter_loop (H : Host) (parsed : List Turn) (durations : List JSNumber)
    (hd : durations.length = parsed.length) (i m : Nat) (hm : m ≤ parsed.length) :
    ((List.range m).flatMap (filtersAt H parsed durations)).count (normalizeFilter i) =
      if i < m then 1 else 0 := by
  induction m with
  | zero => simp
  | succ m ih =>
    have hpm : m < parsed.length := by omega
    have hdm : m < durations.length := by omega
    have hfa : filtersAt H parsed durations m =
        turnFilters H m parsed[m].role durations[m] := by
      unfold filtersAt
      rw [List.getElem?_eq_getElem hpm, List.getElem?_eq_getElem hdm]
    rw [List.range_succ, List.flatMap_append, List.count_append, List.flatMap_singleton,
      ih (by omega), hfa, count_normalizeFilter_turn]
    by_cases h1 : i < m
    · have h2 : ¬ m = i := by omega
      have h3 : i < m + 1 := by omega
      simp [h1, h2, h3]
    · by_cases h2 : m = i
      · have h3 : i < m + 1 := by omega
        simp [h1, h2, h3]
      · have h3 : ¬ i < m + 1 := by omega
        simp [h1, h2, h3]

/-- C11. Normalisation. For arrays `parsed` and `durations` as long as `filesAbs` and every
turn index `i`: entry `3 * i` of `filterParts` is
`[i:a]aresample=48000,aformat=sample_fmts=s16:channel_layouts=mono[in<i>]`, and that text
occurs exactly once in `filterParts`; the stream `[i:a]` is consumed by that filter
alone; the speech filter of turn `i` is `[in<i>]asetpts=N/SR` with the output label of the
speaker's channel, so its one input is the label `in<i>`; and the silence filter of turn
`i` is `anullsrc=r=48000:cl=mono:d=` followed by `durations[i].toFixed(3)` and the output
label of the other channel. -/
theorem normalisation_once (H : Host) (filesAbs : List String) (parsed : List Turn)
    (durations : List JSNumber) (hp : parsed.length = filesAbs.length)
    (hd : durations.length = filesAbs.length) (i : Nat) (hi : i < filesAbs.length) :
    (filterParts H filesAbs parsed durations)[3 * i]? =
      some ("[" ++ toString i ++
        ":a]aresample=48000,aformat=sample_fmts=s16:channel_layouts=mono[in" ++
        toString i ++ "]") ∧
    (filterParts H filesAbs parsed durations).count
        ("[" ++ toString i ++
          ":a]aresample=48000,aformat=sample_fmts=s16:channel_layouts=mono[in" ++
          toString i ++ "]") = 1 ∧
    (graph H parsed durations)[3 * i]? = some (normalizeNode i) ∧
    (∀ f, f ∈ graph H parsed durations → Pad.stream i ∈ f.inputs → f = normalizeNode i) ∧
    (∀ f, f ∈ graph H parsed durations → Pad.link ("in" ++ toString i) ∈ f.inputs →
      f = speechNode "a" i ∨ f = speechNode "c" i) ∧
    ∃ p x, parsed[i]? = some p ∧ durations[i]? = some x ∧
      (p.role = "agent" →
        (graph H parsed durations)[3 * i + 1]? = some (speechNode "a" i) ∧
        (filterParts H filesAbs parsed durations)[3 * i + 1]? =
          some ("[in" ++ toString i ++ "]asetpts=N/SR[a" ++ toString i ++ "]") ∧
        (filterParts H filesAbs parsed durations)[3 * i + 2]? =
          some ("anullsrc=r=48000:cl=mono:d=" ++ toFixed H x 3 ++ "[c" ++ toString i ++ "]")) ∧
      (p.role ≠ "agent" →
        (graph H parsed durations)[3 * i + 2]? = some (speechNode "c" i) ∧
        (filterParts H filesAbs parsed durations)[3 * i + 2]? =
          some ("[in" ++ toString i ++ "]asetpts=N/SR[c" ++ toString i ++ "]") ∧
        (filterParts H filesAbs parsed durations)[3 * i + 1]? =
          some ("anullsrc=r=48000:cl=mono:d=" ++ toFixed H x 3 ++ "[a" ++ toString i ++ "]")) := by
  have hd' : durations.length = parsed.length := by omega
  have hpi : i < parsed.length := by omega
  have hdi : i < durations.length := by omega
  have hpe : parsed[i]? = some parsed[i] := List.getElem?_eq_getElem hpi
  have hxe : durations[i]? = some durations[i] := List.getElem?_eq_getElem hdi
  have hnorm : "[" ++ toString i ++
      ":a]aresample=48000,aformat=sample_fmts=s16:channel_layouts=mono[in" ++
      toString i ++ "]" = normalizeFilter i := by
    simp only [normalizeFilter, String.append_assoc]
    rfl
  have hspeech : ∀ ch : String, speechFilter ch i =
      "[in" ++ toString i ++ "]asetpts=N/SR[" ++ ch ++ toString i ++ "]" := fun _ => rfl
  have hsil : ∀ d ch : String, silenceFilter d ch i =
      "anullsrc=r=48000:cl=mono:d=" ++ d ++ "[" ++ ch ++ toString i ++ "]" := by
    intro d ch
    simp only [silenceFilter, String.append_assoc]
    rfl
  have hfa : filtersAt H parsed durations i = turnFilters H i parsed[i].role durations[i] := by
    simp only [filtersAt, hpe, hxe]
  have hna : nodesAt H parsed durations i = turnNodes H i parsed[i].role durations[i] :=
    nodesAt_eq H parsed durations i hpi hdi
  have hf0 := filterParts_getElem?_turn H filesAbs parsed durations hp hd i 0 hi (by omega)
  have hf1 := filterParts_getElem?_turn H filesAbs parsed durations hp hd i 1 hi (by omega)
  have hf2 := filterParts_getElem?_turn H filesAbs parsed durations hp hd i 2 hi (by omega)
  have hg0 := graph_getElem?_turn H parsed durations hd' i 0 hpi (by omega)
  have hg1 := graph_getElem?_turn H parsed durations hd' i 1 hpi (by omega)
  have hg2 := graph_getElem?_turn H parsed durations hd' i 2 hpi (by omega)
  rw [Nat.add_zero] at hf0 hg0
  rw [hfa] at hf0 hf1 hf2
  rw [hna] at hg0 hg1 hg2
  rw [hnorm]
  refine ⟨?_, ?_, ?_, ?_, ?_, parsed[i], durations[i], hpe, hxe, ?_, ?_⟩
  · rw [hf0]
    unfold turnFilters
    split <;> rfl
  · rw [filterParts_eq H filesAbs parsed durations hp hd, List.count_append,
      count_normalizeFilter_loop H parsed durations hd' i parsed.length (le_refl _)]
    have hc1 : (concatFilter ((List.range parsed.length).map (segLabel "a")) "agent" ==
        normalizeFilter i) = false := by
      rw [beq_eq_false_iff_ne]
      exact fun h => normalizeFilter_ne_concat i parsed.length "a" "agent" 'a' [] rfl
        (by decide) h.symm
    have hc2 : (concatFilter ((List.range parsed.length).map (segLabel "c")) "customer" ==
        normalizeFilter i) = false := by
      rw [beq_eq_false_iff_ne]
      exact fun h => normalizeFilter_ne_concat i parsed.length "c" "customer" 'c' [] rfl
        (by decide) h.symm
    have hc3 : (mergeFilter == normalizeFilter i) = false := by
      rw [beq_eq_false_iff_ne]
      exact fun h => normalizeFilter_ne_merge i h.symm
    simp [List.count_cons, hc1, hc2, hc3, hpi]
  · rw [hg0]
    unfold turnNodes
    split <;> rfl
  · intro f hf hs
    exact ((graph_consumers H parsed durations hd' f hf).1 i hs).2
  · intro f hf hl
    rcases (graph_consumers H parsed durations hd' f hf).2 _ hl with
      ⟨j, -, hj, h⟩ | ⟨j, -, hj, -⟩ | ⟨j, -, hj, -⟩ | ⟨hj, -⟩
    · have : i = j := label_injective "in" i j hj
      subst this
      exact h
    · exact absurd hj (in_ne_a i j)
    · exact absurd hj (in_ne_c i j)
    · rcases hj with hj | hj
      · exact absurd hj (in_not_final i).1
      · exact absurd hj (in_not_final i).2.1
  · intro hr
    refine ⟨?_, ?_, ?_⟩
    · rw [hg1]; simp [turnNodes, hr]
    · rw [hf1]; simp only [turnFilters, hr, if_true, List.getElem?_cons_succ,
        List.getElem?_cons_zero, hspeech, Option.some.injEq]
      apply String.ext; simp [String.data_append]
    · rw [hf2]; simp only [turnFilters, hr, if_true, List.getElem?_cons_succ,
        List.getElem?_cons_zero, hsil, Option.some.injEq]
      apply String.ext; simp [String.data_append]
  · intro hr
    refine ⟨?_, ?_, ?_⟩
    · rw [hg2]; simp [turnNodes, hr]
    · rw [hf2]; simp only [turnFilters, hr, if_false, List.getElem?_cons_succ,
        List.getElem?_cons_zero, hspeech, Option.some.injEq]
      apply String.ext; simp [String.data_append]
    · rw [hf1]; simp only [turnFilters, hr, if_false, List.getElem?_cons_succ,
        List.getElem?_cons_zero, hsil, Option.some.injEq]
      apply String.ext; simp [String.data_append]

/-- C11 at the three-turn conversation of `exampleTurns`, turn 1 (a customer turn): the
normalisation filter of input 1 is entry 3 of `filterParts` and occurs once there. -/
theorem normalisation_once_witness :
    (exampleTurns.length = exampleFiles.length ∧
      exampleDurations.length = exampleFiles.length ∧ 1 < exampleFiles.length) ∧
    (filterParts exampleHost exampleFiles exampleTurns exampleDurations)[3 * 1]? =
      some ("[" ++ toString 1 ++
        ":a]aresample=48000,aformat=sample_fmts=s16:channel_layouts=mono[in" ++
        toString 1 ++ "]") ∧
    (filterParts exampleHost exampleFiles exampleTurns exampleDurations).count
        ("[" ++ toString 1 ++
          ":a]aresample=48000,aformat=sample_fmts=s16:channel_layouts=mono[in" ++
          toString 1 ++ "]") = 1 ∧
    (graph exampleHost exampleTurns exampleDurations)[3 * 1]? = some (normalizeNode 1) :=
  ⟨⟨rfl, rfl, by decide⟩,
    (normalisation_once exampleHost exampleFiles exampleTurns exampleDurations rfl rfl 1
      (by decide)).1,
    (normalisation_once exampleHost exampleFiles exampleTurns exampleDurations rfl rfl 1
      (by decide)).2.1,
    (normalisation_once exampleHost exampleFiles exampleTurns exampleDurations rfl rfl 1
      (by decide)).2.2.1⟩

/-! ## Channel alignment -/

theorem roundedSeconds_uneven : roundedSeconds (1537 / 1024) = 1501 / 1000 := by
  unfold roundedSeconds
  rw [nearestScaled_eq (1537 / 1024) 3 1501 (by norm_num) (by norm_num)]
  norm_num

theorem toFixed_uneven (H : Host) : toFixed H (.finite (1537 / 1024)) 3 = "1.501" := by
  rw [toFixed_finite H _ _ (by norm_num) (by norm_num),
    nearestScaled_eq _ _ 1501 (by norm_num) (by norm_num)]
  decide

/-- C1, as amended. Channel alignment of the segment loop. For arrays `parsed` and
`durations` as long as `filesAbs` and every index `i` below that length, the loop pushes,
after the normalisation of input `i`, the filter of segment `[a_i]` at position
`3 * i + 1` and the filter of segment `[c_i]` at position `3 * i + 2`; they are the
filters of entry `i` of the agent and of the customer timeline. When turn `i` has role
`agent`, the agent segment is the speech of input `i` and the customer segment is the
`anullsrc` silence with the parameter `durations[i].toFixed(3)`; otherwise the agent
segment is that silence and the customer segment is the speech. A speech filter is
never a silence filter, so exactly one of the two is the speech, and it is on the agent
channel exactly when the role is `agent`. For a duration `q` that is positive and below
`10^21` the parameter of the silence is a decimal number whose value is `q` rounded to
the nearest millisecond: no multiple of a millisecond is nearer to `q`, it is within
0.0005 s of `q`, and it is `q` itself when `q` is a whole number of milliseconds. -/
theorem channel_alignment (H : Host) (filesAbs : List String) (parsed : List Turn)
    (durations : List JSNumber) (hp : parsed.length = filesAbs.length)
    (hd : durations.length = filesAbs.length) (i : Nat) (hi : i < filesAbs.length) :
    ∃ p x aSeg cSeg,
      parsed[i]? = some p ∧ durations[i]? = some x ∧
      (segmentLoop H filesAbs parsed durations).filterParts[3 * i + 1]? = some aSeg ∧
      (segmentLoop H filesAbs parsed durations).filterParts[3 * i + 2]? = some cSeg ∧
      (segmentLoop H filesAbs parsed durations).agentSegLabels[i]? = some (segLabel "a" i) ∧
      (segmentLoop H filesAbs parsed durations).customerSegLabels[i]? =
        some (segLabel "c" i) ∧
      ((p.role = "agent" ∧ aSeg = speechFilter "a" i ∧
          cSeg = silenceFilter (silenceParam H x) "c" i) ∨
        (p.role ≠ "agent" ∧ aSeg = silenceFilter (silenceParam H x) "a" i ∧
          cSeg = speechFilter "c" i)) ∧
      (aSeg = speechFilter "a" i ↔ p.role = "agent") ∧
      (cSeg = speechFilter "c" i ↔ p.role ≠ "agent") ∧
      (aSeg = speechFilter "a" i ↔ cSeg ≠ speechFilter "c" i) ∧
      (agentTimeline H parsed durations)[i]? = some (agentSegment H i p x) ∧
      (customerTimeline H parsed durations)[i]? = some (customerSegment H i p x) ∧
      aSeg = (agentSegment H i p x).filter "a" i ∧
      cSeg = (customerSegment H i p x).filter "c" i ∧
      silenceParam H x = toFixed H x 3 ∧
      (∀ q : ℚ, x = .finite q → 0 < q → q < 10 ^ 21 →
        decimalValue (silenceParam H x) = some (roundedSeconds q) ∧
        (∀ k : ℕ, |roundedSeconds q - q| ≤ |(k : ℚ) / 1000 - q|) ∧
        |roundedSeconds q - q| ≤ 1 / 2000 ∧
        (∀ k : ℕ, q = (k : ℚ) / 1000 → decimalValue (silenceParam H x) = some q)) := by
  have hpi : i < parsed.length := by omega
  have hdi : i < durations.length := by omega
  have hpe : parsed[i]? = some parsed[i] := List.getElem?_eq_getElem hpi
  have hxe : durations[i]? = some durations[i] := List.getElem?_eq_getElem hdi
  have h1 := segmentLoop_filterParts_getElem? H filesAbs parsed durations hp hd i 1 hi
    (by omega)
  have h2 := segmentLoop_filterParts_getElem? H filesAbs parsed durations hp hd i 2 hi
    (by omega)
  have hl := segmentLoop_eq H filesAbs parsed durations hp hd
  have hat := agentTimeline_getElem? H parsed durations i parsed[i] durations[i] hpe hxe
  have hct := customerTimeline_getElem? H parsed durations i parsed[i] durations[i] hpe hxe
  have hnum : ∀ q : ℚ, durations[i] = .finite q → 0 < q → q < 10 ^ 21 →
      decimalValue (silenceParam H durations[i]) = some (roundedSeconds q) ∧
      (∀ k : ℕ, |roundedSeconds q - q| ≤ |(k : ℚ) / 1000 - q|) ∧
      |roundedSeconds q - q| ≤ 1 / 2000 ∧
      (∀ k : ℕ, q = (k : ℚ) / 1000 →
        decimalValue (silenceParam H durations[i]) = some q) := by
    intro q hq h0 hlt
    rw [hq]
    have hv := silence_seconds H q (le_of_lt h0) hlt
    refine ⟨hv, roundedSeconds_nearest q (le_of_lt h0), roundedSeconds_abs q (le_of_lt h0), ?_⟩
    intro k hk
    rw [hv, hk, roundedSeconds_exact k]
  by_cases hr : parsed[i].role = "agent"
  · have hs := speech_ne_silence "c" "c" (silenceParam H durations[i]) i i
    refine ⟨parsed[i], durations[i], speechFilter "a" i,
      silenceFilter (silenceParam H durations[i]) "c" i, hpe, hxe, ?_, ?_, ?_, ?_,
      Or.inl ⟨hr, rfl, rfl⟩, by simp [hr], ?_, ?_, hat, hct, ?_, ?_, rfl, hnum⟩
    · rw [h1]; simp [filtersAt, hpe, hxe, turnFilters, hr]
    · rw [h2]; simp [filtersAt, hpe, hxe, turnFilters, hr, silenceParam]
    · rw [hl]; simp [hi]
    · rw [hl]; simp [hi]
    · simp only [hr, ne_eq, not_true_eq_false, iff_false]; exact fun h => hs h.symm
    · simp only [true_iff, ne_eq]; exact fun h => hs h.symm
    · simp only [agentSegment, hr, if_true]; rfl
    · simp only [customerSegment, hr, if_true]; rfl
  · have hs := speech_ne_silence "a" "a" (silenceParam H durations[i]) i i
    refine ⟨parsed[i], durations[i], silenceFilter (silenceParam H durations[i]) "a" i,
      speechFilter "c" i, hpe, hxe, ?_, ?_, ?_, ?_, Or.inr ⟨hr, rfl, rfl⟩, ?_, by simp [hr], ?_,
      hat, hct, ?_, ?_, rfl, hnum⟩
    · rw [h1]; simp [filtersAt, hpe, hxe, turnFilters, hr, silenceParam]
    · rw [h2]; simp [filtersAt, hpe, hxe, turnFilters, hr]
    · rw [hl]; simp [hi]
    · rw [hl]; simp [hi]
    · simp only [hr, iff_false]; exact fun h => hs h.symm
    · simp only [ne_eq, not_true_eq_false, iff_false]; exact fun h => hs h.symm
    · simp only [agentSegment, hr, if_false]; rfl
    · simp only [customerSegment, hr, if_false]; rfl

/-- C1, worked example of the amended statement. For the turns agent 2.0 s, customer
1.5 s, agent 3.0 s the three arrays have the same length and the alignment holds at
turn 1; the loop pushes speech, silence 1.500, speech on the agent channel and silence
2.000, speech, silence 3.000 on the customer channel; and the silence of turn 1, a whole
number of milliseconds, has the value 1.5 s of the turn. -/
theorem channel_alignment_witness :
    (exampleTurns.length = exampleFiles.length ∧
      exampleDurations.length = exampleFiles.length ∧ 1 < exampleFiles.length) ∧
    (∃ p x aSeg cSeg,
      exampleTurns[1]? = some p ∧ exampleDurations[1]? = some x ∧
      (segmentLoop exampleHost exampleFiles exampleTurns exampleDurations).filterParts[3 * 1 + 1]? =
        some aSeg ∧
      (segmentLoop exampleHost exampleFiles exampleTurns exampleDurations).filterParts[3 * 1 + 2]? =
        some cSeg ∧
      (segmentLoop exampleHost exampleFiles exampleTurns exampleDurations).agentSegLabels[1]? =
        some (segLabel "a" 1) ∧
      (segmentLoop exampleHost exampleFiles exampleTurns exampleDurations).customerSegLabels[1]? =
        some (segLabel "c" 1) ∧
      ((p.role = "agent" ∧ aSeg = speechFilter "a" 1 ∧
          cSeg = silenceFilter (silenceParam exampleHost x) "c" 1) ∨
        (p.role ≠ "agent" ∧ aSeg = silenceFilter (silenceParam exampleHost x) "a" 1 ∧
          cSeg = speechFilter "c" 1)) ∧
      (aSeg = speechFilter "a" 1 ↔ p.role = "agent") ∧
      (cSeg = speechFilter "c" 1 ↔ p.role ≠ "agent") ∧
      (aSeg = speechFilter "a" 1 ↔ cSeg ≠ speechFilter "c" 1) ∧
      (agentTimeline exampleHost exampleTurns exampleDurations)[1]? =
        some (agentSegment exampleHost 1 p x) ∧
      (customerTimeline exampleHost exampleTurns exampleDurations)[1]? =
        some (customerSegment exampleHost 1 p x) ∧
      aSeg = (agentSegment exampleHost 1 p x).filter "a" 1 ∧
      cSeg = (customerSegment exampleHost 1 p x).filter "c" 1 ∧
      silenceParam exampleHost x = toFixed exampleHost x 3 ∧
      (∀ q : ℚ, x = .finite q → 0 < q → q < 10 ^ 21 →
        decimalValue (silenceParam exampleHost x) = some (roundedSeconds q) ∧
        (∀ k : ℕ, |roundedSeconds q - q| ≤ |(k : ℚ) / 1000 - q|) ∧
        |roundedSeconds q - q| ≤ 1 / 2000 ∧
        (∀ k : ℕ, q = (k : ℚ) / 1000 →
          decimalValue (silenceParam exampleHost x) = some q))) ∧
    (segmentLoop exampleHost exampleFiles exampleTurns exampleDurations).filterParts =
      ["[0:a]aresample=48000,aformat=sample_fmts=s16:channel_layouts=mono[in0]",
        "[in0]asetpts=N/SR[a0]",
        "anullsrc=r=48000:cl=mono:d=2.000[c0]",
        "[1:a]aresample=48000,aformat=sample_fmts=s16:channel_layouts=mono[in1]",
        "anullsrc=r=48000:cl=mono:d=1.500[a1]",
        "[in1]asetpts=N/SR[c1]",
        "[2:a]aresample=48000,aformat=sample_fmts=s16:channel_layouts=mono[in2]",
        "[in2]asetpts=N/SR[a2]",
        "anullsrc=r=48000:cl=mono:d=3.000[c2]"] ∧
    agentTimeline exampleHost exampleTurns exampleDurations =
      [.speech 0, .silence "1.500", .speech 2] ∧
    customerTimeline exampleHost exampleTurns exampleDurations =
      [.silence "2.000", .speech 1, .silence "3.000"] ∧
    decimalValue (silenceParam exampleHost (.finite (3 / 2))) = some (3 / 2) := by
  have h := channel_alignment exampleHost exampleFiles exampleTurns exampleDurations rfl rfl 1
    (by decide)
  refine ⟨⟨rfl, rfl, by decide⟩, h, ?_, ?_, ?_, ?_⟩
  · rw [segmentLoop_eq exampleHost exampleFiles exampleTurns exampleDurations rfl rfl]
    have h3 : List.range exampleFiles.length = [0, 1, 2] := rfl
    simp only [h3, List.flatMap_cons, List.flatMap_nil, filtersAt, exampleTurns,
      exampleDurations, List.getElem?_cons_zero, List.getElem?_cons_succ, turnFilters,
      toFixed_two, toFixed_three_halves, toFixed_three]
    decide
  · have h3 : List.range exampleTurns.length = [0, 1, 2] := rfl
    unfold agentTimeline
    rw [h3]
    simp only [exampleTurns, exampleDurations, List.zip_cons_cons, List.zip_nil_right,
      List.zipWith_cons_cons, List.zipWith_nil_right, agentSegment, silenceParam,
      toFixed_three_halves]
    decide
  · have h3 : List.range exampleTurns.length = [0, 1, 2] := rfl
    unfold customerTimeline
    rw [h3]
    simp only [exampleTurns, exampleDurations, List.zip_cons_cons, List.zip_nil_right,
      List.zipWith_cons_cons, List.zipWith_nil_right, customerSegment, silenceParam,
      toFixed_two, toFixed_three]
    decide
  · obtain ⟨p, x, aSeg, cSeg, -, hx, -, -, -, -, -, -, -, -, -, -, -, -, -, hnum⟩ := h
    have hx1 : exampleDurations[1]? = some (.finite (3 / 2)) := rfl
    rw [hx1] at hx
    have hx2 : JSNumber.finite (3 / 2) = x := Option.some.inj hx
    subst hx2
    exact (hnum (3 / 2) rfl (by norm_num) (by norm_num)).2.2.2 1500 (by norm_num)

/-- C1, counterexample to the claim as stated. In the conversation agent 2 s, customer
1537/1024 s (1.5009765625 s), agent 3 s, turn 1 is a customer turn: its speech is on the
customer channel and the silence on the agent channel is emitted with `d=1.501`, whose
value 1.501 s is not the duration of turn 1. -/
theorem channel_alignment_inexact :
    exampleTurns.length = exampleFiles.length ∧
    (unevenDurations.map JSNumber.finite).length = exampleFiles.length ∧
    (∃ p, exampleTurns[1]? = some p ∧ p.role = "customer") ∧
    (unevenDurations.map JSNumber.finite)[1]? = some (.finite (1537 / 1024)) ∧
    (segmentLoop exampleHost exampleFiles exampleTurns
        (unevenDurations.map JSNumber.finite)).filterParts[3 * 1 + 1]? =
      some "anullsrc=r=48000:cl=mono:d=1.501[a1]" ∧
    (segmentLoop exampleHost exampleFiles exampleTurns
        (unevenDurations.map JSNumber.finite)).filterParts[3 * 1 + 2]? =
      some "[in1]asetpts=N/SR[c1]" ∧
    (agentTimeline exampleHost exampleTurns (unevenDurations.map JSNumber.finite))[1]? =
      some (.silence "1.501") ∧
    (customerTimeline exampleHost exampleTurns (unevenDurations.map JSNumber.finite))[1]? =
      some (.speech 1) ∧
    silenceParam exampleHost (.finite (1537 / 1024)) = "1.501" ∧
    decimalValue (silenceParam exampleHost (.finite (1537 / 1024))) = some (1501 / 1000) ∧
    decimalValue (silenceParam exampleHost (.finite (1537 / 1024))) ≠ some (1537 / 1024) := by
  have ht : toFixed exampleHost (.finite (1537 / 1024)) 3 = "1.501" := toFixed_uneven exampleHost
  have hv := silence_seconds exampleHost (1537 / 1024) (by norm_num) (by norm_num)
  rw [roundedSeconds_uneven] at hv
  have hp1 : exampleTurns[1]? =
      some { sortKey := "002", role := "customer", fileName := "002_customer.mp3" } := rfl
  have hx1 : (unevenDurations.map JSNumber.finite)[1]? = some (.finite (1537 / 1024)) := rfl
  refine ⟨rfl, rfl, ⟨_, hp1, rfl⟩, hx1, ?_, ?_, ?_, ?_, ht, hv, ?_⟩
  · rw [segmentLoop_filterParts_getElem? exampleHost exampleFiles exampleTurns _ rfl rfl 1 1
      (by decide) (by decide)]
    simp only [filtersAt, hp1, hx1, turnFilters, ht]
    decide
  · rw [segmentLoop_filterParts_getElem? exampleHost exampleFiles exampleTurns _ rfl rfl 1 2
      (by decide) (by decide)]
    simp only [filtersAt, hp1, hx1, turnFilters]
    decide
  · rw [agentTimeline_getElem? exampleHost exampleTurns _ 1 _ _ hp1 hx1]
    simp only [agentSegment, silenceParam, ht]
    decide
  · rw [customerTimeline_getElem? exampleHost exampleTurns _ 1 _ _ hp1 hx1]
    simp only [customerSegment]
    decide
  · rw [hv]
    intro h
    have h2 : (1501 : ℚ) / 1000 = 1537 / 1024 := Option.some.inj h
    norm_num at h2

end DemowareTts
